import Mathlib

/-!
Verification development for the BehaviorTree.CPP XML loader / instantiator /
writer (`src/xml_parsing.cpp`, `include/behaviortree_cpp/xml_parsing.h`).

The C++ code is shallowly embedded: XML documents become an inductive element
tree, the factory registry and the blackboard become explicit data, the
stateful instantiation pass becomes explicit state passing in `Except`, and
every C++ `throw` becomes an `Except.error` carrying a constructor of the
error taxonomy.  C++ undefined behaviour (reading a missing XML attribute
into `std::string`, dereferencing the null element inserted by
`operator[]` on a miss) is made explicit as dedicated error values.
-/

namespace BTS

/-- An XML element: tag name, attribute list (document order), child elements
(document order).  tinyxml2 rejects duplicate attribute names, so attribute
lists are assumed duplicate-free where it matters. -/
inductive XmlElem where
  | mk (ename : String) (attrs : List (String × String)) (children : List XmlElem)

def XmlElem.ename : XmlElem → String
  | .mk n _ _ => n

def XmlElem.attrs : XmlElem → List (String × String)
  | .mk _ a _ => a

def XmlElem.children : XmlElem → List XmlElem
  | .mk _ _ c => c

/-- `element->Attribute(k)`: first attribute with that name, if any. -/
def XmlElem.attr (e : XmlElem) (k : String) : Option String :=
  (e.attrs.find? (fun p => p.1 == k)).map (·.2)

/-- Kinds of tree nodes (`BT::NodeType`). -/
inductive NodeType where
  | ACTION | CONDITION | CONTROL | DECORATOR | SUBTREE
deriving DecidableEq, Repr

/-- Modelled from the spec: `toStr(NodeType)` lives in `basic_types.cpp`,
which is not part of the sources; §4.4 gives the kind tags `Action`,
`Decorator`, `Condition`, `SubTree` (and `Control` for completeness). -/
def toStrNT : NodeType → String
  | .ACTION => "Action"
  | .CONDITION => "Condition"
  | .CONTROL => "Control"
  | .DECORATOR => "Decorator"
  | .SUBTREE => "SubTree"

/-- Directions of ports (`BT::PortType`). -/
inductive PortType where
  | INPUT | OUTPUT | INOUT
deriving DecidableEq, Repr

/-- An opaque type token (`const std::type_info*`).  Two tokens are the same
type exactly when they are the same value (pointer equality); `tname` is the
demangled name used in error messages. -/
structure TypeToken where
  tid : Nat
  tname : String
deriving DecidableEq, Repr

/-- A port specification from a manifest: direction (`.type()`) and optional
type descriptor (`.info()`). -/
structure PortInfo where
  ptype : PortType
  info : Option TypeToken
deriving DecidableEq, Repr

/-- A node manifest (`BT::TreeNodeManifest`): kind, registration ID, port
map.  `ports` models `std::map` iteration, so entries are listed in
ascending key order. -/
structure TreeNodeManifest where
  type : NodeType
  registration_ID : String
  ports : List (String × PortInfo)
deriving DecidableEq, Repr

/-- The factory registry as consumed by the parser: `manifests()`,
`builders()` (its key set), `builtinNodes()`. -/
structure Factory where
  manifests : List (String × TreeNodeManifest)
  builders : List String
  builtinNodes : List String
deriving Repr

/-- Association-list lookup (first match), used for every map the code reads. -/
def alookup {α : Type} : List (String × α) → String → Option α
  | [], _ => none
  | p :: rest, k => if p.1 = k then some p.2 else alookup rest k

/-- `std::map` / `unordered_map` `operator[]=` on a canonically sorted
association list: insert or overwrite, keeping keys strictly ascending. -/
def smSet : List (String × String) → String → String → List (String × String)
  | [], k, v => [(k, v)]
  | (k0, v0) :: rest, k, v =>
    if k < k0 then (k, v) :: (k0, v0) :: rest
    else if k = k0 then (k, v) :: rest
    else (k0, v0) :: smSet rest k v

/-- `std::map::insert` on a sorted association list: insert only when the key
is absent. -/
def smInsertKeep : List (String × String) → String → String → List (String × String)
  | [], k, v => [(k, v)]
  | (k0, v0) :: rest, k, v =>
    if k < k0 then (k, v) :: (k0, v0) :: rest
    else if k = k0 then (k0, v0) :: rest
    else (k0, v0) :: smInsertKeep rest k v

/-- `unordered_map::insert` on tree roots: the first insertion for a key
wins, later duplicates are ignored. -/
def trInsert (m : List (String × XmlElem)) (k : String) (v : XmlElem) :
    List (String × XmlElem) :=
  if (alookup m k).isSome then m else m ++ [(k, v)]

/-- Key set (with multiplicity) of an association list. -/
def akeys {α : Type} (m : List (String × α)) : List String := m.map (·.1)

/-- Modelled from the spec: the blackboard storage engine
(`blackboard.h`, not part of the sources).  One scoped store: optional
parent, subtree remappings (internal key → external key in the parent),
registered port types.  Reads and writes of a remapped internal key are
redirected to the external key in the parent. -/
structure BBData where
  parent : Option Nat
  remap : List (String × String)
  types : List (String × TypeToken)
deriving Repr

/-- The heap of blackboards created during one instantiation; a blackboard
reference is an index into this list.  Children are always created after
their parent, so parent indices are strictly smaller. -/
abbrev BBHeap := List BBData

/-- Overwriting insert for the per-blackboard type registry. -/
def typesSet : List (String × TypeToken) → String → TypeToken →
    List (String × TypeToken)
  | [], k, t => [(k, t)]
  | (k0, t0) :: rest, k, t =>
    if k = k0 then (k, t) :: rest else (k0, t0) :: typesSet rest k t

/-- Modelled from the spec: `Blackboard::portType(key)`.  A remapped key is
read through the parent under its external name; otherwise the local
registry answers.  Ill-formed heaps (parent index not smaller) answer
`none`.  The fuel argument only totalizes the parent walk; since the guard
forces the index to decrease strictly, `id + 1` fuel is always enough. -/
def bbPortTypeA (heap : BBHeap) : Nat → Nat → String → Option TypeToken
  | 0, _, _ => none
  | fuel + 1, id, key =>
    match heap.get? id with
    | none => none
    | some bb =>
      match alookup bb.remap key with
      | some ext =>
        match bb.parent with
        | some p => if p < id then bbPortTypeA heap fuel p ext else none
        | none => none
      | none => alookup bb.types key

def bbPortType (heap : BBHeap) (id : Nat) (key : String) : Option TypeToken :=
  bbPortTypeA heap (id + 1) id key

/-- Modelled from the spec: `Blackboard::setPortType(key, type)`, with the
same redirection as `bbPortType`. -/
def bbSetPortTypeA (heap : BBHeap) : Nat → Nat → String → TypeToken → BBHeap
  | 0, _, _, _ => heap
  | fuel + 1, id, key, t =>
    match heap.get? id with
    | none => heap
    | some bb =>
      match alookup bb.remap key with
      | some ext =>
        match bb.parent with
        | some p => if p < id then bbSetPortTypeA heap fuel p ext t else heap
        | none => heap
      | none => heap.set id { bb with types := typesSet bb.types key t }

def bbSetPortType (heap : BBHeap) (id : Nat) (key : String) (t : TypeToken) :
    BBHeap :=
  bbSetPortTypeA heap (id + 1) id key t

def lbrace : Char := Char.ofNat 123

def rbrace : Char := Char.ofNat 125

/-- Modelled from the spec: `TreeNode::getRemappedKey` (`tree_node.cpp`, not
part of the sources).  An attribute value of the form `\x7bkey\x7d` denotes
the blackboard key `key`; anything else is a literal. -/
def getRemappedKey (value : String) : Option String :=
  if 2 ≤ value.data.length ∧ value.data.head? = some lbrace ∧
      value.data.getLast? = some rbrace then
    some ⟨(value.data.drop 1).dropLast⟩
  else
    none

/-- The error taxonomy of §7, plus explicit values for the C++ undefined
behaviour the code can reach. -/
inductive BTError where
  | XmlSyntaxError
  | SchemaError (msg : String)
  | ConfigurationError (msg : String)
  | UnknownNodeError (id : String)
  | TypoError (port : String) (id : String) (instanceName : String)
  | TypeMismatchError (key : String) (prevName : String) (newName : String)
  | UsageError (msg : String)
  | NullAttribute
  | NullElement
  | ManifestMissing (id : String)
  | OutOfFuel
deriving DecidableEq, Repr

/-- A filesystem path: absolute flag plus components.  Models
`filesystem::path` as used by the loader (no `.`/`..` normalization is
exercised by the code under test). -/
structure FsPath where
  isAbs : Bool
  comps : List String
deriving DecidableEq, Repr

/-- `operator/` of `filesystem::path`: join a (relative) path onto a base. -/
def FsPath.join (a b : FsPath) : FsPath :=
  ⟨a.isAbs, a.comps ++ b.comps⟩

/-- `parent_path()`: drop the last component. -/
def FsPath.parent (p : FsPath) : FsPath :=
  ⟨p.isAbs, p.comps.dropLast⟩

/-- Split a character list on `/`. -/
def splitSlash : List Char → List Char → List String
  | [], acc => [⟨acc.reverse⟩]
  | c :: rest, acc =>
    if c = '/' then ⟨acc.reverse⟩ :: splitSlash rest []
    else splitSlash rest (c :: acc)

/-- Parse a path string: a leading `/` makes it absolute. -/
def parsePath (s : String) : FsPath :=
  ⟨s.data.head? == some '/', (splitSlash s.data []).filter (fun c => c ≠ "")⟩

/-- `make_absolute()`: resolve a relative path against the given working
directory. -/
def makeAbsolute (cwd p : FsPath) : FsPath :=
  if p.isAbs then p else cwd.join p

/-- The file system seen by the loader: parsed content per absolute path,
plus the process working directory (`getcwd`). -/
structure Filesystem where
  files : List (FsPath × XmlElem)
  cwd : FsPath

def fsLookup (fs : Filesystem) (p : FsPath) : Option XmlElem :=
  (fs.files.find? (fun q => decide (q.1 = p))).map (·.2)

/-- The parser state (`XMLParser::Pimpl`): loaded documents, the tree-root
index, the include-resolution path cursor, the auto-ID counter. -/
structure ParserState where
  opened_documents : List XmlElem
  tree_roots : List (String × XmlElem)
  current_path : FsPath
  suffix_count : Nat

/-- `XMLParser::Pimpl` constructor state. -/
def initState (fs : Filesystem) : ParserState :=
  ⟨[], [], fs.cwd, 0⟩

/-- One `<BehaviorTree>` registration in `loadDocImpl`: key is the `ID`
attribute, else the auto-generated `BehaviorTree_<n>`; `insert` keeps the
first entry for a key. -/
def registerBT (st : List (String × XmlElem) × Nat) (bt : XmlElem) :
    List (String × XmlElem) × Nat :=
  match bt.attr "ID" with
  | some id => (trInsert st.1 id bt, st.2)
  | none => (trInsert st.1 ("BehaviorTree_" ++ toString st.2) bt, st.2 + 1)

/-- The `<BehaviorTree>` registration loop of `loadDocImpl`. -/
def registerDoc (roots : List (String × XmlElem)) (suffix : Nat)
    (doc : XmlElem) : List (String × XmlElem) × Nat :=
  (doc.children.filter (fun c => c.ename == "BehaviorTree")).foldl
    registerBT (roots, suffix)

/-- The four element names `verifyXML` treats as builtin control nodes. -/
def isBuiltinControlName (n : String) : Bool :=
  n == "Sequence" || n == "SequenceStar" || n == "Fallback" || n == "FallbackStar"

def isKindName (n : String) : Bool :=
  n == "Action" || n == "Decorator" || n == "SubTree" || n == "Condition"

mutual

/-- The recursive structural check (`recursiveStep`) of
`XMLParser::Pimpl::verifyXML`. -/
def verifyStep (factory : Factory) (roots : List (String × XmlElem)) :
    XmlElem → Except BTError Unit
  | .mk n attrs cs => do
    let el := XmlElem.mk n attrs cs
    let cc := cs.length
    if n == "Decorator" then
      if cc ≠ 1 then
        throw (.SchemaError "The node <Decorator> must have exactly 1 child")
      if (el.attr "ID").isNone then
        throw (.SchemaError "The node <Decorator> must have the attribute [ID]")
    else if n == "Action" then
      if cc ≠ 0 then
        throw (.SchemaError "The node <Action> must not have any child")
      if (el.attr "ID").isNone then
        throw (.SchemaError "The node <Action> must have the attribute [ID]")
    else if n == "Condition" then
      if cc ≠ 0 then
        throw (.SchemaError "The node <Condition> must not have any child")
      if (el.attr "ID").isNone then
        throw (.SchemaError "The node <Condition> must have the attribute [ID]")
    else if isBuiltinControlName n then
      if cc = 0 then
        throw (.SchemaError "A Control node must have at least 1 child")
    else if n == "SubTree" then
      for child in cs do
        if child.ename ≠ "remap" then
          throw (.SchemaError "<SubTree> accept only childs of type <remap>")
      if (el.attr "ID").isNone then
        throw (.SchemaError "The node <SubTree> must have the attribute [ID]")
    else
      if (alookup factory.manifests n).isNone && (alookup roots n).isNone then
        throw (.UnknownNodeError n)
    if n ≠ "SubTree" then
      verifyChildren factory roots cs

def verifyChildren (factory : Factory) (roots : List (String × XmlElem)) :
    List XmlElem → Except BTError Unit
  | [] => pure ()
  | c :: cs => do
    verifyStep factory roots c
    verifyChildren factory roots cs

end

/-- The main-tree-selection check at the end of `verifyXML`: `tree_names`
collects the explicit `ID` attributes of this document's `<BehaviorTree>`
children; a `main_tree_to_execute` value must be among them, and without
the attribute the document must hold exactly one tree. -/
def mainTreeCheck (doc : XmlElem) (bts : List XmlElem) : Except BTError Unit := do
  let tree_names := bts.filterMap (fun bt => bt.attr "ID")
  match doc.attr "main_tree_to_execute" with
  | some main_tree =>
    if ¬ tree_names.contains main_tree then
      throw (.SchemaError "The tree specified in [main_tree_to_execute] cannot be found")
  | none =>
    if bts.length ≠ 1 then
      throw (.SchemaError "Without [main_tree_to_execute] the file must contain a single BehaviorTree")

/-- `XMLParser::Pimpl::verifyXML` on one document whose root element is
`doc`, against the current tree-root index. -/
def verifyDoc (factory : Factory) (roots : List (String × XmlElem))
    (doc : XmlElem) : Except BTError Unit := do
  if doc.ename ≠ "root" then
    throw (.SchemaError "The XML must have a root node called <root>")
  let metas := doc.children.filter (fun c => c.ename == "TreeNodesModel")
  if 2 ≤ metas.length then
    throw (.SchemaError "Only a single node <TreeNodesModel> is supported")
  if 1 ≤ metas.length then
    for node in doc.children do
      if isKindName node.ename && (node.attr "ID").isNone then
        throw (.SchemaError "The attribute [ID] is mandatory")
  let bts := doc.children.filter (fun c => c.ename == "BehaviorTree")
  for bt in bts do
    if bt.children.length ≠ 1 then
      throw (.SchemaError "The node <BehaviorTree> must have exactly 1 child")
    else
      match bt.children.head? with
      | some c => verifyStep factory roots c
      | none => pure ()
  mainTreeCheck doc bts

def includeElems (root : XmlElem) : List XmlElem :=
  root.children.filter (fun c => c.ename == "include")

mutual

/-- `XMLParser::Pimpl::loadDocImpl`: error check, depth-first `<include>`
resolution, `<BehaviorTree>` registration, then validation of this document.
`none` stands for a document whose load or parse failed (`doc->Error()`).
Fuel bounds the include recursion (C++ recurses unboundedly on include
cycles).  Note that `current_path` is read but never written here. -/
def loadDocImpl (fs : Filesystem) (factory : Factory) :
    Nat → Option XmlElem → ParserState → Except BTError ParserState
  | 0, _, _ => throw .OutOfFuel
  | _ + 1, none, _ => throw .XmlSyntaxError
  | fuel + 1, some root, st => do
    let st1 ← goIncludes fs factory fuel (includeElems root) st
    let rs := registerDoc st1.tree_roots st1.suffix_count root
    let st2 := { st1 with tree_roots := rs.1, suffix_count := rs.2 }
    verifyDoc factory st2.tree_roots root
    pure st2

/-- The `<include>` loop of `loadDocImpl`.  A present `ros_pkg` attribute
throws, as in a build without ROS support.  Relative paths are joined
against `current_path`, which the loop never updates. -/
def goIncludes (fs : Filesystem) (factory : Factory) :
    Nat → List XmlElem → ParserState → Except BTError ParserState
  | _, [], st => pure st
  | 0, _ :: _, _ => throw .OutOfFuel
  | fuel + 1, inc :: rest, st => do
    let pathAttr ← match inc.attr "path" with
      | some p => pure p
      | none => throw .NullAttribute
    let fp := parsePath pathAttr
    if (inc.attr "ros_pkg").isSome then
      throw (.ConfigurationError "Using attribute [ros_pkg] in <include>, but this library was compiled without ROS support")
    let fp := if fp.isAbs then fp else st.current_path.join fp
    let st1 ← loadDocImpl fs factory fuel (fsLookup fs fp) st
    goIncludes fs factory fuel rest st1

end

/-- `XMLParser::loadFromFile`: load the document, move `current_path` to the
parent directory of the loaded file, then run `loadDocImpl`. -/
def loadFromFile (fs : Filesystem) (factory : Factory) (fuel : Nat)
    (filename : String) (st : ParserState) : Except BTError ParserState :=
  let fp := parsePath filename
  let doc := fsLookup fs (makeAbsolute fs.cwd fp)
  let st1 := { st with
    opened_documents := st.opened_documents ++ (doc.map ([·])).getD [],
    current_path := makeAbsolute fs.cwd fp.parent }
  loadDocImpl fs factory fuel doc st1

/-- `XMLParser::loadFromText`: `none` stands for text that fails to parse. -/
def loadFromText (fs : Filesystem) (factory : Factory) (fuel : Nat)
    (doc : Option XmlElem) (st : ParserState) : Except BTError ParserState :=
  let st1 := { st with
    opened_documents := st.opened_documents ++ (doc.map ([·])).getD [] }
  loadDocImpl fs factory fuel doc st1

/-- A constructed tree node as the parser observes it: identity, kind,
`NodeConfiguration` port maps, linked children (indices into `Tree.nodes`).
`subRemaps` is ghost instrumentation recording the `<remap>` pairs read when
this node (a SubTree placeholder) was expanded; it does not influence any
computation the code performs. -/
structure NodeInst where
  registration_ID : String
  instance_name : String
  type : NodeType
  input_ports : List (String × String)
  output_ports : List (String × String)
  children : List Nat
  subRemaps : List (String × String)
deriving Repr

/-- The mutable state of one `instantiateTree` run: the blackboard heap, the
output `Tree.nodes` sequence, the output `blackboard_stack` (heap indices). -/
structure InstState where
  heap : BBHeap
  nodes : List NodeInst
  stack : List Nat
deriving Repr

/-- The remapping-collection loop of `createNodeFromXML`: every attribute
except `ID` and `name`, as a canonically sorted map. -/
def collectRemapping (attrs : List (String × String)) : List (String × String) :=
  attrs.foldl (fun m p => if p.1 ≠ "ID" ∧ p.1 ≠ "name" then smSet m p.1 p.2 else m) []

/-- The typo check of `createNodeFromXML`: every remapping name must be a
manifest port. -/
def checkTypos (ID instName : String) (ports : List (String × PortInfo)) :
    List (String × String) → Except BTError Unit
  | [] => pure ()
  | r :: rest =>
    if (alookup ports r.1).isNone then
      throw (.TypoError r.1 ID instName)
    else
      checkTypos ID instName ports rest

/-- The port-type initialization loop of `createNodeFromXML`: for every
manifest port with a type descriptor whose remapping value is a blackboard
reference, register the type if the key has none, else require pointer
equality with the registered one. -/
def reconcilePorts (bbIdx : Nat) (remapping : List (String × String)) :
    List (String × PortInfo) → BBHeap → Except BTError BBHeap
  | [], heap => pure heap
  | (port_name, port) :: rest, heap =>
    match port.info with
    | none => reconcilePorts bbIdx remapping rest heap
    | some tok =>
      match alookup remapping port_name with
      | none => reconcilePorts bbIdx remapping rest heap
      | some value =>
        match getRemappedKey value with
        | none => reconcilePorts bbIdx remapping rest heap
        | some port_key =>
          match bbPortType heap bbIdx port_key with
          | none =>
            reconcilePorts bbIdx remapping rest (bbSetPortType heap bbIdx port_key tok)
          | some prev =>
            if prev ≠ tok then
              throw (.TypeMismatchError port_key prev.tname tok.tname)
            else
              reconcilePorts bbIdx remapping rest heap

/-- The `NodeConfiguration` loop of `createNodeFromXML`: each remapping
entry goes to `input_ports` unless its port direction is `OUTPUT`, and to
`output_ports` unless it is `INPUT`. -/
def buildPortsLoop (ports : List (String × PortInfo)) :
    List (String × String) → List (String × String) × List (String × String) →
    List (String × String) × List (String × String)
  | [], acc => acc
  | r :: rest, (inp, outp) =>
    match alookup ports r.1 with
    | none => buildPortsLoop ports rest (inp, outp)
    | some pi =>
      let inp2 := if pi.ptype ≠ PortType.OUTPUT then smInsertKeep inp r.1 r.2 else inp
      let outp2 := if pi.ptype ≠ PortType.INPUT then smInsertKeep outp r.1 r.2 else outp
      buildPortsLoop ports rest (inp2, outp2)

/-- The node-resolution phase of `createNodeFromXML`: registration-ID and
instance-name selection, remapping collection, typo check, port-type
reconciliation on the blackboard, `NodeConfiguration` assembly, node
construction.  A `DecoratorSubtreeNode` built directly (tree-root branch)
carries the empty registration name, since only the factory sets one. -/
def resolveNode (factory : Factory) (roots : List (String × XmlElem))
    (el : XmlElem) (bbIdx : Nat) (heap0 : BBHeap) :
    Except BTError (NodeInst × BBHeap) := do
  let element_name := el.ename
  let ID ←
    if element_name == "Action" || element_name == "Decorator" ||
        element_name == "Condition" then
      match el.attr "ID" with
      | some s => pure s
      | none => throw BTError.NullAttribute
    else
      pure element_name
  let instance_name0 := (el.attr "name").getD ID
  let instance_name ←
    if element_name == "SubTree" then
      match el.attr "ID" with
      | some s => pure s
      | none => throw BTError.NullAttribute
    else
      pure instance_name0
  let remapping := collectRemapping el.attrs
  if factory.builders.contains ID then do
    let manifest ← match alookup factory.manifests ID with
      | some m => pure m
      | none => throw (BTError.ManifestMissing ID)
    checkTypos ID instance_name manifest.ports remapping
    let heap ← reconcilePorts bbIdx remapping manifest.ports heap0
    let io := buildPortsLoop manifest.ports remapping ([], [])
    pure ((⟨ID, instance_name, manifest.type, io.1, io.2, [], []⟩ : NodeInst), heap)
  else if (alookup roots ID).isSome then
    pure ((⟨"", instance_name, NodeType.SUBTREE, [], [], [], []⟩ : NodeInst), heap0)
  else
    throw (BTError.UnknownNodeError ID)

/-- The parent-linking phase of `createNodeFromXML`: the new node will live
at index `nodes.length`; a control parent appends it (`addChild`), a
decorator or subtree parent replaces its single child (`setChild`), any
other parent is left alone (neither `dynamic_cast` succeeds). -/
def linkParent (nodes : List NodeInst) (parentIdx : Option Nat) : List NodeInst :=
  match parentIdx with
  | none => nodes
  | some p =>
    match nodes.get? p with
    | none => nodes
    | some pn =>
      match pn.type with
      | .CONTROL => nodes.set p { pn with children := pn.children ++ [nodes.length] }
      | .DECORATOR => nodes.set p { pn with children := [nodes.length] }
      | .SUBTREE => nodes.set p { pn with children := [nodes.length] }
      | _ => nodes

/-- `XMLParser::Pimpl::createNodeFromXML`: resolve the node against the
factory and the blackboard, then link it under its parent.  Returns the new
node (appended to `Tree.nodes` by the caller, so its index will be
`st.nodes.length`) and the updated state. -/
def createNodeFromXML (factory : Factory) (roots : List (String × XmlElem))
    (el : XmlElem) (bbIdx : Nat) (parentIdx : Option Nat) (st : InstState) :
    Except BTError (NodeInst × InstState) := do
  let nh ← resolveNode factory roots el bbIdx st.heap
  pure (nh.1, { st with heap := nh.2, nodes := linkParent st.nodes parentIdx })

/-- The `<remap internal=... external=...>` extraction of
`recursivelyCreateTree`. -/
def extractRemapPairs : List XmlElem → Except BTError (List (String × String))
  | [] => pure []
  | r :: rest => do
    let internalKey ← match r.attr "internal" with
      | some s => pure s
      | none => throw BTError.NullAttribute
    let externalKey ← match r.attr "external" with
      | some s => pure s
      | none => throw BTError.NullAttribute
    let tail ← extractRemapPairs rest
    pure ((internalKey, externalKey) :: tail)

mutual

/-- The `recursiveStep` closure of `recursivelyCreateTree`: create the node,
append it to `Tree.nodes`; a SubTree node then pushes one child blackboard
(parent: the current last stack element) populated with the `<remap>` pairs
and recurses into the referenced tree body; any other node recurses into the
XML children with the current blackboard. -/
def recStep (factory : Factory) (roots : List (String × XmlElem)) :
    Nat → Nat → Option Nat → XmlElem → InstState → Except BTError InstState
  | 0, _, _, _, _ => throw BTError.OutOfFuel
  | fuel + 1, bbIdx, parentIdx, el, st => do
    let r ← createNodeFromXML factory roots el bbIdx parentIdx st
    let node := r.1
    let st1 := r.2
    let idx := st1.nodes.length
    let st2 := { st1 with nodes := st1.nodes ++ [node] }
    if node.type = NodeType.SUBTREE then do
      let parentBB ← match st2.stack.getLast? with
        | some b => pure b
        | none => throw BTError.NullElement
      let remaps ← extractRemapPairs (el.children.filter (fun c => c.ename == "remap"))
      let newBB := st2.heap.length
      let st3 := { st2 with
        heap := st2.heap ++ [⟨some parentBB, remaps, []⟩],
        stack := st2.stack ++ [newBB],
        nodes := st2.nodes.set idx { node with subRemaps := remaps } }
      recTree factory roots fuel node.instance_name st3 (some idx) newBB
    else
      recChildren factory roots fuel bbIdx (some idx) el.children st2

/-- `recursivelyCreateTree` proper: look the tree ID up (`operator[]`
inserts a null element on a miss, which the code then dereferences), take
the root child element, recurse. -/
def recTree (factory : Factory) (roots : List (String × XmlElem)) :
    Nat → String → InstState → Option Nat → Nat → Except BTError InstState
  | 0, _, _, _, _ => throw BTError.OutOfFuel
  | fuel + 1, tree_ID, st, root_parent, bbIdx =>
    match alookup roots tree_ID with
    | none => throw BTError.NullElement
    | some bt =>
      match bt.children.head? with
      | none => throw BTError.NullElement
      | some rootEl => recStep factory roots fuel bbIdx root_parent rootEl st

/-- Child recursion of `recursiveStep`, in document order. -/
def recChildren (factory : Factory) (roots : List (String × XmlElem)) :
    Nat → Nat → Option Nat → List XmlElem → InstState → Except BTError InstState
  | _, _, _, [], st => pure st
  | 0, _, _, _ :: _, _ => throw BTError.OutOfFuel
  | fuel + 1, bbIdx, parentIdx, c :: cs, st => do
    let st1 ← recStep factory roots fuel bbIdx parentIdx c st
    recChildren factory roots fuel bbIdx parentIdx cs st1

end

/-- `XMLParser::instantiateTree`: select the main tree ID, require a
non-null root blackboard, seed the stack with it, recurse. -/
def instantiateTree (factory : Factory) (pst : ParserState) (fuel : Nat)
    (root_blackboard : Option BBData) : Except BTError InstState := do
  let xml_root ← match pst.opened_documents.head? with
    | some d => pure d
    | none => throw BTError.NullElement
  let main_tree_ID ← match xml_root.attr "main_tree_to_execute" with
    | some s => pure s
    | none =>
      match pst.tree_roots with
      | [r] => pure r.1
      | _ => throw (BTError.UsageError "[main_tree_to_execute] was not specified correctly")
  match root_blackboard with
  | none => throw (BTError.UsageError "XMLParser::instantiateTree needs a non-empty root_blackboard")
  | some bb0 =>
    let st0 : InstState := ⟨[bb0], [], [0]⟩
    recTree factory pst.tree_roots fuel main_tree_ID st0 none 0

/-- `Tree.root_node` after `instantiateTree`: the front of `Tree.nodes` when
non-empty, else null. -/
def rootNode (st : InstState) : Option Nat :=
  if st.nodes.length > 0 then some 0 else none

/-- A live tree node as `writeXML` walks it: kind, registration name,
instance name, the two port maps, and the children reachable through
`children()` / `child()`. -/
inductive WNode where
  | mk (wtype : NodeType) (regID : String) (iname : String)
      (inPorts : List (String × String)) (outPorts : List (String × String))
      (children : List WNode)

def WNode.wtype : WNode → NodeType
  | .mk t _ _ _ _ _ => t

def WNode.regID : WNode → String
  | .mk _ r _ _ _ _ => r

def WNode.iname : WNode → String
  | .mk _ _ i _ _ _ => i

def WNode.inPorts : WNode → List (String × String)
  | .mk _ _ _ p _ _ => p

def WNode.outPorts : WNode → List (String × String)
  | .mk _ _ _ _ p _ => p

def WNode.children : WNode → List WNode
  | .mk _ _ _ _ _ c => c

mutual

/-- The `recursiveVisitor` closure of `writeXML`: element name, `ID` and
`name` attributes, input-port attributes, output-port attributes not
shadowing an input one, then the children (`children()` for a control node,
`child()` for a decorator or subtree node, nothing for a leaf). -/
def writeNode (factory : Factory) (compact : Bool) : WNode → XmlElem
  | .mk ty regID iname inP outP cs =>
    let node_type :=
      if ty = NodeType.CONTROL then regID
      else if compact && (alookup factory.manifests regID).isSome then regID
      else toStrNT ty
    let attrs1 : List (String × String) :=
      if node_type ≠ regID ∧ regID ≠ "" then [("ID", regID)] else []
    let attrs2 :=
      if node_type ≠ iname ∧ iname ≠ "" ∧ iname ≠ regID then
        attrs1 ++ [("name", iname)]
      else attrs1
    let attrs3 := attrs2 ++ inP ++ outP.filter (fun p => (alookup inP p.1).isNone)
    let kids : List XmlElem :=
      match ty with
      | .CONTROL => writeNodeList factory compact cs
      | .DECORATOR => writeNodeList factory compact cs
      | .SUBTREE => writeNodeList factory compact cs
      | _ => []
    XmlElem.mk node_type attrs3 kids

def writeNodeList (factory : Factory) (compact : Bool) : List WNode → List XmlElem
  | [] => []
  | c :: cs => writeNode factory compact c :: writeNodeList factory compact cs

end

/-- One direction's semicolon-joined port-name list of the
`<TreeNodesModel>` section: each matching name is appended followed by a
`;` (the loop appends in list order; string concatenation is associative,
so the association of the appends is immaterial). -/
def portListStr (dir : PortType) : List (String × PortInfo) → String
  | [] => ""
  | p :: rest =>
    if p.2.ptype = dir then p.1 ++ ";" ++ portListStr dir rest
    else portListStr dir rest

/-- `str.resize(str.size() - 1)`: drop the final character (the trailing
`;`, a one-byte character, so dropping the last byte drops the last
character). -/
def dropLastChar (s : String) : String :=
  ⟨s.data.dropLast⟩

/-- The attributes of one `<TreeNodesModel>` entry: the `ID`, then one
attribute per non-empty direction group, with the trailing separator
removed. -/
def modelAttrs (m : TreeNodeManifest) : List (String × String) :=
  let base := [("ID", m.registration_ID)]
  let inS := portListStr PortType.INPUT m.ports
  let outS := portListStr PortType.OUTPUT m.ports
  let ioS := portListStr PortType.INOUT m.ports
  let a1 := if inS ≠ "" then base ++ [("input_ports", dropLastChar inS)] else base
  let a2 := if outS ≠ "" then a1 ++ [("output_ports", dropLastChar outS)] else a1
  if ioS ≠ "" then a2 ++ [("inout_ports", dropLastChar ioS)] else a2

/-- The `<TreeNodesModel>` section of `writeXML`: one element per manifest
that is neither a builtin node nor of `CONTROL` type. -/
def treeNodesModel (factory : Factory) : XmlElem :=
  XmlElem.mk "TreeNodesModel" []
    ((factory.manifests.filter
        (fun mm => !(factory.builtinNodes.contains mm.1) &&
          !(mm.2.type == NodeType.CONTROL))).map
      (fun mm => XmlElem.mk (toStrNT mm.2.type) (modelAttrs mm.2) []))

/-- `BT::writeXML`, as the document element tree it prints: a `<root>`
holding the serialized `<BehaviorTree>` (when the root node is non-null)
followed by the `<TreeNodesModel>` section. -/
def writeXML (factory : Factory) (root : Option WNode) (compact : Bool) :
    XmlElem :=
  XmlElem.mk "root" []
    ((match root with
      | some r => [XmlElem.mk "BehaviorTree" [] [writeNode factory compact r]]
      | none => []) ++ [treeNodesModel factory])

/-- Read the node graph rooted at index `i` back out of `Tree.nodes` as a
`WNode` tree.  `fuel` bounds the depth; constructed trees have child links
that strictly increase, so `nodes.length` is always enough fuel. -/
def extractWNode (nodes : List NodeInst) : Nat → Nat → WNode
  | _, 0 => .mk .ACTION "" "" [] [] []
  | i, fuel + 1 =>
    match nodes.get? i with
    | none => .mk .ACTION "" "" [] [] []
    | some n =>
      .mk n.type n.registration_ID n.instance_name n.input_ports n.output_ports
        (n.children.map (fun j => extractWNode nodes j fuel))

/-- `BT::buildTreeFromText`: one parser, `loadFromText`, `instantiateTree`. -/
def buildTreeFromText (fs : Filesystem) (factory : Factory) (fuel : Nat)
    (doc : Option XmlElem) (bb : Option BBData) : Except BTError InstState := do
  let pst ← loadFromText fs factory fuel doc (initState fs)
  instantiateTree factory pst fuel bb

/-- The main-tree selection and root-element lookup performed by
`instantiateTree`, as a pure observation of the parser state. -/
def selectedTreeRoot (pst : ParserState) : Option XmlElem := do
  let xml_root ← pst.opened_documents.head?
  let mid ← match xml_root.attr "main_tree_to_execute" with
    | some s => some s
    | none =>
      match pst.tree_roots with
      | [r] => some r.1
      | _ => none
  let bt ← alookup pst.tree_roots mid
  bt.children.head?

/- ===== Spec-side definitions, used only to state refinement claims ===== -/

/-- The semicolon-separated list as the spec words it: names joined by a
single `;`, no trailing separator. -/
def specSemicolonJoin : List String → String
  | [] => ""
  | [n] => n
  | n :: rest => n ++ ";" ++ specSemicolonJoin rest

/-- The port names of one direction group, in manifest order. -/
def dirPortNames (dir : PortType) (ports : List (String × PortInfo)) :
    List String :=
  (ports.filter (fun p => p.2.ptype == dir)).map (·.1)

/-- The `<TreeNodesModel>` entry attributes as the spec describes them:
`ID`, then one semicolon-joined list per non-empty direction group. -/
def specModelAttrs (m : TreeNodeManifest) : List (String × String) :=
  let base := [("ID", m.registration_ID)]
  let inN := dirPortNames PortType.INPUT m.ports
  let outN := dirPortNames PortType.OUTPUT m.ports
  let ioN := dirPortNames PortType.INOUT m.ports
  let a1 := if inN ≠ [] then base ++ [("input_ports", specSemicolonJoin inN)] else base
  let a2 := if outN ≠ [] then a1 ++ [("output_ports", specSemicolonJoin outN)] else a1
  if ioN ≠ [] then a2 ++ [("inout_ports", specSemicolonJoin ioN)] else a2

/- ===== Invariant predicates the claims are stated with ===== -/

/-- Well-formed blackboard heap: parents precede children, and a blackboard
holding subtree remappings has a parent to redirect them to. -/
def heapWF (heap : BBHeap) : Prop :=
  ∀ i bbd, heap.get? i = some bbd →
    (∀ p, bbd.parent = some p → p < i) ∧ (bbd.remap ≠ [] → bbd.parent.isSome)

/-- Pre-order shape of `Tree.nodes`: every node's child indices are larger
than its own index, strictly increasing left to right (siblings in document
order), and in range. -/
def nodesWF (nodes : List NodeInst) : Prop :=
  ∀ i n, nodes.get? i = some n →
    List.Chain' (· < ·) (i :: n.children) ∧ ∀ j ∈ n.children, j < nodes.length

/-- The SubTree placeholder nodes of a tree, in `Tree.nodes` order, which is
also the order of the subtree expansions. -/
def subtreeNodes (st : InstState) : List NodeInst :=
  st.nodes.filter (fun n => n.type == NodeType.SUBTREE)

/-- Every blackboard of the stack except the first has the immediately
preceding stack entry as its parent. -/
def stackChain (st : InstState) : Prop :=
  ∀ i a b, st.stack.get? i = some a → st.stack.get? (i + 1) = some b →
    ∃ bbd, st.heap.get? b = some bbd ∧ bbd.parent = some a

/-- The `k`-th subtree expansion produced the `k+1`-st stack entry, and
that blackboard carries exactly the `<remap>` pairs read at the expansion
(recorded in the ghost field `subRemaps`). -/
def stackRemaps (st : InstState) : Prop :=
  ∀ k n, (subtreeNodes st).get? k = some n →
    ∃ b bbd, st.stack.get? (k + 1) = some b ∧ st.heap.get? b = some bbd ∧
      bbd.remap = n.subRemaps

/-- The ghost `<remap>` records of the subtree nodes, in node order: the
projection of `subtreeNodes` that parent-linking (which only rewrites
`children` fields) cannot change. -/
def subRemapsProj (nodes : List NodeInst) : List (List (String × String)) :=
  (nodes.filter (fun n => n.type == NodeType.SUBTREE)).map (fun n => n.subRemaps)

/-- Validity of a parent index passed into the recursion. -/
def parentOK (nodes : List NodeInst) : Option Nat → Prop
  | none => True
  | some p => p < nodes.length

/-- The state invariant backing C5: a non-empty stack of in-range
blackboards, one stack entry (beyond the root) per subtree node, each
parented on its immediate predecessor and carrying that expansion's
`<remap>` pairs. -/
def instInv (st : InstState) : Prop :=
  st.stack ≠ [] ∧
  st.stack.length = 1 + (subRemapsProj st.nodes).length ∧
  (∀ b ∈ st.stack, b < st.heap.length) ∧
  (∀ i a b, st.stack.get? i = some a → st.stack.get? (i + 1) = some b →
    ∃ bbd, st.heap.get? b = some bbd ∧ bbd.parent = some a) ∧
  (∀ k r, (subRemapsProj st.nodes).get? k = some r →
    ∃ b bbd, st.stack.get? (k + 1) = some b ∧ st.heap.get? b = some bbd ∧
      bbd.remap = r)

/-- Classification for C2: the run either succeeded, or failed with one of
the errors the validator is not expected to rule out (port typos, port type
conflicts) or by fuel exhaustion (the C++ recursion is unbounded on cyclic
subtree references). -/
def noStructuralError : Except BTError InstState → Prop
  | .ok _ => True
  | .error (.TypoError _ _ _) => True
  | .error (.TypeMismatchError _ _ _) => True
  | .error .OutOfFuel => True
  | .error _ => False

/-- A `<remap>` element carries both attributes the expansion reads. -/
def remapAttrsOK (c : XmlElem) : Bool :=
  (c.attr "internal").isSome && (c.attr "external").isSome

mutual

/-- Sufficient per-element conditions (beyond validation) under which
instantiation raises no structural error: `Action`/`Decorator`/`Condition`
`ID` attributes name registered non-subtree builders, `SubTree` elements
reference existing trees through a registered `SubTree` builtin of subtree
kind with well-formed `<remap>` children, and every other element name is a
registered non-subtree builder. -/
def instOK (factory : Factory) (rootIDs : List String) : XmlElem → Bool
  | .mk n attrs cs =>
    let el := XmlElem.mk n attrs cs
    if n == "Action" || n == "Decorator" || n == "Condition" then
      (match el.attr "ID" with
       | some id =>
         factory.builders.contains id &&
         (match alookup factory.manifests id with
          | some m => !(m.type == NodeType.SUBTREE)
          | none => false)
       | none => false) &&
      instOKList factory rootIDs cs
    else if n == "SubTree" then
      (match el.attr "ID" with
       | some t => rootIDs.contains t
       | none => false) &&
      factory.builders.contains "SubTree" &&
      (match alookup factory.manifests "SubTree" with
       | some m => m.type == NodeType.SUBTREE
       | none => false) &&
      (cs.filter (fun c => c.ename == "remap")).all remapAttrsOK
    else
      factory.builders.contains n &&
      (match alookup factory.manifests n with
       | some m => !(m.type == NodeType.SUBTREE)
       | none => false) &&
      instOKList factory rootIDs cs

def instOKList (factory : Factory) (rootIDs : List String) :
    List XmlElem → Bool
  | [] => true
  | c :: cs => instOK factory rootIDs c && instOKList factory rootIDs cs

end

/-- Every registered tree body is a single element satisfying `instOK`. -/
def instDocOK (factory : Factory) (roots : List (String × XmlElem)) : Bool :=
  roots.all (fun p =>
    match p.2.children with
    | [c] => instOK factory (akeys roots) c
    | _ => false)

/-- The element names `createNodeFromXML` gives dedicated meaning to. -/
def reservedKindName (s : String) : Bool :=
  s == "Action" || s == "Decorator" || s == "Condition" || s == "SubTree"

mutual

/-- Conditions under which writing a tree and re-parsing it reproduces it
exactly (C1): no `SubTree` elements, every element resolves to a registered
builder whose registration ID is neither empty nor a reserved kind tag and
whose manifest kind is not `SubTree`, the element's arity matches the kind
the writer emits children for (one child under a decorator, none under a
leaf), and an explicit `name` attribute is either the registration ID
itself or a non-empty string distinct from the element name the writer will
choose. -/
def rtOK (factory : Factory) : XmlElem → Bool
  | .mk n attrs cs =>
    let el := XmlElem.mk n attrs cs
    let idOpt : Option String :=
      if n == "Action" || n == "Decorator" || n == "Condition" then el.attr "ID"
      else if n == "SubTree" then none
      else some n
    (match idOpt with
     | none => false
     | some id =>
       id ≠ "" && !(reservedKindName id) && factory.builders.contains id &&
       (match alookup factory.manifests id with
        | none => false
        | some m =>
          !(m.type == NodeType.SUBTREE) &&
          (match m.type with
           | NodeType.DECORATOR => cs.length == 1
           | NodeType.ACTION => cs.length == 0
           | NodeType.CONDITION => cs.length == 0
           | NodeType.CONTROL => !(isBuiltinControlName id) || !(cs.length == 0)
           | _ => true) &&
          (match el.attr "name" with
           | none => true
           | some a =>
             a == id ||
             (a ≠ "" && a ≠ (if m.type == NodeType.CONTROL then id else toStrNT m.type))))) &&
    rtOKList factory cs

def rtOKList (factory : Factory) : List XmlElem → Bool
  | [] => true
  | c :: cs => rtOK factory c && rtOKList factory cs

end

/- ===== Concrete fixtures for counterexamples and witnesses ===== -/

def fsEmpty : Filesystem := ⟨[], ⟨true, ["cwd"]⟩⟩

def bbRoot : BBData := ⟨none, [], []⟩

def emptyInst : InstState := ⟨[], [], []⟩

def tokInt : TypeToken := ⟨1, "int"⟩

def tokStr : TypeToken := ⟨2, "std::string"⟩

/-- A registry holding one action `Ping`. -/
def facPing : Factory := ⟨[("Ping", ⟨.ACTION, "Ping", []⟩)], ["Ping"], []⟩

/-- C2 counterexample input: the `ID` attribute `Foo` is not registered,
which the validator never checks. -/
def docUnknownID : XmlElem :=
  .mk "root" [] [.mk "BehaviorTree" [] [.mk "Action" [("ID", "Foo")] []]]

/-- C6 counterexample input: `main_tree_to_execute` names the auto-generated
index key of the only tree, which has no `ID` attribute. -/
def docAutoMain : XmlElem :=
  .mk "root" [("main_tree_to_execute", "BehaviorTree_0")]
    [.mk "BehaviorTree" [] [.mk "Action" [("ID", "Ping")] []]]

/-- C7 fixture: a tree document with one action. -/
def docLeaf7 : XmlElem :=
  .mk "root" [] [.mk "BehaviorTree" [("ID", "T2")] [.mk "Action" [("ID", "Ping")] []]]

/-- C7 fixture: a document that includes `inc2.xml` by a relative path. -/
def docInc7 : XmlElem :=
  .mk "root" []
    [.mk "include" [("path", "inc2.xml")] [],
     .mk "BehaviorTree" [("ID", "T1")] [.mk "Action" [("ID", "Ping")] []]]

/-- C7 fixture: the primary document, including `sub/inc1.xml`. -/
def docMain7 : XmlElem :=
  .mk "root" [("main_tree_to_execute", "T0")]
    [.mk "include" [("path", "sub/inc1.xml")] [],
     .mk "BehaviorTree" [("ID", "T0")] [.mk "Action" [("ID", "Ping")] []]]

/-- C7 counterexample filesystem: `inc2.xml` exists in the directory of the
file that includes it (`/a/sub/`), where the claim says the relative path is
resolved. -/
def fsClaim7 : Filesystem :=
  ⟨[(⟨true, ["a", "main.xml"]⟩, docMain7),
    (⟨true, ["a", "sub", "inc1.xml"]⟩, docInc7),
    (⟨true, ["a", "sub", "inc2.xml"]⟩, docLeaf7)], ⟨true, []⟩⟩

/-- C7 filesystem matching the code's actual resolution: `inc2.xml` next to
the top-level file (`/a/`). -/
def fsCode7 : Filesystem :=
  ⟨[(⟨true, ["a", "main.xml"]⟩, docMain7),
    (⟨true, ["a", "sub", "inc1.xml"]⟩, docInc7),
    (⟨true, ["a", "inc2.xml"]⟩, docLeaf7)], ⟨true, []⟩⟩

/-- C8 counterexample: a registry whose only manifest is a non-builtin
control node. -/
def facCtrl : Factory := ⟨[("MyCtrl", ⟨.CONTROL, "MyCtrl", []⟩)], ["MyCtrl"], []⟩

/-- S5 registry: two actions binding differently typed ports. -/
def facPorts : Factory :=
  ⟨[("PortA", ⟨.ACTION, "PortA", [("x", ⟨.INPUT, some tokInt⟩)]⟩),
    ("PortB", ⟨.ACTION, "PortB", [("y", ⟨.INPUT, some tokStr⟩)]⟩),
    ("Sequence", ⟨.CONTROL, "Sequence", []⟩)],
   ["PortA", "PortB", "Sequence"], ["Sequence"]⟩

/-- S5 document: both ports route to `{shared}`. -/
def docS5 : XmlElem :=
  .mk "root" [] [.mk "BehaviorTree" [] [.mk "Sequence" []
    [.mk "Action" [("ID", "PortA"), ("x", "\x7bshared\x7d")] [],
     .mk "Action" [("ID", "PortB"), ("y", "\x7bshared\x7d")] []]]]

/-- Subtree-scenario registry. -/
def facSub : Factory :=
  ⟨[("Ping", ⟨.ACTION, "Ping", []⟩),
    ("SubTree", ⟨.SUBTREE, "SubTree", []⟩),
    ("Sequence", ⟨.CONTROL, "Sequence", []⟩)],
   ["Ping", "SubTree", "Sequence"], ["Sequence", "SubTree"]⟩

/-- Subtree-scenario document: the main tree expands `Sub` with one remap. -/
def docSub : XmlElem :=
  .mk "root" [("main_tree_to_execute", "Main")]
    [.mk "BehaviorTree" [("ID", "Main")]
      [.mk "Sequence" []
        [.mk "SubTree" [("ID", "Sub")]
          [.mk "remap" [("internal", "in"), ("external", "outer_k")] []]]],
     .mk "BehaviorTree" [("ID", "Sub")] [.mk "Action" [("ID", "Ping")] []]]

/-- The parser state after loading the subtree scenario. -/
def pstSub : ParserState :=
  (loadFromText fsEmpty facSub 20 (some docSub) (initState fsEmpty)).toOption.getD
    (initState fsEmpty)

/-- The tree instantiated from the subtree scenario. -/
def stSub : InstState :=
  (instantiateTree facSub pstSub 20 (some bbRoot)).toOption.getD emptyInst

/-- Round-trip registry: a control, a decorator and an action with typed
and directed ports. -/
def facRT : Factory :=
  ⟨[("Seq1", ⟨.CONTROL, "Seq1", []⟩),
    ("Inv", ⟨.DECORATOR, "Inv", []⟩),
    ("Say", ⟨.ACTION, "Say",
      [("io", ⟨.INOUT, none⟩), ("msg", ⟨.INPUT, some tokStr⟩),
       ("out", ⟨.OUTPUT, none⟩)]⟩)],
   ["Seq1", "Inv", "Say"], []⟩

/-- Round-trip document: subtree-free, mixing `<Action ID=...>` reference
style with direct element-name reference and an instance name. -/
def docRT : XmlElem :=
  .mk "root" []
    [.mk "BehaviorTree" []
      [.mk "Seq1" []
        [.mk "Action" [("ID", "Say"), ("msg", "\x7bk\x7d")] [],
         .mk "Inv" []
           [.mk "Say" [("name", "mySay"), ("out", "\x7bo\x7d")] []]]]]

/-- The parser state after loading `/a/main.xml` from `fsCode7`. -/
def pstC7 : ParserState :=
  (loadFromFile fsCode7 facPing 10 "/a/main.xml" (initState fsCode7)).toOption.getD
    (initState fsCode7)

/-- C9 fixture: a first tree registered under ID `T`. -/
def btT1 : XmlElem := .mk "BehaviorTree" [("ID", "T")] [.mk "Action" [("ID", "Ping")] []]

/-- C9 fixture: a different tree carrying the same ID `T`. -/
def btT2 : XmlElem := .mk "BehaviorTree" [("ID", "T")] [.mk "Action" [("ID", "Pong")] []]

/-- C9 fixture: a document declaring the duplicate tree. -/
def docDupT : XmlElem := .mk "root" [] [btT2]

/-- The parser state after loading the round-trip document. -/
def pstRT : ParserState :=
  (loadFromText fsEmpty facRT 20 (some docRT) (initState fsEmpty)).toOption.getD
    (initState fsEmpty)

/-- The tree instantiated from the round-trip document. -/
def stRT : InstState :=
  (instantiateTree facRT pstRT 20 (some bbRoot)).toOption.getD emptyInst

/-- The errors the C2 claim allows instantiation to keep raising (the
validator is not expected to rule them out). -/
def allowedErr : BTError → Prop
  | .TypoError _ _ _ => True
  | .TypeMismatchError _ _ _ => True
  | _ => False

/-- C2 counterexample fixture: the parser state after the validator accepts
the document whose action names the unregistered ID `Foo`. -/
def pstUnknown : ParserState :=
  (loadFromText fsEmpty facPing 20 (some docUnknownID) (initState fsEmpty)).toOption.getD
    (initState fsEmpty)

/-- The port-direction filters of the `NodeConfiguration` loop: a remapping
entry lands in `input_ports` when its manifest port direction is not pure
output, in `output_ports` when it is not pure input; entries whose name is
no manifest port are skipped. -/
def fInB (ports : List (String × PortInfo)) (r : String × String) : Bool :=
  match alookup ports r.1 with
  | some pi => decide (pi.ptype ≠ PortType.OUTPUT)
  | none => false

def fOutB (ports : List (String × PortInfo)) (r : String × String) : Bool :=
  match alookup ports r.1 with
  | some pi => decide (pi.ptype ≠ PortType.INPUT)
  | none => false

/-- The children list of a parent node after one sibling-creation pass: each
control sibling appends itself (`addChild`), each decorator/subtree sibling
replaces the single child (`setChild`). -/
def updChildren (ty : NodeType) (old : List Nat) (J : List Nat) : List Nat :=
  J.foldl (fun acc j =>
    match ty with
    | .CONTROL => acc ++ [j]
    | .DECORATOR => [j]
    | .SUBTREE => [j]
    | _ => acc) old

/- ============================ Theorems ============================ -/

/- ---- association-list and string helper lemmas ---- -/

theorem alookup_append {α : Type} (m l : List (String × α)) (k : String) :
    alookup (m ++ l) k =
      match alookup m k with
      | some v => some v
      | none => alookup l k := by
  induction m with
  | nil => simp [alookup]
  | cons p rest ih =>
    by_cases h : p.1 = k <;> simp [alookup, h, ih]

theorem alookup_append_left {α : Type} (m l : List (String × α)) (k : String)
    (h : (alookup m k).isSome) : alookup (m ++ l) k = alookup m k := by
  rw [alookup_append]
  cases hm : alookup m k with
  | none => rw [hm] at h; simp at h
  | some v => rfl

theorem alookup_trInsert (m : List (String × XmlElem)) (k k2 : String)
    (v : XmlElem) (h : (alookup m k).isSome) :
    alookup (trInsert m k2 v) k = alookup m k := by
  unfold trInsert
  by_cases h2 : (alookup m k2).isSome
  · simp [h2]
  · simp [h2, alookup_append_left m _ k h]

theorem trInsert_isSome (m : List (String × XmlElem)) (k k2 : String)
    (v : XmlElem) (h : (alookup m k).isSome) :
    (alookup (trInsert m k2 v) k).isSome := by
  rw [alookup_trInsert m k k2 v h]; exact h

theorem registerBT_fold_preserves (bts : List XmlElem) (k : String) :
    ∀ (m : List (String × XmlElem)) (suffix : Nat), (alookup m k).isSome →
      alookup ((bts.foldl registerBT (m, suffix)).1) k = alookup m k := by
  induction bts with
  | nil => intro m suffix h; rfl
  | cons bt rest ih =>
    intro m suffix h
    simp only [List.foldl_cons]
    cases hid : bt.attr "ID" with
    | some id =>
      have step : registerBT (m, suffix) bt = (trInsert m id bt, suffix) := by
        simp [registerBT, hid]
      rw [step, ih _ _ (trInsert_isSome m k id bt h), alookup_trInsert m k id bt h]
    | none =>
      have step : registerBT (m, suffix) bt =
          (trInsert m ("BehaviorTree_" ++ toString suffix) bt, suffix + 1) := by
        simp [registerBT, hid]
      rw [step, ih _ _ (trInsert_isSome m k _ bt h), alookup_trInsert m k _ bt h]

/- ---- string lemmas for the model section ---- -/

theorem string_eq_of_data (a b : String) (h : a.data = b.data) : a = b := by
  cases a; cases b; simp_all

theorem portListStr_eq_trailing (dir : PortType) (ports : List (String × PortInfo)) :
    portListStr dir ports =
      (dirPortNames dir ports).foldr (fun n acc => n ++ ";" ++ acc) "" := by
  induction ports with
  | nil => rfl
  | cons p rest ih =>
    by_cases h : p.2.ptype = dir
    · have hb : (p.2.ptype == dir) = true := by simp [h]
      simp only [portListStr, if_pos h, dirPortNames, List.filter_cons, hb, ite_true,
        List.map_cons, List.foldr_cons]
      rw [ih]; rfl
    · have hb : (p.2.ptype == dir) = false := by simp [h]
      simp only [portListStr, if_neg h, dirPortNames, List.filter_cons, hb, ite_false]
      exact ih

theorem trailing_ne_empty (n : String) (names : List String) :
    (n ++ ";" ++ names.foldr (fun n acc => n ++ ";" ++ acc) "") ≠ "" := by
  intro h
  have hd := congrArg String.data h
  simp [String.data_append] at hd

theorem trailing_data_ne_nil (n : String) (names : List String) :
    (n ++ ";" ++ names.foldr (fun n acc => n ++ ";" ++ acc) "").data ≠ [] := by
  intro h
  simp [String.data_append] at h

theorem dropLastChar_trailing (names : List String) (h : names ≠ []) :
    dropLastChar (names.foldr (fun n acc => n ++ ";" ++ acc) "") =
      specSemicolonJoin names := by
  induction names with
  | nil => exact absurd rfl h
  | cons n rest ih =>
    cases rest with
    | nil =>
      apply string_eq_of_data
      simp [dropLastChar, specSemicolonJoin, String.data_append]
    | cons m rest2 =>
      apply string_eq_of_data
      have hT := trailing_data_ne_nil m rest2
      have hr := congrArg String.data (ih (by simp))
      simp only [dropLastChar] at hr
      simp only [List.foldr_cons, dropLastChar, specSemicolonJoin,
        String.data_append] at hr ⊢
      have hne2 : m.data ++ [';'] ++
          (List.foldr (fun n acc => n ++ ";" ++ acc) "" rest2).data ≠ [] := by
        simp
      rw [List.dropLast_append_of_ne_nil _ hne2, hr]

theorem modelAttrs_eq_spec (m : TreeNodeManifest) :
    modelAttrs m = specModelAttrs m := by
  have key : ∀ dir, (portListStr dir m.ports ≠ "" ↔ dirPortNames dir m.ports ≠ []) ∧
      (dirPortNames dir m.ports ≠ [] →
        dropLastChar (portListStr dir m.ports) =
          specSemicolonJoin (dirPortNames dir m.ports)) := by
    intro dir
    constructor
    · rw [portListStr_eq_trailing]
      cases hn : dirPortNames dir m.ports with
      | nil => simp
      | cons n rest => simp [trailing_ne_empty n rest]
    · intro hne
      rw [portListStr_eq_trailing]
      exact dropLastChar_trailing _ hne
  unfold modelAttrs specModelAttrs
  have hin := key PortType.INPUT
  have hout := key PortType.OUTPUT
  have hio := key PortType.INOUT
  by_cases h1 : dirPortNames PortType.INPUT m.ports = [] <;>
    by_cases h2 : dirPortNames PortType.OUTPUT m.ports = [] <;>
      by_cases h3 : dirPortNames PortType.INOUT m.ports = [] <;>
        simp_all

/- ---- claim theorems: C10, C9, C8, C6 ---- -/

/-- C10: `writeXML` with a null root node does not fail; the resulting
document's `<root>` contains no `<BehaviorTree>` element and exactly one
`<TreeNodesModel>` section derived from the factory manifests. -/
theorem writeXML_null_root (factory : Factory) (compact : Bool) :
    (writeXML factory none compact).ename = "root" ∧
    (writeXML factory none compact).children.filter
      (fun c => c.ename == "BehaviorTree") = [] ∧
    (writeXML factory none compact).children.filter
      (fun c => c.ename == "TreeNodesModel") = [treeNodesModel factory] := by
  refine ⟨rfl, ?_, ?_⟩ <;>
    simp [writeXML, treeNodesModel, XmlElem.ename, XmlElem.children]

/-- C9: when a tree ID is already present in the TreeRootIndex, a later
`insert` with the same ID leaves the index unchanged (the first-inserted
element is retained, looked up by instantiation), and registering any
further document preserves the existing binding; registration itself is a
total function, so the duplication raises no error. -/
theorem duplicate_treeID_first_wins (m : List (String × XmlElem)) (k : String)
    (v : XmlElem) (h : (alookup m k).isSome) :
    trInsert m k v = m ∧
    ∀ (doc : XmlElem) (suffix : Nat),
      alookup (registerDoc m suffix doc).1 k = alookup m k := by
  constructor
  · simp [trInsert, h]
  · intro doc suffix
    exact registerBT_fold_preserves _ k m suffix h

theorem duplicate_treeID_first_wins_witness :
    (alookup [("T", btT1)] "T").isSome = true ∧
    trInsert [("T", btT1)] "T" btT2 = [("T", btT1)] ∧
    alookup (registerDoc [("T", btT1)] 0 docDupT).1 "T" = some btT1 := by
  refine ⟨rfl, ?_, ?_⟩
  · exact (duplicate_treeID_first_wins [("T", btT1)] "T" btT2 (by rfl)).1
  · exact ((duplicate_treeID_first_wins [("T", btT1)] "T" btT2 (by rfl)).2
      docDupT 0).trans rfl

/-- C8 counterexample: `MyCtrl` is a manifest and not a builtin node, yet
the `<TreeNodesModel>` section emitted by `writeXML` contains no element at
all, because the writer also skips every manifest of `CONTROL` type. -/
theorem treeNodesModel_skips_control :
    facCtrl.builtinNodes = [] ∧
    (alookup facCtrl.manifests "MyCtrl").isSome = true ∧
    writeXML facCtrl none false =
      XmlElem.mk "root" [] [XmlElem.mk "TreeNodesModel" [] []] :=
  ⟨rfl, rfl, rfl⟩

/-- C8 (amended): the `<TreeNodesModel>` section holds one element per
manifest that is neither a builtin node nor of `CONTROL` type; each element
carries the manifest `ID` and, per direction with a non-empty group, the
port names joined by single semicolons with no trailing separator. -/
theorem treeNodesModel_entries (factory : Factory) :
    (treeNodesModel factory).ename = "TreeNodesModel" ∧
    (treeNodesModel factory).children =
      (factory.manifests.filter
        (fun mm => !(factory.builtinNodes.contains mm.1) &&
          !(mm.2.type == NodeType.CONTROL))).map
        (fun mm => XmlElem.mk (toStrNT mm.2.type) (specModelAttrs mm.2) []) := by
  refine ⟨rfl, ?_⟩
  simp only [treeNodesModel, XmlElem.children]
  exact List.map_congr_left (fun mm _ => by rw [modelAttrs_eq_spec])

/-- C6 counterexample: the only tree is registered in the TreeRootIndex
under the auto-generated key `BehaviorTree_0`, the primary document selects
exactly that key, and yet validation fails — the check consults only the
explicit `ID` attributes of the current document, not the TreeRootIndex. -/
theorem mainTree_autoID_rejected :
    akeys (registerDoc [] 0 docAutoMain).1 = ["BehaviorTree_0"] ∧
    docAutoMain.attr "main_tree_to_execute" = some "BehaviorTree_0" ∧
    loadFromText fsEmpty facPing 10 (some docAutoMain) (initState fsEmpty) =
      .error (.SchemaError
        "The tree specified in [main_tree_to_execute] cannot be found") :=
  ⟨rfl, rfl, rfl⟩

/-- C6 (amended): the main-tree-selection check of `verifyXML` is per
document and consults only the explicit `ID` attributes of that document's
`<BehaviorTree>` children: with `main_tree_to_execute` present it passes
exactly when some `<BehaviorTree>` child carries that value as its `ID`
attribute, and with the attribute absent it passes exactly when the
document holds exactly one `<BehaviorTree>`. -/
theorem mainTreeCheck_characterization (doc : XmlElem) :
    mainTreeCheck doc (doc.children.filter (fun c => c.ename == "BehaviorTree")) =
        .ok () ↔
      (match doc.attr "main_tree_to_execute" with
       | some mt => ∃ bt ∈ doc.children, bt.ename = "BehaviorTree" ∧
           bt.attr "ID" = some mt
       | none =>
         (doc.children.filter (fun c => c.ename == "BehaviorTree")).length = 1) := by
  have hmem : ∀ mt : String,
      mt ∈ (doc.children.filter (fun c => c.ename == "BehaviorTree")).filterMap
          (fun bt => bt.attr "ID") ↔
        ∃ bt ∈ doc.children, bt.ename = "BehaviorTree" ∧ bt.attr "ID" = some mt := by
    intro mt
    constructor
    · intro hm
      rcases List.mem_filterMap.mp hm with ⟨bt, hbt, hid⟩
      rcases List.mem_filter.mp hbt with ⟨hmem2, hname⟩
      exact ⟨bt, hmem2, by simpa using hname, hid⟩
    · rintro ⟨bt, hbt, hname, hid⟩
      exact List.mem_filterMap.mpr ⟨bt, List.mem_filter.mpr ⟨hbt, by simp [hname]⟩, hid⟩
  cases hattr : doc.attr "main_tree_to_execute" with
  | some mt =>
    simp only [mainTreeCheck, hattr]
    by_cases hc : mt ∈ (doc.children.filter
        (fun c => c.ename == "BehaviorTree")).filterMap (fun bt => bt.attr "ID")
    · rw [if_neg (not_not_intro (List.elem_eq_true_of_mem hc))]
      exact iff_of_true rfl ((hmem mt).mp hc)
    · rw [if_pos (fun hcon => hc (List.mem_of_elem_eq_true hcon))]
      refine iff_of_false (by simp [throw, throwThe, MonadExcept.throw]) ?_
      rintro ⟨bt, hbt, hname, hid⟩
      exact hc ((hmem mt).mpr ⟨bt, hbt, hname, hid⟩)
  | none =>
    simp only [mainTreeCheck, hattr]
    by_cases hl : (doc.children.filter (fun c => c.ename == "BehaviorTree")).length = 1
    · rw [if_neg (by simp [hl])]
      exact iff_of_true rfl hl
    · rw [if_pos (by simp [hl])]
      exact iff_of_false (by simp [throw, throwThe, MonadExcept.throw]) hl

/- ---- Except-monad reduction helpers ---- -/

theorem except_bind_ok {α β ε : Type} (a : α) (f : α → Except ε β) :
    (Except.ok a >>= f) = f a := rfl

theorem except_bind_err {α β ε : Type} (e : ε) (f : α → Except ε β) :
    ((Except.error e : Except ε α) >>= f) = Except.error e := rfl

theorem except_pure_eq {α ε : Type} (a : α) :
    (pure a : Except ε α) = Except.ok a := rfl

theorem except_throw_eq {α ε : Type} (e : ε) :
    (throw e : Except ε α) = Except.error e := rfl

/- ---- C7 ---- -/

/-- C7 counterexample: the primary file `/a/main.xml` includes
`sub/inc1.xml`, which includes `inc2.xml`; `inc2.xml` exists in
`/a/sub/` — the directory of the most recently loaded file, where the claim
resolves the relative path — yet loading fails, because `current_path`
still points at `/a/` (include loads never update it).  Placing the file at
`/a/inc2.xml` instead makes the same load succeed. -/
theorem include_current_path_stale :
    fsLookup fsClaim7 ⟨true, ["a", "sub", "inc2.xml"]⟩ = some docLeaf7 ∧
    loadFromFile fsClaim7 facPing 10 "/a/main.xml" (initState fsClaim7) =
      .error .XmlSyntaxError ∧
    (loadFromFile fsCode7 facPing 10 "/a/main.xml" (initState fsCode7)).isOk = true :=
  ⟨rfl, rfl, rfl⟩

theorem loadDoc_preserves_current_path (fs : Filesystem) (factory : Factory) :
    ∀ fuel : Nat,
      (∀ doc st st', loadDocImpl fs factory fuel doc st = .ok st' →
        st'.current_path = st.current_path) ∧
      (∀ l st st', goIncludes fs factory fuel l st = .ok st' →
        st'.current_path = st.current_path) := by
  intro fuel
  induction fuel with
  | zero =>
    constructor
    · intro doc st st' h
      simp [loadDocImpl, except_throw_eq] at h
    · intro l st st' h
      cases l with
      | nil =>
        simp [goIncludes, except_pure_eq] at h
        rw [← h]
      | cons c cs => simp [goIncludes, except_throw_eq] at h
  | succ fuel ih =>
    constructor
    · intro doc st st' h
      cases doc with
      | none => simp [loadDocImpl, except_throw_eq] at h
      | some root =>
        simp only [loadDocImpl] at h
        cases hg : goIncludes fs factory fuel (includeElems root) st with
        | error e => rw [hg, except_bind_err] at h; exact absurd h (by simp)
        | ok st1 =>
          rw [hg, except_bind_ok] at h
          cases hv : verifyDoc factory
              (registerDoc st1.tree_roots st1.suffix_count root).1 root with
          | error e =>
            rw [hv, except_bind_err] at h
            exact absurd h (by simp)
          | ok u =>
            rw [hv, except_bind_ok, except_pure_eq] at h
            have hst : st'.current_path = st1.current_path := by
              cases h; rfl
            rw [hst]
            exact ih.2 (includeElems root) st st1 hg
    · intro l st st' h
      cases l with
      | nil =>
        simp only [goIncludes, except_pure_eq] at h
        cases h
        rfl
      | cons inc rest =>
        simp only [goIncludes] at h
        cases hp : inc.attr "path" with
        | none =>
          rw [hp] at h
          simp [except_bind_err, except_throw_eq] at h
        | some p =>
          rw [hp] at h
          simp only [except_bind_ok, except_pure_eq] at h
          by_cases hros : (inc.attr "ros_pkg").isSome
          · simp only [hros, ite_true, except_throw_eq, except_bind_err] at h
            exact absurd h (by simp)
          · simp only [hros, ite_false, except_bind_ok, except_pure_eq,
              Bool.false_eq_true, if_false] at h
            cases hl : loadDocImpl fs factory fuel
                (fsLookup fs (if (parsePath p).isAbs then parsePath p
                  else st.current_path.join (parsePath p))) st with
            | error e => rw [hl, except_bind_err] at h; exact absurd h (by simp)
            | ok st1 =>
              rw [hl, except_bind_ok] at h
              rw [ih.2 rest st1 st' h, ih.1 _ st st1 hl]

/-- C7 (amended): `current_path` is written only by `loadFromFile`, which
sets it to the parent directory of its own file; `loadDocImpl` and its
include loop never update it, so every relative include path in a load
session — however deeply nested — resolves against the directory of the
file passed to the most recent `loadFromFile`, not against the directory of
the most recently loaded file. -/
theorem current_path_only_loadFromFile (fs : Filesystem) (factory : Factory) :
    (∀ fuel fname st st', loadFromFile fs factory fuel fname st = .ok st' →
      st'.current_path = makeAbsolute fs.cwd (parsePath fname).parent) ∧
    (∀ fuel doc st st', loadDocImpl fs factory fuel doc st = .ok st' →
      st'.current_path = st.current_path) := by
  constructor
  · intro fuel fname st st' h
    unfold loadFromFile at h
    exact (loadDoc_preserves_current_path fs factory fuel).1 _ _ _ h
  · intro fuel doc st st' h
    exact (loadDoc_preserves_current_path fs factory fuel).1 _ _ _ h

theorem current_path_only_loadFromFile_witness :
    loadFromFile fsCode7 facPing 10 "/a/main.xml" (initState fsCode7) = .ok pstC7 ∧
    pstC7.current_path = makeAbsolute fsCode7.cwd (parsePath "/a/main.xml").parent :=
  ⟨rfl,
   (current_path_only_loadFromFile fsCode7 facPing).1 10 "/a/main.xml"
     (initState fsCode7) pstC7 (by rfl)⟩

/- ---- blackboard port-type lemmas ---- -/

theorem typesSet_lookup_self (ts : List (String × TypeToken)) (k : String)
    (t : TypeToken) : alookup (typesSet ts k t) k = some t := by
  induction ts with
  | nil => simp [typesSet, alookup]
  | cons p rest ih =>
    by_cases h : k = p.1
    · simp [typesSet, alookup, ← h]
    · have h2 : ¬ p.1 = k := fun hh => h hh.symm
      simp [typesSet, alookup, h, h2, ih]

theorem bbSetPortTypeA_length (heap : BBHeap) :
    ∀ fuel id key t, (bbSetPortTypeA heap fuel id key t).length = heap.length := by
  intro fuel
  induction fuel with
  | zero => intro id key t; rfl
  | succ fuel ih =>
    intro id key t
    simp only [bbSetPortTypeA]
    cases hg : heap.get? id with
    | none => rfl
    | some bb =>
      dsimp only
      cases hr : alookup bb.remap key with
      | some ext =>
        dsimp only
        cases hp : bb.parent with
        | none => rfl
        | some p =>
          dsimp only
          by_cases hlt : p < id
          · simp only [if_pos hlt]
            exact ih p ext t
          · simp [if_neg hlt]
      | none => simp

theorem bbSetPortTypeA_skeleton (heap : BBHeap) :
    ∀ fuel id key t j,
      ((bbSetPortTypeA heap fuel id key t).get? j).map (fun b => (b.parent, b.remap)) =
        (heap.get? j).map (fun b => (b.parent, b.remap)) := by
  intro fuel
  induction fuel with
  | zero => intro id key t j; rfl
  | succ fuel ih =>
    intro id key t j
    simp only [bbSetPortTypeA]
    cases hg : heap.get? id with
    | none => rfl
    | some bb =>
      dsimp only
      cases hr : alookup bb.remap key with
      | some ext =>
        dsimp only
        cases hp : bb.parent with
        | none => rfl
        | some p =>
          dsimp only
          by_cases hlt : p < id
          · simp only [if_pos hlt]
            exact ih p ext t j
          · simp [if_neg hlt]
      | none =>
        dsimp only
        by_cases hj : j = id
        · subst hj
          have hlt : j < heap.length := by
            by_contra hge
            rw [List.get?_eq_getElem?, List.getElem?_eq_none (Nat.le_of_not_lt hge)] at hg
            exact absurd hg (by simp)
          have h1 : (heap.set j { bb with types := typesSet bb.types key t }).get? j =
              some { bb with types := typesSet bb.types key t } := by
            simp [List.get?_eq_getElem?, List.getElem?_set_self', hlt]
          rw [h1, hg]
          rfl
        · simp [List.get?_eq_getElem?, List.getElem?_set_ne (fun hh => hj hh.symm)]

theorem bbPortTypeA_fuel_irrel (heap : BBHeap) :
    ∀ fuel fuel2 id key, id < fuel → id < fuel2 →
      bbPortTypeA heap fuel id key = bbPortTypeA heap fuel2 id key := by
  intro fuel
  induction fuel with
  | zero => intro fuel2 id key h1 h2; omega
  | succ fuel ih =>
    intro fuel2 id key h1 h2
    cases fuel2 with
    | zero => omega
    | succ fuel2 =>
      simp only [bbPortTypeA]
      cases hg : heap.get? id with
      | none => rfl
      | some bb =>
        dsimp only
        cases hr : alookup bb.remap key with
        | some ext =>
          dsimp only
          cases hp : bb.parent with
          | none => rfl
          | some p =>
            dsimp only
            by_cases hlt : p < id
            · simp only [if_pos hlt]
              exact ih fuel2 p ext (by omega) (by omega)
            · simp [if_neg hlt]
        | none => rfl

theorem bbPortType_after_set (heap : BBHeap) (hwf : heapWF heap) :
    ∀ fuel id key t, id < fuel → id < heap.length →
      bbPortTypeA (bbSetPortTypeA heap fuel id key t) fuel id key = some t := by
  intro fuel
  induction fuel with
  | zero => intro id key t h1 h2; omega
  | succ fuel ih =>
    intro id key t h1 h2
    have hg : ∃ bb, heap.get? id = some bb :=
      ⟨heap[id], by rw [List.get?_eq_getElem?]
                    exact List.getElem?_eq_some_iff.mpr ⟨h2, rfl⟩⟩
    rcases hg with ⟨bb, hg⟩
    cases hr : alookup bb.remap key with
    | some ext =>
      have hremapne : bb.remap ≠ [] := by
        intro hnil
        rw [hnil] at hr
        simp [alookup] at hr
      have hpar : bb.parent.isSome := ((hwf id bb hg).2 hremapne)
      rcases Option.isSome_iff_exists.mp hpar with ⟨p, hp⟩
      have hplt : p < id := (hwf id bb hg).1 p hp
      have hset : bbSetPortTypeA heap (fuel + 1) id key t =
          bbSetPortTypeA heap fuel p ext t := by
        simp only [bbSetPortTypeA, hg, hr, hp, if_pos hplt]
      rw [hset]
      have hskel := bbSetPortTypeA_skeleton heap fuel p ext t id
      rw [hg] at hskel
      cases hg2 : (bbSetPortTypeA heap fuel p ext t).get? id with
      | none => rw [hg2] at hskel; simp at hskel
      | some bb2 =>
        rw [hg2] at hskel
        simp only [Option.map_some'] at hskel
        have hpair := Option.some.inj hskel
        have hb2p : bb2.parent = bb.parent := congrArg Prod.fst hpair
        have hb2r : bb2.remap = bb.remap := congrArg Prod.snd hpair
        simp only [bbPortTypeA, hg2, hb2r, hr, hb2p, hp, if_pos hplt]
        exact ih p ext t (by omega) (by omega)
    | none =>
      have hset : bbSetPortTypeA heap (fuel + 1) id key t =
          heap.set id { bb with types := typesSet bb.types key t } := by
        simp only [bbSetPortTypeA, hg, hr]
      rw [hset]
      have hgs : (heap.set id { bb with types := typesSet bb.types key t }).get? id =
          some { bb with types := typesSet bb.types key t } := by
        simp [List.get?_eq_getElem?, List.getElem?_set_self', h2]
      simp only [bbPortTypeA, hgs, hr]
      exact typesSet_lookup_self bb.types key t

/-- C3: during node construction, for a manifest port with a non-null type
descriptor whose remapping value parses as a blackboard reference
`\x7bkey\x7d`: when the blackboard has no type for `key`, the port's type
is recorded under `key` (readable back afterwards) and construction
proceeds with the remaining ports; when the identical type token is
registered, construction proceeds unchanged; when a different token is
registered, construction fails with a `TypeMismatchError` naming both type
names.  The final conjunct runs scenario S5 end to end: two nodes in
document order bind `int` and `std::string` ports to `\x7bshared\x7d`, and
the second node's instantiation fails naming both types. -/
theorem port_type_reconciliation
    (heap : BBHeap) (bb : Nat) (pname value key : String) (tok : TypeToken)
    (dir : PortType) (remapping : List (String × String))
    (rest : List (String × PortInfo))
    (hwf : heapWF heap) (hbb : bb < heap.length)
    (hremap : alookup remapping pname = some value)
    (hkey : getRemappedKey value = some key) :
    (bbPortType heap bb key = none →
      reconcilePorts bb remapping ((pname, ⟨dir, some tok⟩) :: rest) heap =
        reconcilePorts bb remapping rest (bbSetPortType heap bb key tok) ∧
      bbPortType (bbSetPortType heap bb key tok) bb key = some tok) ∧
    (bbPortType heap bb key = some tok →
      reconcilePorts bb remapping ((pname, ⟨dir, some tok⟩) :: rest) heap =
        reconcilePorts bb remapping rest heap) ∧
    (∀ prev, bbPortType heap bb key = some prev → prev ≠ tok →
      reconcilePorts bb remapping ((pname, ⟨dir, some tok⟩) :: rest) heap =
        .error (.TypeMismatchError key prev.tname tok.tname)) ∧
    buildTreeFromText fsEmpty facPorts 10 (some docS5) (some bbRoot) =
      .error (.TypeMismatchError "shared" "int" "std::string") := by
  refine ⟨?_, ?_, ?_, by rfl⟩
  · intro hnone
    constructor
    · simp only [reconcilePorts, hremap, hkey, hnone]
    · exact bbPortType_after_set heap hwf (bb + 1) bb key tok (by omega) hbb
  · intro hsome
    simp only [reconcilePorts, hremap, hkey, hsome]
    simp
  · intro prev hsome hne
    simp only [reconcilePorts, hremap, hkey, hsome, if_pos hne, except_throw_eq]

theorem port_type_reconciliation_witness :
    bbPortType [bbRoot] 0 "shared" = none ∧
    reconcilePorts 0 [("x", "\x7bshared\x7d")]
        [("x", ⟨PortType.INPUT, some tokInt⟩)] [bbRoot] =
      .ok (bbSetPortType [bbRoot] 0 "shared" tokInt) ∧
    bbPortType (bbSetPortType [bbRoot] 0 "shared" tokInt) 0 "shared" =
      some tokInt := by
  have hwf : heapWF [bbRoot] := by
    intro i bbd h
    cases i with
    | zero =>
      have hb : bbd = bbRoot := by
        simp [List.get?] at h
        exact h.symm
      subst hb
      exact ⟨fun p hp => by simp [bbRoot] at hp, fun hr => absurd rfl hr⟩
    | succ n => simp [List.get?] at h
  have H := port_type_reconciliation [bbRoot] 0 "x" "\x7bshared\x7d" "shared"
    tokInt PortType.INPUT [("x", "\x7bshared\x7d")] [] hwf (by simp)
    (by rfl) (by rfl)
  exact ⟨rfl, ((H.1 rfl).1).trans rfl, (H.1 rfl).2⟩

/- ---- instantiation-pass infrastructure lemmas ---- -/

theorem bbSetPortType_length (heap : BBHeap) (id : Nat) (key : String)
    (t : TypeToken) : (bbSetPortType heap id key t).length = heap.length :=
  bbSetPortTypeA_length heap (id + 1) id key t

theorem bbSetPortType_skeleton (heap : BBHeap) (id : Nat) (key : String)
    (t : TypeToken) (j : Nat) :
    ((bbSetPortType heap id key t).get? j).map (fun b => (b.parent, b.remap)) =
      (heap.get? j).map (fun b => (b.parent, b.remap)) :=
  bbSetPortTypeA_skeleton heap (id + 1) id key t j

theorem reconcilePorts_ok (bbIdx : Nat) (remapping : List (String × String)) :
    ∀ (ports : List (String × PortInfo)) (heap heap1 : BBHeap),
      reconcilePorts bbIdx remapping ports heap = .ok heap1 →
      heap1.length = heap.length ∧
      ∀ j, (heap1.get? j).map (fun b => (b.parent, b.remap)) =
        (heap.get? j).map (fun b => (b.parent, b.remap)) := by
  intro ports
  induction ports with
  | nil =>
    intro heap heap1 h
    have : heap = heap1 := by
      simp only [reconcilePorts, except_pure_eq] at h
      exact (Except.ok.inj h)
    subst this
    exact ⟨rfl, fun j => rfl⟩
  | cons p rest ih =>
    intro heap heap1 h
    match hp : p, h with
    | (port_name, port), h =>
    simp only [reconcilePorts] at h
    cases hi : port.info with
    | none => rw [hi] at h; dsimp only at h; exact ih heap heap1 h
    | some tok =>
      rw [hi] at h
      dsimp only at h
      cases hr : alookup remapping port_name with
      | none => rw [hr] at h; dsimp only at h; exact ih heap heap1 h
      | some value =>
        rw [hr] at h
        dsimp only at h
        cases hk : getRemappedKey value with
        | none => rw [hk] at h; dsimp only at h; exact ih heap heap1 h
        | some port_key =>
          rw [hk] at h
          dsimp only at h
          cases hb : bbPortType heap bbIdx port_key with
          | none =>
            rw [hb] at h
            dsimp only at h
            have step := ih _ _ h
            refine ⟨step.1.trans (bbSetPortType_length heap bbIdx port_key tok), ?_⟩
            intro j
            exact (step.2 j).trans (bbSetPortType_skeleton heap bbIdx port_key tok j)
          | some prev =>
            rw [hb] at h
            dsimp only at h
            by_cases hne : prev ≠ tok
            · rw [if_pos hne, except_throw_eq] at h
              exact absurd h (by simp)
            · rw [if_neg hne] at h
              exact ih heap heap1 h

theorem reconcilePorts_error (bbIdx : Nat) (remapping : List (String × String)) :
    ∀ (ports : List (String × PortInfo)) (heap : BBHeap) (e : BTError),
      reconcilePorts bbIdx remapping ports heap = .error e →
      ∃ k a b, e = .TypeMismatchError k a b := by
  intro ports
  induction ports with
  | nil =>
    intro heap e h
    simp [reconcilePorts, except_pure_eq] at h
  | cons p rest ih =>
    intro heap e h
    match hp : p, h with
    | (port_name, port), h =>
    simp only [reconcilePorts] at h
    cases hi : port.info with
    | none => rw [hi] at h; dsimp only at h; exact ih heap e h
    | some tok =>
      rw [hi] at h
      dsimp only at h
      cases hr : alookup remapping port_name with
      | none => rw [hr] at h; dsimp only at h; exact ih heap e h
      | some value =>
        rw [hr] at h
        dsimp only at h
        cases hk : getRemappedKey value with
        | none => rw [hk] at h; dsimp only at h; exact ih heap e h
        | some port_key =>
          rw [hk] at h
          dsimp only at h
          cases hb : bbPortType heap bbIdx port_key with
          | none => rw [hb] at h; dsimp only at h; exact ih _ e h
          | some prev =>
            rw [hb] at h
            dsimp only at h
            by_cases hne : prev ≠ tok
            · rw [if_pos hne, except_throw_eq] at h
              exact ⟨port_key, prev.tname, tok.tname, (Except.error.inj h).symm⟩
            · rw [if_neg hne] at h
              exact ih heap e h

theorem checkTypos_error (ID inst : String) (ports : List (String × PortInfo)) :
    ∀ (remapping : List (String × String)) (e : BTError),
      checkTypos ID inst ports remapping = .error e →
      ∃ pn, e = .TypoError pn ID inst := by
  intro remapping
  induction remapping with
  | nil => intro e h; simp [checkTypos, except_pure_eq] at h
  | cons r rest ih =>
    intro e h
    simp only [checkTypos] at h
    by_cases hm : (alookup ports r.1).isNone
    · rw [if_pos hm, except_throw_eq] at h
      exact ⟨r.1, (Except.error.inj h).symm⟩
    · rw [if_neg hm] at h
      exact ih e h

/-- Inversion for `createNodeFromXML`: it is the resolution phase followed
by the deterministic link/update. -/
theorem createNode_inv (factory : Factory) (roots : List (String × XmlElem))
    (el : XmlElem) (bbIdx : Nat) (parentIdx : Option Nat) (st : InstState)
    (r : NodeInst × InstState)
    (h : createNodeFromXML factory roots el bbIdx parentIdx st = .ok r) :
    ∃ nh, resolveNode factory roots el bbIdx st.heap = .ok nh ∧
      r.1 = nh.1 ∧
      r.2 = { st with heap := nh.2, nodes := linkParent st.nodes parentIdx } := by
  simp only [createNodeFromXML] at h
  cases hres : resolveNode factory roots el bbIdx st.heap with
  | error e => rw [hres, except_bind_err] at h; exact absurd h (by simp)
  | ok nh =>
    rw [hres, except_bind_ok, except_pure_eq] at h
    have := Except.ok.inj h
    exact ⟨nh, rfl, congrArg Prod.fst this.symm, congrArg Prod.snd this.symm⟩

/-- The factory/tree-root dispatch tail of `resolveNode`, with the resolved
registration ID and instance name abstracted. -/
theorem resolveTail_ok (factory : Factory) (roots : List (String × XmlElem))
    (attrs : List (String × String)) (bbIdx : Nat) (heap0 : BBHeap)
    (ID instName : String) (node : NodeInst) (heap1 : BBHeap)
    (h : (if factory.builders.contains ID then do
        let manifest ← match alookup factory.manifests ID with
          | some m => pure m
          | none => throw (BTError.ManifestMissing ID)
        checkTypos ID instName manifest.ports (collectRemapping attrs)
        let heap ← reconcilePorts bbIdx (collectRemapping attrs) manifest.ports heap0
        let io := buildPortsLoop manifest.ports (collectRemapping attrs) ([], [])
        pure ((⟨ID, instName, manifest.type, io.1, io.2, [], []⟩ : NodeInst), heap)
      else if (alookup roots ID).isSome then
        pure ((⟨"", instName, NodeType.SUBTREE, [], [], [], []⟩ : NodeInst), heap0)
      else
        throw (BTError.UnknownNodeError ID) :
        Except BTError (NodeInst × BBHeap)) = .ok (node, heap1)) :
    node.children = [] ∧ node.subRemaps = [] ∧
    heap1.length = heap0.length ∧
    ∀ j, (heap1.get? j).map (fun b => (b.parent, b.remap)) =
      (heap0.get? j).map (fun b => (b.parent, b.remap)) := by
  by_cases hbuild : factory.builders.contains ID
  · rw [if_pos hbuild] at h
    cases hman : alookup factory.manifests ID with
    | none =>
      rw [hman] at h
      dsimp only at h
      simp [except_bind_err, except_throw_eq] at h
    | some manifest =>
      rw [hman] at h
      dsimp only at h
      simp only [except_pure_eq, except_bind_ok] at h
      cases hty : checkTypos ID instName manifest.ports (collectRemapping attrs) with
      | error e => rw [hty, except_bind_err] at h; exact absurd h (by simp)
      | ok uu =>
        rw [hty, except_bind_ok] at h
        cases hrec : reconcilePorts bbIdx (collectRemapping attrs)
            manifest.ports heap0 with
        | error e =>
          rw [hrec, except_bind_err] at h
          exact absurd h (by simp)
        | ok heap2 =>
          rw [hrec, except_bind_ok] at h
          obtain ⟨hnode, hheap⟩ := Prod.mk.inj (Except.ok.inj h)
          subst hheap
          have hrl := reconcilePorts_ok bbIdx _ _ _ _ hrec
          refine ⟨?_, ?_, hrl.1, hrl.2⟩ <;> rw [← hnode]
  · rw [if_neg hbuild] at h
    by_cases hroot : (alookup roots ID).isSome
    · rw [if_pos hroot, except_pure_eq] at h
      obtain ⟨hnode, hheap⟩ := Prod.mk.inj (Except.ok.inj h)
      subst hheap
      refine ⟨?_, ?_, rfl, fun j => rfl⟩ <;> rw [← hnode]
    · rw [if_neg hroot, except_throw_eq] at h
      exact absurd h (by simp)

/-- Shape facts about a successfully resolved node: fresh nodes have no
children and no ghost remaps, and the blackboard heap keeps its length and
its parent/remap skeleton (only port types are recorded). -/
theorem resolveNode_ok (factory : Factory) (roots : List (String × XmlElem))
    (el : XmlElem) (bbIdx : Nat) (heap0 : BBHeap) (node : NodeInst)
    (heap1 : BBHeap)
    (h : resolveNode factory roots el bbIdx heap0 = .ok (node, heap1)) :
    node.children = [] ∧ node.subRemaps = [] ∧
    heap1.length = heap0.length ∧
    ∀ j, (heap1.get? j).map (fun b => (b.parent, b.remap)) =
      (heap0.get? j).map (fun b => (b.parent, b.remap)) := by
  simp only [resolveNode] at h
  by_cases hadc : (el.ename == "Action" || el.ename == "Decorator" ||
      el.ename == "Condition") = true
  · rw [if_pos hadc] at h
    have hsub : (el.ename == "SubTree") = false := by
      cases hst : (el.ename == "SubTree") with
      | false => rfl
      | true =>
        have he : el.ename = "SubTree" := beq_iff_eq.mp hst
        rw [he] at hadc
        simp at hadc
    cases hid : el.attr "ID" with
    | none =>
      rw [hid] at h
      dsimp only at h
      simp [except_bind_err, except_throw_eq] at h
    | some s =>
      rw [hid] at h
      dsimp only at h
      simp only [except_pure_eq, except_bind_ok, hsub, Bool.false_eq_true,
        if_false] at h
      exact resolveTail_ok factory roots el.attrs bbIdx heap0 s _ node heap1 h
  · rw [if_neg hadc] at h
    simp only [except_pure_eq, except_bind_ok] at h
    by_cases hsub : (el.ename == "SubTree") = true
    · simp only [hsub, if_true] at h
      cases hid : el.attr "ID" with
      | none =>
        rw [hid] at h
        dsimp only at h
        simp [except_bind_err, except_throw_eq] at h
      | some t =>
        rw [hid] at h
        dsimp only at h
        exact resolveTail_ok factory roots el.attrs bbIdx heap0 el.ename t
          node heap1 h
    · have hsubf : (el.ename == "SubTree") = false := by simpa using hsub
      simp only [hsubf, Bool.false_eq_true, if_false] at h
      exact resolveTail_ok factory roots el.attrs bbIdx heap0 el.ename _
        node heap1 h

/- ---- node-list surgery lemmas ---- -/

theorem set_append_len {α : Type} (A : List α) (x v : α) :
    (A ++ [x]).set A.length v = A ++ [v] := by
  induction A with
  | nil => rfl
  | cons a rest ih => simp [List.set_cons_succ, ih]

theorem linkParent_cases (nodes : List NodeInst) (parentIdx : Option Nat) :
    linkParent nodes parentIdx = nodes ∨
    ∃ p pn ch, parentIdx = some p ∧ nodes.get? p = some pn ∧
      linkParent nodes parentIdx = nodes.set p { pn with children := ch } ∧
      ((pn.type = NodeType.CONTROL ∧ ch = pn.children ++ [nodes.length]) ∨
       ((pn.type = NodeType.DECORATOR ∨ pn.type = NodeType.SUBTREE) ∧
         ch = [nodes.length])) := by
  cases parentIdx with
  | none => exact Or.inl rfl
  | some p =>
    cases hp : nodes.get? p with
    | none =>
      have hp2 : nodes[p]? = none := by rw [← List.get?_eq_getElem?]; exact hp
      exact Or.inl (by simp [linkParent, hp2])
    | some pn =>
      have hp2 : nodes[p]? = some pn := by rw [← List.get?_eq_getElem?]; exact hp
      cases ht : pn.type with
      | CONTROL =>
        exact Or.inr ⟨p, pn, pn.children ++ [nodes.length], rfl, hp,
          by simp [linkParent, hp2, ht], Or.inl ⟨ht, rfl⟩⟩
      | DECORATOR =>
        exact Or.inr ⟨p, pn, [nodes.length], rfl, hp,
          by simp [linkParent, hp2, ht], Or.inr ⟨Or.inl ht, rfl⟩⟩
      | SUBTREE =>
        exact Or.inr ⟨p, pn, [nodes.length], rfl, hp,
          by simp [linkParent, hp2, ht], Or.inr ⟨Or.inr ht, rfl⟩⟩
      | ACTION => exact Or.inl (by simp [linkParent, hp2, ht])
      | CONDITION => exact Or.inl (by simp [linkParent, hp2, ht])

theorem linkParent_length (nodes : List NodeInst) (parentIdx : Option Nat) :
    (linkParent nodes parentIdx).length = nodes.length := by
  rcases linkParent_cases nodes parentIdx with h | ⟨p, pn, ch, _, _, h, _⟩ <;>
    simp [h]

theorem subRemapsProj_set (nodes : List NodeInst) :
    ∀ (p : Nat) (pn : NodeInst) (ch : List Nat), nodes.get? p = some pn →
      subRemapsProj (nodes.set p { pn with children := ch }) =
        subRemapsProj nodes := by
  induction nodes with
  | nil => intro p pn ch h; simp [List.get?] at h
  | cons a rest ih =>
    intro p pn ch h
    cases p with
    | zero =>
      have ha : a = pn := by
        simpa [List.get?] using h
      subst ha
      simp only [List.set_cons_zero, subRemapsProj, List.filter_cons]
      by_cases hty : (a.type == NodeType.SUBTREE) = true <;> simp [hty]
    | succ p2 =>
      have h2 : rest.get? p2 = some pn := by simpa [List.get?] using h
      simp only [List.set_cons_succ, subRemapsProj, List.filter_cons]
      have ihr := ih p2 pn ch h2
      simp only [subRemapsProj] at ihr
      by_cases hty : (a.type == NodeType.SUBTREE) = true <;> simp [hty, ihr]

theorem subRemapsProj_append (A B : List NodeInst) :
    subRemapsProj (A ++ B) = subRemapsProj A ++ subRemapsProj B := by
  simp [subRemapsProj, List.filter_append]

theorem subRemapsProj_linkParent (nodes : List NodeInst)
    (parentIdx : Option Nat) :
    subRemapsProj (linkParent nodes parentIdx) = subRemapsProj nodes := by
  rcases linkParent_cases nodes parentIdx with h | ⟨p, pn, ch, _, hp, h, _⟩
  · rw [h]
  · rw [h, subRemapsProj_set nodes p pn ch hp]

/-- The combined node-list update of one recursion step: link the parent,
append the fresh node. -/
theorem nodesWF_step (nodes : List NodeInst) (parentIdx : Option Nat)
    (node : NodeInst) (hwf : nodesWF nodes) (hpar : parentOK nodes parentIdx)
    (hch : node.children = []) :
    nodesWF (linkParent nodes parentIdx ++ [node]) := by
  intro i n' hi
  have hL : (linkParent nodes parentIdx).length = nodes.length :=
    linkParent_length nodes parentIdx
  have hlen : (linkParent nodes parentIdx ++ [node]).length = nodes.length + 1 := by
    simp [hL]
  by_cases hlt : i < nodes.length
  · have hi2 : (linkParent nodes parentIdx).get? i = some n' := by
      rw [List.get?_eq_getElem?] at hi ⊢
      rwa [List.getElem?_append_left (by rw [hL]; exact hlt)] at hi
    rcases linkParent_cases nodes parentIdx with heq | ⟨p, pn, ch, hpeq, hp, heq, hty⟩
    · rw [heq] at hi2
      have hw := hwf i n' hi2
      exact ⟨hw.1, fun j hj => by
        have := hw.2 j hj
        rw [hlen]
        omega⟩
    · rw [heq] at hi2
      by_cases hip : i = p
      · subst hip
        have hset : (nodes.set i { pn with children := ch })[i]? =
            some { pn with children := ch } := by
          rw [List.getElem?_set_self']
          rw [List.get?_eq_getElem?] at hp
          simp [hp]
        have hpn : n' = { pn with children := ch } := by
          rw [List.get?_eq_getElem?, hset] at hi2
          exact (Option.some.inj hi2).symm
        subst hpn
        have hw := hwf i pn hp
        constructor
        · show List.Chain' (· < ·) (i :: ch)
          rcases hty with ⟨_, hcheq⟩ | ⟨_, hcheq⟩
          · subst hcheq
            rw [show (i :: (pn.children ++ [nodes.length])) =
              (i :: pn.children) ++ [nodes.length] by simp]
            rw [List.chain'_append]
            refine ⟨hw.1, List.chain'_singleton _, ?_⟩
            intro x hx y hy
            simp only [List.head?_cons, Option.mem_def, Option.some.injEq] at hy
            obtain ⟨hne, hxeq⟩ := List.mem_getLast?_eq_getLast hx
            have hxmem : x ∈ i :: pn.children := hxeq ▸ List.getLast_mem hne
            rcases List.mem_cons.mp hxmem with hxi | hxm
            · omega
            · have hxb := hw.2 x hxm
              omega
          · subst hcheq
            exact List.chain'_pair.mpr hlt
        · intro j hj
          rw [hlen]
          rcases hty with ⟨_, hcheq⟩ | ⟨_, hcheq⟩
          · subst hcheq
            rcases List.mem_append.mp hj with hj1 | hj2
            · have := hw.2 j hj1
              omega
            · simp at hj2
              omega
          · subst hcheq
            simp at hj
            omega
      · have hi3 : nodes.get? i = some n' := by
          rw [List.get?_eq_getElem?] at hi2 ⊢
          rwa [List.getElem?_set_ne (fun hh => hip hh.symm)] at hi2
        have hw := hwf i n' hi3
        exact ⟨hw.1, fun j hj => by
          have := hw.2 j hj
          rw [hlen]
          omega⟩
  · have hieq : i = nodes.length := by
      by_contra hne
      have hge : (linkParent nodes parentIdx ++ [node]).length ≤ i := by
        rw [hlen]
        omega
      rw [List.get?_eq_getElem?, List.getElem?_eq_none hge] at hi
      exact absurd hi (by simp)
    subst hieq
    have hn : n' = node := by
      rw [List.get?_eq_getElem?, ← hL] at hi
      rw [List.getElem?_append_right (by omega)] at hi
      simp at hi
      exact hi.symm
    subst hn
    rw [hch]
    exact ⟨List.chain'_singleton _, by simp⟩

theorem nodesWF_set_ghost (X : List NodeInst) (idx : Nat) (n : NodeInst)
    (r : List (String × String)) (hwf : nodesWF X) (hidx : X.get? idx = some n) :
    nodesWF (X.set idx { n with subRemaps := r }) := by
  intro i n' hi
  by_cases hip : i = idx
  · subst hip
    have hset : (X.set i { n with subRemaps := r })[i]? =
        some { n with subRemaps := r } := by
      rw [List.getElem?_set_self']
      rw [List.get?_eq_getElem?] at hidx
      simp [hidx]
    rw [List.get?_eq_getElem?, hset] at hi
    have hn' : n' = { n with subRemaps := r } := (Option.some.inj hi).symm
    subst hn'
    have hw := hwf i n hidx
    exact ⟨hw.1, fun j hj => by have := hw.2 j hj; simpa using this⟩
  · have hi2 : X.get? i = some n' := by
      rw [List.get?_eq_getElem?] at hi ⊢
      rwa [List.getElem?_set_ne (fun hh => hip hh.symm)] at hi
    have hw := hwf i n' hi2
    exact ⟨hw.1, fun j hj => by have := hw.2 j hj; simpa using this⟩

theorem nodesWF_preserved (factory : Factory) (roots : List (String × XmlElem)) :
    ∀ fuel : Nat,
      (∀ bb parent el st st',
        recStep factory roots fuel bb parent el st = .ok st' →
        nodesWF st.nodes → parentOK st.nodes parent →
        nodesWF st'.nodes ∧ st.nodes.length < st'.nodes.length) ∧
      (∀ id st rp bbIdx st',
        recTree factory roots fuel id st rp bbIdx = .ok st' →
        nodesWF st.nodes → parentOK st.nodes rp →
        nodesWF st'.nodes ∧ st.nodes.length ≤ st'.nodes.length) ∧
      (∀ bbIdx parent els st st',
        recChildren factory roots fuel bbIdx parent els st = .ok st' →
        nodesWF st.nodes → parentOK st.nodes parent →
        nodesWF st'.nodes ∧ st.nodes.length ≤ st'.nodes.length) := by
  intro fuel
  induction fuel with
  | zero =>
    refine ⟨?_, ?_, ?_⟩
    · intro bb parent el st st' h
      simp [recStep, except_throw_eq] at h
    · intro id st rp bbIdx st' h
      simp [recTree, except_throw_eq] at h
    · intro bbIdx parent els st st' h hwf hpar
      cases els with
      | nil =>
        simp only [recChildren, except_pure_eq] at h
        cases h
        exact ⟨hwf, Nat.le_refl _⟩
      | cons c cs => simp [recChildren, except_throw_eq] at h
  | succ fuel ih =>
    have ihStep := ih.1
    have ihTree := ih.2.1
    have ihKids := ih.2.2
    refine ⟨?_, ?_, ?_⟩
    · intro bb parent el st st' h hwf hpar
      simp only [recStep] at h
      cases hc : createNodeFromXML factory roots el bb parent st with
      | error e => rw [hc, except_bind_err] at h; exact absurd h (by simp)
      | ok r =>
        rw [hc, except_bind_ok] at h
        obtain ⟨nh, hres, hr1, hr2⟩ := createNode_inv _ _ _ _ _ _ _ hc
        have hshape := resolveNode_ok _ _ _ _ _ nh.1 nh.2 hres
        have hch : r.1.children = [] := by rw [hr1]; exact hshape.1
        have hwf2 : nodesWF (linkParent st.nodes parent ++ [r.1]) :=
          nodesWF_step st.nodes parent r.1 hwf hpar hch
        have hnodes2 : r.2.nodes ++ [r.1] = linkParent st.nodes parent ++ [r.1] := by
          rw [hr2]
        have hlen2 : (r.2.nodes ++ [r.1]).length = st.nodes.length + 1 := by
          rw [hnodes2]
          simp [linkParent_length]
        by_cases hsub : r.1.type = NodeType.SUBTREE
        · rw [if_pos hsub] at h
          cases hlast : ({ r.2 with nodes := r.2.nodes ++ [r.1] } :
              InstState).stack.getLast? with
          | none =>
            rw [hlast] at h
            dsimp only at h
            simp [except_bind_err, except_throw_eq] at h
          | some parentBB =>
            rw [hlast] at h
            dsimp only at h
            cases hrem : extractRemapPairs
                (el.children.filter (fun c => c.ename == "remap")) with
            | error e =>
              rw [hrem] at h
              simp [except_pure_eq, except_bind_ok, except_bind_err] at h
            | ok remaps =>
              rw [hrem] at h
              simp only [except_pure_eq, except_bind_ok] at h
              have hidx : (r.2.nodes ++ [r.1]).get? r.2.nodes.length = some r.1 := by
                rw [List.get?_eq_getElem?]
                simp [List.getElem?_append]
              have hwf3 : nodesWF ((r.2.nodes ++ [r.1]).set r.2.nodes.length
                  { r.1 with subRemaps := remaps }) := by
                apply nodesWF_set_ghost _ _ _ _ _ hidx
                rw [hnodes2]
                exact hwf2
              have hpar3 : parentOK ((r.2.nodes ++ [r.1]).set r.2.nodes.length
                  { r.1 with subRemaps := remaps }) (some r.2.nodes.length) := by
                show r.2.nodes.length < _
                simp [hlen2]
              have hres2 := ihTree _ _ _ _ _ h hwf3 hpar3
              refine ⟨hres2.1, ?_⟩
              have hlen3 : ((r.2.nodes ++ [r.1]).set r.2.nodes.length
                  { r.1 with subRemaps := remaps }).length = st.nodes.length + 1 := by
                rw [List.length_set]; exact hlen2
              have hle := hres2.2
              dsimp only at hle hlen3
              omega
        · rw [if_neg hsub] at h
          have hwf2x : nodesWF (({ r.2 with nodes := r.2.nodes ++ [r.1] } :
              InstState).nodes) := by
            show nodesWF (r.2.nodes ++ [r.1])
            rw [hnodes2]
            exact hwf2
          have hpar2 : parentOK (({ r.2 with nodes := r.2.nodes ++ [r.1] } :
              InstState).nodes) (some r.2.nodes.length) := by
            show r.2.nodes.length < _
            simp
          have hres2 := ihKids _ _ _ _ _ h hwf2x hpar2
          refine ⟨hres2.1, ?_⟩
          have := hres2.2
          simp only [hlen2] at this
          omega
    · intro id st rp bbIdx st' h hwf hpar
      simp only [recTree] at h
      cases hl : alookup roots id with
      | none => rw [hl] at h; dsimp only at h; simp [except_throw_eq] at h
      | some bt =>
        rw [hl] at h
        dsimp only at h
        cases hh : bt.children.head? with
        | none => rw [hh] at h; dsimp only at h; simp [except_throw_eq] at h
        | some rootEl =>
          rw [hh] at h
          dsimp only at h
          have hres2 := ihStep _ _ _ _ _ h hwf hpar
          exact ⟨hres2.1, Nat.le_of_lt hres2.2⟩
    · intro bbIdx parent els st st' h hwf hpar
      cases els with
      | nil =>
        simp only [recChildren, except_pure_eq] at h
        cases h
        exact ⟨hwf, Nat.le_refl _⟩
      | cons c cs =>
        simp only [recChildren] at h
        cases hs : recStep factory roots fuel bbIdx parent c st with
        | error e => rw [hs, except_bind_err] at h; exact absurd h (by simp)
        | ok st1 =>
          rw [hs, except_bind_ok] at h
          have h1 := ihStep _ _ _ _ _ hs hwf hpar
          have hpar1 : parentOK st1.nodes parent := by
            cases parent with
            | none => trivial
            | some p =>
              have hp : p < st.nodes.length := hpar
              have := h1.2
              show p < st1.nodes.length
              omega
          have h2 := ihKids _ _ _ _ _ h h1.1 hpar1
          exact ⟨h2.1, by have := h1.2; have := h2.2; omega⟩


/-- A successful `recTree` run from a well-formed state keeps the pre-order
shape and constructs at least one node (the referenced tree root). -/
theorem recTree_strict (factory : Factory) (roots : List (String × XmlElem))
    (fuel : Nat) (id : String) (st : InstState) (rp : Option Nat) (bbIdx : Nat)
    (st' : InstState) (h : recTree factory roots fuel id st rp bbIdx = .ok st')
    (hwf : nodesWF st.nodes) (hpar : parentOK st.nodes rp) :
    nodesWF st'.nodes ∧ st.nodes.length < st'.nodes.length := by
  cases fuel with
  | zero => simp [recTree, except_throw_eq] at h
  | succ fuel =>
    simp only [recTree] at h
    cases hl : alookup roots id with
    | none => rw [hl] at h; dsimp only at h; simp [except_throw_eq] at h
    | some bt =>
      rw [hl] at h
      dsimp only at h
      cases hh : bt.children.head? with
      | none => rw [hh] at h; dsimp only at h; simp [except_throw_eq] at h
      | some rootEl =>
        rw [hh] at h
        dsimp only at h
        exact (nodesWF_preserved factory roots fuel).1 _ _ _ _ _ h hwf hpar

/-- C4: every tree `instantiateTree` returns lists its nodes in pre-order of
the parent-to-child relation -- each node precedes all of its children, and
the child index lists are strictly increasing left to right, matching XML
document order of the siblings -- and `root_node` is node 0, the front of
`Tree.nodes`. -/
theorem preorder_nodes (factory : Factory) (pst : ParserState) (fuel : Nat)
    (bb : Option BBData) (st' : InstState)
    (h : instantiateTree factory pst fuel bb = .ok st') :
    nodesWF st'.nodes ∧ rootNode st' = some 0 := by
  simp only [instantiateTree] at h
  cases hd : pst.opened_documents.head? with
  | none => rw [hd] at h; dsimp only at h; simp [except_throw_eq, except_bind_err] at h
  | some d =>
    rw [hd] at h
    dsimp only at h
    simp only [except_pure_eq, except_bind_ok] at h
    have hmain : ∃ mid st0rec,
        bb = some st0rec ∧
        recTree factory pst.tree_roots fuel mid
          (⟨[st0rec], [], [0]⟩ : InstState) none 0 = .ok st' := by
      cases ha : d.attr "main_tree_to_execute" with
      | some s =>
        rw [ha] at h
        dsimp only at h
        cases bb with
        | none => simp [except_throw_eq] at h
        | some bb0 => exact ⟨s, bb0, rfl, h⟩
      | none =>
        rw [ha] at h
        dsimp only at h
        cases htr : pst.tree_roots with
        | nil => rw [htr] at h; dsimp only at h; simp [except_throw_eq, except_bind_err] at h
        | cons r rest =>
          cases rest with
          | nil =>
            rw [htr] at h
            dsimp only at h
            cases bb with
            | none => simp [except_throw_eq] at h
            | some bb0 => exact ⟨r.1, bb0, rfl, h⟩
          | cons r2 rest2 =>
            rw [htr] at h; dsimp only at h; simp [except_throw_eq, except_bind_err] at h
    obtain ⟨mid, bb0, hbb, hrec⟩ := hmain
    have hwf0 : nodesWF ([] : List NodeInst) := by
      intro i n hn
      simp at hn
    have hres := recTree_strict factory pst.tree_roots fuel mid
      ⟨[bb0], [], [0]⟩ none 0 st' hrec hwf0 trivial
    refine ⟨hres.1, ?_⟩
    have hlen : 0 < st'.nodes.length := hres.2
    simp [rootNode, hlen]

/-- C4 witness: the subtree scenario instantiates to a pre-order node list
rooted at node 0. -/
theorem preorder_nodes_witness :
    nodesWF stSub.nodes ∧ rootNode stSub = some 0 :=
  preorder_nodes facSub pstSub 20 (some bbRoot) stSub (by rfl)


/-- Transfer a heap lookup across a skeleton-preserving update: the
blackboard at any index keeps its parent pointer and its remap list. -/
theorem skeleton_transfer (h1 h2 : BBHeap)
    (hsk : ∀ j, (h2.get? j).map (fun b => (b.parent, b.remap)) =
      (h1.get? j).map (fun b => (b.parent, b.remap)))
    (b : Nat) (bbd : BBData) (hb : h1.get? b = some bbd) :
    ∃ bbd2, h2.get? b = some bbd2 ∧ bbd2.parent = bbd.parent ∧
      bbd2.remap = bbd.remap := by
  have h := hsk b
  rw [hb] at h
  cases hb2 : h2.get? b with
  | none => rw [hb2] at h; simp at h
  | some bbd2 =>
    rw [hb2] at h
    simp only [Option.map_some'] at h
    have hpr := Option.some.inj h
    exact ⟨bbd2, rfl, congrArg Prod.fst hpr, congrArg Prod.snd hpr⟩

/-- Appending one node extends the ghost remap projection by that node's
record exactly when the node is a subtree placeholder. -/
theorem subRemapsProj_append_one (nodes : List NodeInst) (n : NodeInst) :
    subRemapsProj (nodes ++ [n]) = subRemapsProj nodes ++
      (if n.type = NodeType.SUBTREE then [n.subRemaps] else []) := by
  rw [subRemapsProj_append]
  congr 1
  by_cases h : n.type = NodeType.SUBTREE
  · simp [subRemapsProj, List.filter_cons, h]
  · simp [subRemapsProj, List.filter_cons, h]

/-- The port-reconciliation effect of one `createNodeFromXML` call (type
registrations on the blackboards, parent re-linking on the nodes) preserves
the C5 stack invariant. -/
theorem instInv_heap_nodes (st : InstState) (heap1 : BBHeap)
    (parentIdx : Option Nat)
    (hlen : heap1.length = st.heap.length)
    (hsk : ∀ j, (heap1.get? j).map (fun b => (b.parent, b.remap)) =
      (st.heap.get? j).map (fun b => (b.parent, b.remap)))
    (hinv : instInv st) :
    instInv { st with heap := heap1, nodes := linkParent st.nodes parentIdx } := by
  obtain ⟨h1, h2, h3, h4, h5⟩ := hinv
  refine ⟨h1, ?_, ?_, ?_, ?_⟩
  · show st.stack.length = _
    rw [show ({ st with
        heap := heap1,
        nodes := linkParent st.nodes parentIdx } : InstState).nodes =
      linkParent st.nodes parentIdx from rfl, subRemapsProj_linkParent]
    exact h2
  · intro b hb
    show b < heap1.length
    rw [hlen]
    exact h3 b hb
  · intro i a b hia hib
    obtain ⟨bbd, hbd, hbp⟩ := h4 i a b hia hib
    obtain ⟨bbd2, hb2, hp2, _⟩ := skeleton_transfer st.heap heap1 hsk b bbd hbd
    exact ⟨bbd2, hb2, by rw [hp2, hbp]⟩
  · intro k r hk
    rw [show ({ st with
        heap := heap1,
        nodes := linkParent st.nodes parentIdx } : InstState).nodes =
      linkParent st.nodes parentIdx from rfl, subRemapsProj_linkParent] at hk
    obtain ⟨b, bbd, hsb, hbd, hbr⟩ := h5 k r hk
    obtain ⟨bbd2, hb2, _, hr2⟩ := skeleton_transfer st.heap heap1 hsk b bbd hbd
    exact ⟨b, bbd2, hsb, hb2, by rw [hr2, hbr]⟩

/-- Appending a non-subtree node touches neither stack nor heap nor the
ghost remap projection, so the C5 invariant survives. -/
theorem instInv_append_nonsub (st : InstState) (n : NodeInst)
    (hn : n.type ≠ NodeType.SUBTREE) (hinv : instInv st) :
    instInv { st with nodes := st.nodes ++ [n] } := by
  obtain ⟨h1, h2, h3, h4, h5⟩ := hinv
  refine ⟨h1, ?_, h3, h4, ?_⟩
  · show st.stack.length = _
    rw [show ({ st with nodes := st.nodes ++ [n] } : InstState).nodes =
      st.nodes ++ [n] from rfl, subRemapsProj_append_one, if_neg hn,
      List.append_nil]
    exact h2
  · intro k r hk
    rw [show ({ st with nodes := st.nodes ++ [n] } : InstState).nodes =
      st.nodes ++ [n] from rfl, subRemapsProj_append_one, if_neg hn,
      List.append_nil] at hk
    exact h5 k r hk

/-- The subtree expansion of `recursivelyCreateTree`: push one fresh
blackboard (parented on the last stack entry, carrying the extracted remap
pairs), push its index on the stack, record the node. The C5 invariant is
preserved and extended by the new pair. -/
theorem instInv_push (st : InstState) (n : NodeInst) (parentBB : Nat)
    (remaps : List (String × String))
    (hsub : n.type = NodeType.SUBTREE)
    (hlast : st.stack.getLast? = some parentBB)
    (hinv : instInv st) :
    instInv ⟨st.heap ++ [⟨some parentBB, remaps, []⟩],
             st.nodes ++ [{ n with subRemaps := remaps }],
             st.stack ++ [st.heap.length]⟩ := by
  obtain ⟨h1, h2, h3, h4, h5⟩ := hinv
  have hproj : subRemapsProj (st.nodes ++ [{ n with subRemaps := remaps }]) =
      subRemapsProj st.nodes ++ [remaps] := by
    rw [subRemapsProj_append_one]
    have ht : ({ n with subRemaps := remaps } : NodeInst).type =
        NodeType.SUBTREE := hsub
    rw [if_pos ht]
  refine ⟨?_, ?_, ?_, ?_, ?_⟩
  · show st.stack ++ [st.heap.length] ≠ []
    simp
  · show (st.stack ++ [st.heap.length]).length = _
    rw [show (⟨st.heap ++ [⟨some parentBB, remaps, []⟩],
        st.nodes ++ [{ n with subRemaps := remaps }],
        st.stack ++ [st.heap.length]⟩ : InstState).nodes =
      st.nodes ++ [{ n with subRemaps := remaps }] from rfl, hproj]
    simp only [List.length_append, List.length_cons, List.length_nil]
    omega
  · intro b hb
    show b < (st.heap ++ [(⟨some parentBB, remaps, []⟩ : BBData)]).length
    rw [List.length_append]
    rcases List.mem_append.mp hb with hbl | hbr
    · have := h3 b hbl
      simp only [List.length_cons, List.length_nil]
      omega
    · simp at hbr
      subst hbr
      simp
  · intro i a b hia hib
    by_cases hcase : i + 1 < st.stack.length
    · have hia2 : st.stack.get? i = some a := by
        rw [List.get?_eq_getElem?] at hia ⊢
        rwa [List.getElem?_append_left (by omega)] at hia
      have hib2 : st.stack.get? (i + 1) = some b := by
        rw [List.get?_eq_getElem?] at hib ⊢
        rwa [List.getElem?_append_left hcase] at hib
      obtain ⟨bbd, hbd, hbp⟩ := h4 i a b hia2 hib2
      have hblt : b < st.heap.length := h3 b (List.get?_mem hib2)
      refine ⟨bbd, ?_, hbp⟩
      rw [List.get?_eq_getElem?, List.getElem?_append_left hblt,
        ← List.get?_eq_getElem?]
      exact hbd
    · have hub : i + 1 < st.stack.length + 1 := by
        by_contra hno
        have hnone : (st.stack ++ [st.heap.length]).get? (i + 1) = none := by
          rw [List.get?_eq_getElem?]
          apply List.getElem?_eq_none
          simp only [List.length_append, List.length_cons, List.length_nil]
          omega
        rw [hnone] at hib
        cases hib
      have hieq : i + 1 = st.stack.length := by omega
      have hbv : b = st.heap.length := by
        rw [List.get?_eq_getElem?] at hib
        rw [List.getElem?_append_right (by omega)] at hib
        simp [hieq] at hib
        exact hib.symm
      have hav : a = parentBB := by
        have hi_lt : i < st.stack.length := by omega
        have hia2 : st.stack[i]? = some a := by
          rw [List.get?_eq_getElem?] at hia
          rwa [List.getElem?_append_left hi_lt] at hia
        have hgl := (List.getLast?_eq_getElem? st.stack).symm.trans hlast
        have hi2 : st.stack.length - 1 = i := by omega
        rw [hi2, hia2] at hgl
        exact Option.some.inj hgl
      subst hbv
      refine ⟨⟨some parentBB, remaps, []⟩, ?_, by rw [hav]⟩
      rw [List.get?_eq_getElem?, List.getElem?_append_right (Nat.le_refl _)]
      simp
  · intro k r hk
    rw [show (⟨st.heap ++ [⟨some parentBB, remaps, []⟩],
        st.nodes ++ [{ n with subRemaps := remaps }],
        st.stack ++ [st.heap.length]⟩ : InstState).nodes =
      st.nodes ++ [{ n with subRemaps := remaps }] from rfl, hproj] at hk
    by_cases hkc : k < (subRemapsProj st.nodes).length
    · have hk2 : (subRemapsProj st.nodes).get? k = some r := by
        rw [List.get?_eq_getElem?] at hk ⊢
        rwa [List.getElem?_append_left hkc] at hk
      obtain ⟨b, bbd, hsb, hbd, hbr⟩ := h5 k r hk2
      have hblt : b < st.heap.length := h3 b (List.get?_mem hsb)
      have hs1 : k + 1 < st.stack.length := by omega
      refine ⟨b, bbd, ?_, ?_, hbr⟩
      · rw [List.get?_eq_getElem?, List.getElem?_append_left hs1,
          ← List.get?_eq_getElem?]
        exact hsb
      · rw [List.get?_eq_getElem?, List.getElem?_append_left hblt,
          ← List.get?_eq_getElem?]
        exact hbd
    · have hkl : k < (subRemapsProj st.nodes).length + 1 := by
        by_contra hno
        have hnone : (subRemapsProj st.nodes ++ [remaps]).get? k = none := by
          rw [List.get?_eq_getElem?]
          apply List.getElem?_eq_none
          simp only [List.length_append, List.length_cons, List.length_nil]
          omega
        rw [hnone] at hk
        cases hk
      have hkeq : k = (subRemapsProj st.nodes).length := by omega
      have hrv : r = remaps := by
        rw [List.get?_eq_getElem?] at hk
        rw [List.getElem?_append_right (by omega)] at hk
        simp [hkeq] at hk
        exact hk.symm
      refine ⟨st.heap.length, ⟨some parentBB, remaps, []⟩, ?_, ?_, by rw [hrv]⟩
      · have hk1 : k + 1 = st.stack.length := by omega
        rw [List.get?_eq_getElem?, hk1,
          List.getElem?_append_right (Nat.le_refl _)]
        simp
      · rw [List.get?_eq_getElem?, List.getElem?_append_right (Nat.le_refl _)]
        simp


/-- Fuel-indexed preservation of the C5 stack invariant through the mutual
instantiation recursion. -/
theorem instInv_preserved (factory : Factory) (roots : List (String × XmlElem)) :
    ∀ fuel : Nat,
      (∀ bb parent el st st',
        recStep factory roots fuel bb parent el st = .ok st' →
        instInv st → instInv st') ∧
      (∀ id st rp bbIdx st',
        recTree factory roots fuel id st rp bbIdx = .ok st' →
        instInv st → instInv st') ∧
      (∀ bbIdx parent els st st',
        recChildren factory roots fuel bbIdx parent els st = .ok st' →
        instInv st → instInv st') := by
  intro fuel
  induction fuel with
  | zero =>
    refine ⟨?_, ?_, ?_⟩
    · intro bb parent el st st' h
      simp [recStep, except_throw_eq] at h
    · intro id st rp bbIdx st' h
      simp [recTree, except_throw_eq] at h
    · intro bbIdx parent els st st' h hinv
      cases els with
      | nil =>
        simp only [recChildren, except_pure_eq] at h
        cases h
        exact hinv
      | cons c cs => simp [recChildren, except_throw_eq] at h
  | succ fuel ih =>
    have ihStep := ih.1
    have ihTree := ih.2.1
    have ihKids := ih.2.2
    refine ⟨?_, ?_, ?_⟩
    · intro bb parent el st st' h hinv
      simp only [recStep] at h
      cases hc : createNodeFromXML factory roots el bb parent st with
      | error e => rw [hc, except_bind_err] at h; exact absurd h (by simp)
      | ok r =>
        rw [hc, except_bind_ok] at h
        obtain ⟨nh, hres, hr1, hr2⟩ := createNode_inv _ _ _ _ _ _ _ hc
        have hshape := resolveNode_ok _ _ _ _ _ nh.1 nh.2 hres
        have hinv2 : instInv r.2 := by
          rw [hr2]
          exact instInv_heap_nodes st nh.2 parent hshape.2.2.1 hshape.2.2.2 hinv
        by_cases hsub : r.1.type = NodeType.SUBTREE
        · rw [if_pos hsub] at h
          cases hlast : ({ r.2 with nodes := r.2.nodes ++ [r.1] } :
              InstState).stack.getLast? with
          | none =>
            rw [hlast] at h
            dsimp only at h
            simp [except_bind_err, except_throw_eq] at h
          | some parentBB =>
            rw [hlast] at h
            dsimp only at h
            cases hrem : extractRemapPairs
                (el.children.filter (fun c => c.ename == "remap")) with
            | error e =>
              rw [hrem] at h
              simp [except_pure_eq, except_bind_ok, except_bind_err] at h
            | ok remaps =>
              rw [hrem] at h
              simp only [except_pure_eq, except_bind_ok] at h
              have hlast2 : r.2.stack.getLast? = some parentBB := hlast
              have hpush := instInv_push r.2 r.1 parentBB remaps hsub hlast2 hinv2
              have hset : (r.2.nodes ++ [r.1]).set r.2.nodes.length
                  { r.1 with subRemaps := remaps } =
                  r.2.nodes ++ [{ r.1 with subRemaps := remaps }] :=
                set_append_len r.2.nodes r.1 _
              rw [← hset] at hpush
              exact ihTree _ _ _ _ _ h hpush
        · rw [if_neg hsub] at h
          exact ihKids _ _ _ _ _ h (instInv_append_nonsub r.2 r.1 hsub hinv2)
    · intro id st rp bbIdx st' h hinv
      simp only [recTree] at h
      cases hl : alookup roots id with
      | none => rw [hl] at h; dsimp only at h; simp [except_throw_eq] at h
      | some bt =>
        rw [hl] at h
        dsimp only at h
        cases hh : bt.children.head? with
        | none => rw [hh] at h; dsimp only at h; simp [except_throw_eq] at h
        | some rootEl =>
          rw [hh] at h
          dsimp only at h
          exact ihStep _ _ _ _ _ h hinv
    · intro bbIdx parent els st st' h hinv
      cases els with
      | nil =>
        simp only [recChildren, except_pure_eq] at h
        cases h
        exact hinv
      | cons c cs =>
        simp only [recChildren] at h
        cases hs : recStep factory roots fuel bbIdx parent c st with
        | error e => rw [hs, except_bind_err] at h; exact absurd h (by simp)
        | ok st1 =>
          rw [hs, except_bind_ok] at h
          exact ihKids _ _ _ _ _ h (ihStep _ _ _ _ _ hs hinv)

/-- The C5 invariant at a successful `recursivelyCreateTree` exit. -/
theorem recTree_inv (factory : Factory) (roots : List (String × XmlElem))
    (fuel : Nat) (id : String) (st : InstState) (rp : Option Nat) (bbIdx : Nat)
    (st' : InstState) (h : recTree factory roots fuel id st rp bbIdx = .ok st')
    (hinv : instInv st) : instInv st' :=
  (instInv_preserved factory roots fuel).2.1 _ _ _ _ _ h hinv

/-- C5: during instantiation each SubTree expansion pushes exactly one new
blackboard -- the final stack holds one entry beyond the root blackboard per
SubTree node -- each pushed blackboard is parented on the stack element
immediately preceding it, and it carries exactly the remap pairs extracted
from the `<remap internal=... external=...>` children of its SubTree
element (recorded per node in the ghost field `subRemaps`). -/
theorem subtree_expansion_stack (factory : Factory) (pst : ParserState)
    (fuel : Nat) (bb : Option BBData) (st' : InstState)
    (h : instantiateTree factory pst fuel bb = .ok st') :
    st'.stack.length = 1 + (subtreeNodes st').length ∧
    stackChain st' ∧ stackRemaps st' := by
  simp only [instantiateTree] at h
  cases hd : pst.opened_documents.head? with
  | none => rw [hd] at h; dsimp only at h; simp [except_throw_eq, except_bind_err] at h
  | some d =>
    rw [hd] at h
    dsimp only at h
    simp only [except_pure_eq, except_bind_ok] at h
    have hmain : ∃ mid st0rec,
        bb = some st0rec ∧
        recTree factory pst.tree_roots fuel mid
          (⟨[st0rec], [], [0]⟩ : InstState) none 0 = .ok st' := by
      cases ha : d.attr "main_tree_to_execute" with
      | some s =>
        rw [ha] at h
        dsimp only at h
        cases bb with
        | none => simp [except_throw_eq] at h
        | some bb0 => exact ⟨s, bb0, rfl, h⟩
      | none =>
        rw [ha] at h
        dsimp only at h
        cases htr : pst.tree_roots with
        | nil => rw [htr] at h; dsimp only at h; simp [except_throw_eq, except_bind_err] at h
        | cons r rest =>
          cases rest with
          | nil =>
            rw [htr] at h
            dsimp only at h
            cases bb with
            | none => simp [except_throw_eq] at h
            | some bb0 => exact ⟨r.1, bb0, rfl, h⟩
          | cons r2 rest2 =>
            rw [htr] at h; dsimp only at h; simp [except_throw_eq, except_bind_err] at h
    obtain ⟨mid, bb0, hbb, hrec⟩ := hmain
    have hinv0 : instInv (⟨[bb0], [], [0]⟩ : InstState) := by
      refine ⟨?_, ?_, ?_, ?_, ?_⟩
      · simp
      · simp [subRemapsProj]
      · intro b hb
        simp at hb
        subst hb
        simp
      · intro i a b hia hib
        rw [List.get?_eq_getElem?] at hib
        simp at hib
      · intro k r hk
        simp [subRemapsProj] at hk
    have hinv := recTree_inv factory pst.tree_roots fuel mid
      ⟨[bb0], [], [0]⟩ none 0 st' hrec hinv0
    obtain ⟨h1, h2, h3, h4, h5⟩ := hinv
    refine ⟨?_, h4, ?_⟩
    · rw [h2]
      congr 1
      simp [subRemapsProj, subtreeNodes]
    · intro k n hk
      have hproj : (subRemapsProj st'.nodes).get? k = some n.subRemaps := by
        rw [List.get?_eq_getElem?]
        show ((st'.nodes.filter
          (fun n => n.type == NodeType.SUBTREE)).map
            (fun n => n.subRemaps))[k]? = some n.subRemaps
        rw [List.getElem?_map]
        have hk2 : (st'.nodes.filter
            (fun n => n.type == NodeType.SUBTREE))[k]? = some n := by
          rw [← List.get?_eq_getElem?]
          exact hk
        rw [hk2]
        rfl
      exact h5 k _ hproj

/-- C5 witness: in the subtree scenario the final stack has one entry per
subtree node beyond the root, chained by parenthood and carrying the
extracted remap pairs. -/
theorem subtree_expansion_stack_witness :
    stSub.stack.length = 1 + (subtreeNodes stSub).length ∧
    stackChain stSub ∧ stackRemaps stSub :=
  subtree_expansion_stack facSub pstSub 20 (some bbRoot) stSub (by rfl)


/- ---- C2 lemma suite ---- -/

theorem alookup_mem {α : Type} :
    ∀ (l : List (String × α)) (k : String) (v : α),
      alookup l k = some v → (k, v) ∈ l := by
  intro l
  induction l with
  | nil => intro k v h; simp [alookup] at h
  | cons p rest ih =>
    intro k v h
    simp only [alookup] at h
    by_cases hk : p.1 = k
    · rw [if_pos hk] at h
      have hv := Option.some.inj h
      have hp : p = (k, v) := Prod.ext hk hv
      rw [← hp]
      exact List.mem_cons_self _ _
    · rw [if_neg hk] at h
      exact List.mem_cons_of_mem _ (ih k v h)

theorem akeys_contains_lookup {α : Type} :
    ∀ (l : List (String × α)) (k : String),
      (akeys l).contains k = true → (alookup l k).isSome = true := by
  intro l
  induction l with
  | nil => intro k h; simp [akeys] at h
  | cons p rest ih =>
    intro k h
    simp only [alookup]
    by_cases hk : p.1 = k
    · rw [if_pos hk]; rfl
    · rw [if_neg hk]
      apply ih
      simp only [akeys, List.map_cons, List.contains_cons, Bool.or_eq_true] at h
      rcases h with h | h
      · exact absurd (beq_iff_eq.mp h).symm hk
      · exact h

theorem extractRemapPairs_ok (els : List XmlElem)
    (h : els.all remapAttrsOK = true) :
    ∃ ps, extractRemapPairs els = .ok ps := by
  induction els with
  | nil => exact ⟨[], rfl⟩
  | cons c cs ih =>
    rw [List.all_cons, Bool.and_eq_true] at h
    obtain ⟨hc, hcs⟩ := h
    obtain ⟨ps, hps⟩ := ih hcs
    rw [remapAttrsOK, Bool.and_eq_true, Option.isSome_iff_exists,
      Option.isSome_iff_exists] at hc
    obtain ⟨⟨ik, hik⟩, ⟨ek, hek⟩⟩ := hc
    refine ⟨(ik, ek) :: ps, ?_⟩
    simp only [extractRemapPairs]
    rw [hik]
    dsimp only
    simp only [except_pure_eq, except_bind_ok]
    rw [hek]
    dsimp only
    rw [hps]
    rw [except_bind_ok]

theorem createNode_err (factory : Factory) (roots : List (String × XmlElem))
    (el : XmlElem) (bbIdx : Nat) (parentIdx : Option Nat) (st : InstState)
    (e : BTError)
    (h : createNodeFromXML factory roots el bbIdx parentIdx st = .error e) :
    resolveNode factory roots el bbIdx st.heap = .error e := by
  simp only [createNodeFromXML] at h
  cases hres : resolveNode factory roots el bbIdx st.heap with
  | error e2 =>
    rw [hres, except_bind_err] at h
    rw [Except.error.inj h]
  | ok nh =>
    rw [hres, except_bind_ok, except_pure_eq] at h
    exact absurd h (by simp)

theorem allowedErr_noStructural (e : BTError) (h : allowedErr e) :
    noStructuralError (.error e) := by
  cases e <;> simp [allowedErr, noStructuralError] at h ⊢

theorem resolveTail_instOK (factory : Factory) (roots : List (String × XmlElem))
    (attrs : List (String × String)) (bbIdx : Nat) (heap0 : BBHeap)
    (ID instName : String) (m : TreeNodeManifest)
    (hb : factory.builders.contains ID = true)
    (hm : alookup factory.manifests ID = some m) :
    (∀ e, (if factory.builders.contains ID then do
        let manifest ← match alookup factory.manifests ID with
          | some mf => pure mf
          | none => throw (BTError.ManifestMissing ID)
        checkTypos ID instName manifest.ports (collectRemapping attrs)
        let heap ← reconcilePorts bbIdx (collectRemapping attrs) manifest.ports heap0
        let io := buildPortsLoop manifest.ports (collectRemapping attrs) ([], [])
        pure ((⟨ID, instName, manifest.type, io.1, io.2, [], []⟩ : NodeInst), heap)
      else if (alookup roots ID).isSome then
        pure ((⟨"", instName, NodeType.SUBTREE, [], [], [], []⟩ : NodeInst), heap0)
      else
        throw (BTError.UnknownNodeError ID) :
        Except BTError (NodeInst × BBHeap)) = .error e → allowedErr e) ∧
    (∀ node heap1, (if factory.builders.contains ID then do
        let manifest ← match alookup factory.manifests ID with
          | some mf => pure mf
          | none => throw (BTError.ManifestMissing ID)
        checkTypos ID instName manifest.ports (collectRemapping attrs)
        let heap ← reconcilePorts bbIdx (collectRemapping attrs) manifest.ports heap0
        let io := buildPortsLoop manifest.ports (collectRemapping attrs) ([], [])
        pure ((⟨ID, instName, manifest.type, io.1, io.2, [], []⟩ : NodeInst), heap)
      else if (alookup roots ID).isSome then
        pure ((⟨"", instName, NodeType.SUBTREE, [], [], [], []⟩ : NodeInst), heap0)
      else
        throw (BTError.UnknownNodeError ID) :
        Except BTError (NodeInst × BBHeap)) = .ok (node, heap1) →
      node.type = m.type ∧ node.instance_name = instName) := by
  constructor
  · intro e h
    rw [if_pos hb, hm] at h
    dsimp only at h
    simp only [except_pure_eq, except_bind_ok] at h
    cases hty : checkTypos ID instName m.ports (collectRemapping attrs) with
    | error e2 =>
      rw [hty, except_bind_err] at h
      cases h
      obtain ⟨pn, hpn⟩ := checkTypos_error _ _ _ _ _ hty
      rw [hpn]
      simp [allowedErr]
    | ok u =>
      rw [hty, except_bind_ok] at h
      cases hrc : reconcilePorts bbIdx (collectRemapping attrs) m.ports heap0 with
      | error e2 =>
        rw [hrc, except_bind_err] at h
        cases h
        obtain ⟨k, a, b, hk⟩ := reconcilePorts_error _ _ _ _ _ hrc
        rw [hk]
        simp [allowedErr]
      | ok heap2 =>
        rw [hrc, except_bind_ok] at h
        simp [except_pure_eq] at h
  · intro node heap1 h
    rw [if_pos hb, hm] at h
    dsimp only at h
    simp only [except_pure_eq, except_bind_ok] at h
    cases hty : checkTypos ID instName m.ports (collectRemapping attrs) with
    | error e2 => rw [hty, except_bind_err] at h; exact absurd h (by simp)
    | ok u =>
      rw [hty, except_bind_ok] at h
      cases hrc : reconcilePorts bbIdx (collectRemapping attrs) m.ports heap0 with
      | error e2 => rw [hrc, except_bind_err] at h; exact absurd h (by simp)
      | ok heap2 =>
        rw [hrc, except_bind_ok] at h
        obtain ⟨hnode, hheap⟩ := Prod.mk.inj (Except.ok.inj h)
        rw [← hnode]
        exact ⟨rfl, rfl⟩


/-- Under the registry-side conditions `instOK`, `resolveNode` fails only
with a typo or a port-type conflict. -/
theorem resolveNode_err_instOK (factory : Factory)
    (roots : List (String × XmlElem)) (n : String)
    (attrs : List (String × String)) (cs : List XmlElem) (bbIdx : Nat)
    (heap0 : BBHeap)
    (hok : instOK factory (akeys roots) (XmlElem.mk n attrs cs) = true) :
    ∀ e, resolveNode factory roots (XmlElem.mk n attrs cs) bbIdx heap0 =
      .error e → allowedErr e := by
  intro e h
  simp only [resolveNode, XmlElem.ename] at h
  simp only [instOK] at hok
  by_cases hadc : (n == "Action" || n == "Decorator" || n == "Condition") = true
  · rw [if_pos hadc] at h hok
    have hsubf : (n == "SubTree") = false := by
      cases hst : (n == "SubTree") with
      | false => rfl
      | true =>
        have he : n = "SubTree" := beq_iff_eq.mp hst
        rw [he] at hadc
        simp at hadc
    cases hid : (XmlElem.mk n attrs cs).attr "ID" with
    | none => rw [hid] at hok; simp at hok
    | some id =>
      rw [hid] at h hok
      dsimp only at h hok
      simp only [except_pure_eq, except_bind_ok, hsubf, Bool.false_eq_true,
        if_false] at h
      rw [Bool.and_eq_true, Bool.and_eq_true] at hok
      obtain ⟨⟨hb, hX⟩, hlist⟩ := hok
      cases hman : alookup factory.manifests id with
      | none => rw [hman] at hX; simp at hX
      | some m =>
        exact (resolveTail_instOK factory roots _ bbIdx heap0 id _ m
          hb hman).1 e h
  · rw [if_neg hadc] at h hok
    simp only [except_pure_eq, except_bind_ok] at h
    by_cases hsub : (n == "SubTree") = true
    · have hn : n = "SubTree" := beq_iff_eq.mp hsub
      subst hn
      rw [if_pos hsub] at hok
      simp only [hsub, if_true] at h
      cases hid : (XmlElem.mk "SubTree" attrs cs).attr "ID" with
      | none => rw [hid] at hok; dsimp only at hok; simp at hok
      | some t =>
        rw [hid] at h hok
        dsimp only at h hok
        rw [Bool.and_eq_true, Bool.and_eq_true, Bool.and_eq_true] at hok
        obtain ⟨⟨⟨hroot, hbS⟩, hmS⟩, hremaps⟩ := hok
        cases hmanS : alookup factory.manifests "SubTree" with
        | none => rw [hmanS] at hmS; simp at hmS
        | some m =>
          exact (resolveTail_instOK factory roots _ bbIdx heap0 "SubTree" t m
            hbS hmanS).1 e h
    · have hsubf : (n == "SubTree") = false := by simpa using hsub
      simp only [hsubf, Bool.false_eq_true, if_false] at h hok
      rw [Bool.and_eq_true, Bool.and_eq_true] at hok
      obtain ⟨⟨hb, hX⟩, hlist⟩ := hok
      cases hman : alookup factory.manifests n with
      | none => rw [hman] at hX; simp at hX
      | some m =>
        exact (resolveTail_instOK factory roots _ bbIdx heap0 n _ m
          hb hman).1 e h

/-- Under `instOK`, a successfully resolved subtree node references a
registered tree and its element had well-formed `<remap>` children, while a
non-subtree node's children all satisfy `instOK` themselves. -/
theorem resolveNode_ok_instOK (factory : Factory)
    (roots : List (String × XmlElem)) (n : String)
    (attrs : List (String × String)) (cs : List XmlElem) (bbIdx : Nat)
    (heap0 : BBHeap)
    (hok : instOK factory (akeys roots) (XmlElem.mk n attrs cs) = true) :
    ∀ node heap1, resolveNode factory roots (XmlElem.mk n attrs cs) bbIdx
        heap0 = .ok (node, heap1) →
      (node.type = NodeType.SUBTREE →
        (akeys roots).contains node.instance_name = true ∧
        (cs.filter (fun c => c.ename == "remap")).all remapAttrsOK = true) ∧
      (node.type ≠ NodeType.SUBTREE →
        instOKList factory (akeys roots) cs = true) := by
  intro node heap1 h
  simp only [resolveNode, XmlElem.ename] at h
  simp only [instOK] at hok
  by_cases hadc : (n == "Action" || n == "Decorator" || n == "Condition") = true
  · rw [if_pos hadc] at h hok
    have hsubf : (n == "SubTree") = false := by
      cases hst : (n == "SubTree") with
      | false => rfl
      | true =>
        have he : n = "SubTree" := beq_iff_eq.mp hst
        rw [he] at hadc
        simp at hadc
    cases hid : (XmlElem.mk n attrs cs).attr "ID" with
    | none => rw [hid] at hok; simp at hok
    | some id =>
      rw [hid] at h hok
      dsimp only at h hok
      simp only [except_pure_eq, except_bind_ok, hsubf, Bool.false_eq_true,
        if_false] at h
      rw [Bool.and_eq_true, Bool.and_eq_true] at hok
      obtain ⟨⟨hb, hX⟩, hlist⟩ := hok
      cases hman : alookup factory.manifests id with
      | none => rw [hman] at hX; simp at hX
      | some m =>
        rw [hman] at hX
        dsimp only at hX
        have hmt : m.type ≠ NodeType.SUBTREE := by simpa using hX
        obtain ⟨htype, hiname⟩ := (resolveTail_instOK factory roots _ bbIdx
          heap0 id _ m hb hman).2 node heap1 h
        constructor
        · intro hsubN
          exact absurd (htype.symm.trans hsubN) hmt
        · intro hne
          exact hlist
  · rw [if_neg hadc] at h hok
    simp only [except_pure_eq, except_bind_ok] at h
    by_cases hsub : (n == "SubTree") = true
    · have hn : n = "SubTree" := beq_iff_eq.mp hsub
      subst hn
      rw [if_pos hsub] at hok
      simp only [hsub, if_true] at h
      cases hid : (XmlElem.mk "SubTree" attrs cs).attr "ID" with
      | none => rw [hid] at hok; dsimp only at hok; simp at hok
      | some t =>
        rw [hid] at h hok
        dsimp only at h hok
        rw [Bool.and_eq_true, Bool.and_eq_true, Bool.and_eq_true] at hok
        obtain ⟨⟨⟨hroot, hbS⟩, hmS⟩, hremaps⟩ := hok
        cases hmanS : alookup factory.manifests "SubTree" with
        | none => rw [hmanS] at hmS; simp at hmS
        | some m =>
          rw [hmanS] at hmS
          dsimp only at hmS
          have hmt : m.type = NodeType.SUBTREE := beq_iff_eq.mp hmS
          obtain ⟨htype, hiname⟩ := (resolveTail_instOK factory roots _ bbIdx
            heap0 "SubTree" t m hbS hmanS).2 node heap1 h
          constructor
          · intro hsubN
            rw [hiname]
            exact ⟨hroot, hremaps⟩
          · intro hne
            exact absurd (htype.trans hmt) hne
    · have hsubf : (n == "SubTree") = false := by simpa using hsub
      simp only [hsubf, Bool.false_eq_true, if_false] at h hok
      rw [Bool.and_eq_true, Bool.and_eq_true] at hok
      obtain ⟨⟨hb, hX⟩, hlist⟩ := hok
      cases hman : alookup factory.manifests n with
      | none => rw [hman] at hX; simp at hX
      | some m =>
        rw [hman] at hX
        dsimp only at hX
        have hmt : m.type ≠ NodeType.SUBTREE := by simpa using hX
        obtain ⟨htype, hiname⟩ := (resolveTail_instOK factory roots _ bbIdx
          heap0 n _ m hb hman).2 node heap1 h
        constructor
        · intro hsubN
          exact absurd (htype.symm.trans hsubN) hmt
        · intro hne
          exact hlist


/-- Fuel-indexed totality of the instantiation recursion under the
registry-side conditions: with every reachable element `instOK`, every
referenced tree registered and a non-empty blackboard stack, the recursion
raises no structural error and keeps the stack non-empty. -/
theorem instOK_noStructural (factory : Factory)
    (roots : List (String × XmlElem)) (hdoc : instDocOK factory roots = true) :
    ∀ fuel : Nat,
      (∀ bb parent el st, st.stack ≠ [] →
        instOK factory (akeys roots) el = true →
        ∀ res, recStep factory roots fuel bb parent el st = res →
          noStructuralError res ∧
          ∀ st', res = .ok st' → st'.stack ≠ []) ∧
      (∀ id st rp bbIdx, st.stack ≠ [] →
        (alookup roots id).isSome = true →
        ∀ res, recTree factory roots fuel id st rp bbIdx = res →
          noStructuralError res ∧
          ∀ st', res = .ok st' → st'.stack ≠ []) ∧
      (∀ bbIdx parent els st, st.stack ≠ [] →
        instOKList factory (akeys roots) els = true →
        ∀ res, recChildren factory roots fuel bbIdx parent els st = res →
          noStructuralError res ∧
          ∀ st', res = .ok st' → st'.stack ≠ []) := by
  have hall : ∀ p ∈ roots,
      (match p.2.children with
       | [c] => instOK factory (akeys roots) c
       | _ => false) = true := by
    intro p hp
    have h2 := hdoc
    rw [instDocOK, List.all_eq_true] at h2
    exact h2 p hp
  intro fuel
  induction fuel with
  | zero =>
    refine ⟨?_, ?_, ?_⟩
    · intro bb parent el st hst hok res hres
      simp only [recStep, except_throw_eq] at hres
      cases hres
      exact ⟨by simp [noStructuralError], fun st' h2 => absurd h2 (by simp)⟩
    · intro id st rp bbIdx hst hsome res hres
      simp only [recTree, except_throw_eq] at hres
      cases hres
      exact ⟨by simp [noStructuralError], fun st' h2 => absurd h2 (by simp)⟩
    · intro bbIdx parent els st hst hlist res hres
      cases els with
      | nil =>
        simp only [recChildren, except_pure_eq] at hres
        cases hres
        exact ⟨by simp [noStructuralError], fun st' h2 => by
          cases h2
          exact hst⟩
      | cons c cs2 =>
        simp only [recChildren, except_throw_eq] at hres
        cases hres
        exact ⟨by simp [noStructuralError], fun st' h2 => absurd h2 (by simp)⟩
  | succ fuel ih =>
    have ihStep := ih.1
    have ihTree := ih.2.1
    have ihKids := ih.2.2
    refine ⟨?_, ?_, ?_⟩
    · intro bb parent el st hst hok res hres
      obtain ⟨n, nattrs, ncs⟩ := el
      simp only [recStep] at hres
      cases hc : createNodeFromXML factory roots (XmlElem.mk n nattrs ncs)
          bb parent st with
      | error e =>
        rw [hc, except_bind_err] at hres
        cases hres
        have he := createNode_err _ _ _ _ _ _ _ hc
        have hallow := resolveNode_err_instOK factory roots n nattrs ncs bb
          st.heap hok e he
        exact ⟨allowedErr_noStructural e hallow, fun st' h2 => absurd h2 (by simp)⟩
      | ok r =>
        rw [hc, except_bind_ok] at hres
        obtain ⟨nh, hres2, hr1, hr2⟩ := createNode_inv _ _ _ _ _ _ _ hc
        have hsh := resolveNode_ok_instOK factory roots n nattrs ncs bb
          st.heap hok nh.1 nh.2 hres2
        by_cases hsubt : r.1.type = NodeType.SUBTREE
        · rw [if_pos hsubt] at hres
          have hstack2 : ({ r.2 with nodes := r.2.nodes ++ [r.1] } :
              InstState).stack = st.stack := by
            rw [hr2]
          cases hlast : ({ r.2 with nodes := r.2.nodes ++ [r.1] } :
              InstState).stack.getLast? with
          | none =>
            exfalso
            have hissome := List.getLast?_isSome.mpr
              (show ({ r.2 with nodes := r.2.nodes ++ [r.1] } :
                InstState).stack ≠ [] by rw [hstack2]; exact hst)
            rw [hlast] at hissome
            simp at hissome
          | some parentBB =>
            rw [hlast] at hres
            dsimp only at hres
            have hsub1 : nh.1.type = NodeType.SUBTREE := by
              rw [← hr1]
              exact hsubt
            obtain ⟨hcont, hremaps⟩ := hsh.1 hsub1
            obtain ⟨ps, hps⟩ := extractRemapPairs_ok _ hremaps
            simp only [XmlElem.children] at hres
            rw [hps] at hres
            simp only [except_pure_eq, except_bind_ok] at hres
            have hlook : (alookup roots r.1.instance_name).isSome = true := by
              apply akeys_contains_lookup
              rw [hr1]
              exact hcont
            exact ihTree _ _ _ _ (by simp) hlook res hres
        · rw [if_neg hsubt] at hres
          have hsub2 : nh.1.type ≠ NodeType.SUBTREE := by
            rw [← hr1]
            exact hsubt
          have hlist := hsh.2 hsub2
          simp only [XmlElem.children] at hres
          exact ihKids _ _ _ _
            (by show r.2.stack ≠ []; rw [hr2]; exact hst) hlist res hres
    · intro id st rp bbIdx hst hsome res hres
      simp only [recTree] at hres
      cases hl : alookup roots id with
      | none => rw [hl] at hsome; simp at hsome
      | some bt =>
        rw [hl] at hres
        dsimp only at hres
        have hmem := alookup_mem roots id bt hl
        have hbt := hall (id, bt) hmem
        cases hch : bt.children with
        | nil => rw [hch] at hbt; simp at hbt
        | cons c rest =>
          cases rest with
          | nil =>
            rw [hch] at hbt
            dsimp only at hbt
            rw [hch] at hres
            simp only [List.head?_cons] at hres
            exact ihStep _ _ _ _ hst hbt res hres
          | cons c2 rest2 =>
            rw [hch] at hbt
            simp at hbt
    · intro bbIdx parent els st hst hlist res hres
      cases els with
      | nil =>
        simp only [recChildren, except_pure_eq] at hres
        cases hres
        exact ⟨by simp [noStructuralError], fun st' h2 => by
          cases h2
          exact hst⟩
      | cons c cs2 =>
        simp only [instOKList, Bool.and_eq_true] at hlist
        obtain ⟨hc2, hcs⟩ := hlist
        simp only [recChildren] at hres
        cases hs : recStep factory roots fuel bbIdx parent c st with
        | error e =>
          rw [hs, except_bind_err] at hres
          cases hres
          have := (ihStep bbIdx parent c st hst hc2 (.error e) hs).1
          exact ⟨this, fun st' h2 => absurd h2 (by simp)⟩
        | ok st1 =>
          rw [hs, except_bind_ok] at hres
          have hst1 := (ihStep bbIdx parent c st hst hc2 (.ok st1) hs).2 st1 rfl
          exact ihKids _ _ _ _ hst1 hcs res hres


/-- C2 counterexample: the document whose action carries the unregistered
ID `Foo` is accepted by the loader and validator, yet instantiation fails
with the structural error `UnknownNodeError` -- the validator never checks
`ID` attributes against the factory registry. -/
theorem validator_misses_unknown_node :
    loadFromText fsEmpty facPing 20 (some docUnknownID) (initState fsEmpty) =
      .ok pstUnknown ∧
    instantiateTree facPing pstUnknown 20 (some bbRoot) =
      .error (.UnknownNodeError "Foo") :=
  ⟨rfl, rfl⟩

/-- C2 (amended): validation alone does not make instantiation total -- the
validator never consults the factory registry, so an unregistered `ID`
still fails with `UnknownNodeError` (see the counterexample).  When the
loaded documents additionally satisfy the registry-side conditions
`instDocOK` -- every element resolves to a registered non-subtree builder or
references a registered tree through the subtree builtin with well-formed
`<remap>` children -- and the main-tree selection resolves in the tree
index, then instantiation with a non-null root blackboard raises no
structural error: the only remaining failures are `TypoError`,
`TypeMismatchError`, or running out of fuel (the C++ recursion does not
terminate on cyclic subtree references). -/
theorem validated_instantiation_errors (factory : Factory)
    (pst : ParserState) (fuel : Nat) (bb0 : BBData) (xroot : XmlElem)
    (hdoc : instDocOK factory pst.tree_roots = true)
    (hhead : pst.opened_documents.head? = some xroot)
    (hsel : ∀ mid, xroot.attr "main_tree_to_execute" = some mid →
      (alookup pst.tree_roots mid).isSome = true)
    (hsel2 : xroot.attr "main_tree_to_execute" = none →
      ∃ r, pst.tree_roots = [r]) :
    noStructuralError (instantiateTree factory pst fuel (some bb0)) := by
  simp only [instantiateTree, hhead]
  simp only [except_pure_eq, except_bind_ok]
  cases ha : xroot.attr "main_tree_to_execute" with
  | some mid =>
    simp only [ha]
    exact ((instOK_noStructural factory pst.tree_roots hdoc fuel).2.1 mid
      ⟨[bb0], [], [0]⟩ none 0 (by simp) (hsel mid ha) _ rfl).1
  | none =>
    obtain ⟨r, hr⟩ := hsel2 ha
    simp only [ha, hr]
    exact ((instOK_noStructural factory [r] (by rw [← hr]; exact hdoc)
        fuel).2.1 r.1
      ⟨[bb0], [], [0]⟩ none 0 (by simp) (by simp [alookup]) _ rfl).1

/-- C2 witness: the subtree scenario satisfies the registry-side conditions,
so its instantiation raises no structural error. -/
theorem validated_instantiation_errors_witness :
    noStructuralError (instantiateTree facSub pstSub 20 (some bbRoot)) :=
  validated_instantiation_errors facSub pstSub 20 bbRoot docSub (by rfl)
    (by rfl) (fun mid h => by
      rw [show docSub.attr "main_tree_to_execute" = some "Main" from rfl] at h
      rw [← Option.some.inj h]
      rfl)
    (fun h => by
      rw [show docSub.attr "main_tree_to_execute" = some "Main" from rfl] at h
      cases h)


/- ---- C1 sorted-map lemmas ---- -/

theorem alookup_forall_ne {α : Type} :
    ∀ (A : List (String × α)) (k : String), (∀ p ∈ A, p.1 ≠ k) →
      alookup A k = none := by
  intro A
  induction A with
  | nil => intro k h; rfl
  | cons p rest ih =>
    intro k h
    simp only [alookup]
    rw [if_neg (h p (List.mem_cons_self _ _))]
    exact ih k (fun q hq => h q (List.mem_cons_of_mem _ hq))

theorem smSet_alookup :
    ∀ (A : List (String × String)) (k v k' : String),
      alookup (smSet A k v) k' = if k' = k then some v else alookup A k' := by
  intro A
  induction A with
  | nil =>
    intro k v k'
    by_cases h : k' = k
    · subst h; simp [smSet, alookup]
    · simp only [smSet, alookup]
      rw [if_neg (fun hh : k = k' => h hh.symm), if_neg h]
  | cons p rest ih =>
    intro k v k'
    simp only [smSet]
    rcases lt_trichotomy k p.1 with hlt | heq | hgt
    · rw [if_pos hlt]
      by_cases h : k' = k
      · subst h; simp [alookup]
      · simp only [alookup]
        rw [if_neg (fun hh : k = k' => h hh.symm), if_neg h]
    · rw [if_neg (lt_irrefl k ∘ (heq ▸ id)), if_pos heq]
      by_cases h : k' = k
      · subst h; simp [alookup]
      · simp only [alookup]
        rw [if_neg (fun hh : k = k' => h hh.symm), if_neg h,
          if_neg (fun hh : p.1 = k' => h (heq.trans hh).symm)]
    · rw [if_neg (asymm hgt), if_neg (fun hh : k = p.1 => absurd (hh ▸ hgt) (lt_irrefl _))]
      simp only [alookup]
      by_cases h0 : p.1 = k'
      · rw [if_pos h0, if_neg (fun hh : k' = k => absurd (hh ▸ h0 ▸ hgt) (lt_irrefl _)), if_pos h0]
      · rw [if_neg h0, ih k v k', if_neg h0]

theorem smSet_keys :
    ∀ (A : List (String × String)) (k v k' : String),
      k' ∈ akeys (smSet A k v) → k' = k ∨ k' ∈ akeys A := by
  intro A
  induction A with
  | nil =>
    intro k v k' h
    simp [smSet, akeys] at h
    exact Or.inl h
  | cons p rest ih =>
    intro k v k' h
    simp only [smSet] at h
    rcases lt_trichotomy k p.1 with hlt | heq | hgt
    · rw [if_pos hlt] at h
      simp only [akeys, List.map_cons, List.mem_cons] at h ⊢
      tauto
    · rw [if_neg (lt_irrefl k ∘ (heq ▸ id)), if_pos heq] at h
      simp only [akeys, List.map_cons, List.mem_cons] at h ⊢
      tauto
    · rw [if_neg (asymm hgt),
        if_neg (fun hh : k = p.1 => absurd (hh ▸ hgt) (lt_irrefl _))] at h
      simp only [akeys, List.map_cons, List.mem_cons] at h ⊢
      rcases h with h | h
      · exact Or.inr (Or.inl h)
      · rcases ih k v k' h with h2 | h2
        · exact Or.inl h2
        · exact Or.inr (Or.inr h2)

theorem smSet_pairwise :
    ∀ (A : List (String × String)) (k v : String),
      List.Pairwise (· < ·) (akeys A) →
      List.Pairwise (· < ·) (akeys (smSet A k v)) := by
  intro A
  induction A with
  | nil => intro k v h; simp [smSet, akeys]
  | cons p rest ih =>
    intro k v h
    simp only [akeys, List.map_cons, List.pairwise_cons] at h
    obtain ⟨hp, hrest⟩ := h
    simp only [smSet]
    rcases lt_trichotomy k p.1 with hlt | heq | hgt
    · rw [if_pos hlt]
      simp only [akeys, List.map_cons, List.pairwise_cons]
      refine ⟨?_, hp, hrest⟩
      intro b hb
      simp only [List.mem_cons] at hb
      rcases hb with hb | hb
      · rw [hb]; exact hlt
      · exact lt_trans hlt (hp b hb)
    · rw [if_neg (lt_irrefl k ∘ (heq ▸ id)), if_pos heq]
      simp only [akeys, List.map_cons, List.pairwise_cons]
      exact ⟨fun b hb => heq ▸ hp b hb, hrest⟩
    · rw [if_neg (asymm hgt),
        if_neg (fun hh : k = p.1 => absurd (hh ▸ hgt) (lt_irrefl _))]
      simp only [akeys, List.map_cons, List.pairwise_cons]
      refine ⟨?_, ih k v hrest⟩
      intro b hb
      have hb2 := hb
      simp only [akeys] at hb2
      rcases smSet_keys rest k v b hb2 with h2 | h2
      · rw [h2]; exact hgt
      · exact hp b h2

theorem smInsertKeep_append :
    ∀ (A : List (String × String)) (k v : String),
      (∀ p ∈ A, p.1 < k) → smInsertKeep A k v = A ++ [(k, v)] := by
  intro A
  induction A with
  | nil => intro k v h; rfl
  | cons p rest ih =>
    intro k v h
    have hp := h p (List.mem_cons_self _ _)
    simp only [smInsertKeep]
    rw [if_neg (asymm hp),
      if_neg (fun hh : k = p.1 => absurd (hh ▸ hp) (lt_irrefl _)),
      ih k v (fun q hq => h q (List.mem_cons_of_mem _ hq))]
    rfl

theorem sortedExt :
    ∀ (A B : List (String × String)),
      List.Pairwise (· < ·) (akeys A) → List.Pairwise (· < ·) (akeys B) →
      (∀ k, alookup A k = alookup B k) → A = B := by
  intro A
  induction A with
  | nil =>
    intro B hA hB hEq
    cases B with
    | nil => rfl
    | cons q B2 =>
      have h := hEq q.1
      simp only [alookup, if_pos rfl] at h
      exact absurd h.symm (by simp)
  | cons p A2 ih =>
    intro B hA hB hEq
    cases B with
    | nil =>
      have h := hEq p.1
      simp only [alookup, if_pos rfl] at h
      exact absurd h (by simp)
    | cons q B2 =>
      simp only [akeys, List.map_cons, List.pairwise_cons] at hA hB
      obtain ⟨hpA, hA2⟩ := hA
      obtain ⟨hqB, hB2⟩ := hB
      have hkey : p.1 = q.1 := by
        by_contra hne
        rcases lt_trichotomy p.1 q.1 with hlt | heq | hgt
        · have h := hEq p.1
          simp only [alookup, if_pos rfl] at h
          rw [if_neg (fun hh : q.1 = p.1 => hne hh.symm)] at h
          have hnone : alookup B2 p.1 = none := by
            apply alookup_forall_ne
            intro r hr
            have hqr : q.1 < r.1 := hqB r.1 (List.mem_map_of_mem _ hr)
            exact fun hh => absurd (hh ▸ (lt_trans hlt hqr)) (lt_irrefl _)
          rw [hnone] at h
          exact absurd h (by simp)
        · exact hne heq
        · have h := hEq q.1
          simp only [alookup, if_pos rfl] at h
          rw [if_neg hne] at h
          have hnone : alookup A2 q.1 = none := by
            apply alookup_forall_ne
            intro r hr
            have hpr : p.1 < r.1 := hpA r.1 (List.mem_map_of_mem _ hr)
            exact fun hh => absurd (hh ▸ (lt_trans hgt hpr)) (lt_irrefl _)
          rw [hnone] at h
          exact absurd h.symm (by simp)
      have hval : p.2 = q.2 := by
        have h := hEq p.1
        simp only [alookup, if_pos rfl] at h
        rw [if_pos hkey.symm] at h
        exact Option.some.inj h
      have htails : ∀ k, alookup A2 k = alookup B2 k := by
        intro k
        by_cases hk : k = p.1
        · rw [hk]
          rw [alookup_forall_ne A2 p.1 (fun r hr hh =>
              absurd (hh ▸ hpA r.1 (List.mem_map_of_mem _ hr)) (lt_irrefl _)),
            alookup_forall_ne B2 p.1 (fun r hr hh =>
              absurd (hh ▸ (hkey ▸ hqB r.1 (List.mem_map_of_mem _ hr) :
                p.1 < r.1)) (lt_irrefl _))]
        · have h := hEq k
          simp only [alookup] at h
          rw [if_neg (fun hh : p.1 = k => hk hh.symm),
            if_neg (fun hh : q.1 = k => hk (hkey ▸ hh.symm))] at h
          exact h
      have hpq : p = q := Prod.ext hkey hval
      rw [hpq, ih B2 hA2 hB2 htails]


theorem akeys_filter_sublist {α : Type} (A : List (String × α))
    (f : String × α → Bool) :
    List.Sublist (akeys (A.filter f)) (akeys A) :=
  List.Sublist.map _ (List.filter_sublist A)

theorem pairwise_filter_keys (A : List (String × String))
    (f : String × String → Bool)
    (h : List.Pairwise (· < ·) (akeys A)) :
    List.Pairwise (· < ·) (akeys (A.filter f)) :=
  List.Pairwise.sublist (akeys_filter_sublist A f) h

theorem alookup_filter :
    ∀ (A : List (String × String)) (f : String × String → Bool) (k : String),
      List.Pairwise (· < ·) (akeys A) →
      alookup (A.filter f) k =
        match alookup A k with
        | some v => if f (k, v) then some v else none
        | none => none := by
  intro A
  induction A with
  | nil => intro f k h; rfl
  | cons p rest ih =>
    intro f k h
    simp only [akeys, List.map_cons, List.pairwise_cons] at h
    obtain ⟨hp, hrest⟩ := h
    rw [List.filter_cons]
    by_cases hf : f p = true
    · rw [if_pos hf]
      simp only [alookup]
      by_cases hk : p.1 = k
      · rw [if_pos hk, if_pos hk]
        have hpk : p = (k, p.2) := Prod.ext hk rfl
        show some p.2 = if f (k, p.2) = true then some p.2 else none
        rw [← hpk, hf]
        simp
      · rw [if_neg hk, if_neg hk]
        exact ih f k hrest
    · rw [if_neg hf]
      simp only [alookup]
      by_cases hk : p.1 = k
      · rw [if_pos hk]
        have hpk : p = (k, p.2) := Prod.ext hk rfl
        show alookup (rest.filter f) k =
          if f (k, p.2) = true then some p.2 else none
        have hfk : f (k, p.2) = false := by
          rw [← hpk]
          simpa using hf
        rw [hfk]
        simp only [Bool.false_eq_true, if_false]
        apply alookup_forall_ne
        intro r hr hh
        have hr2 : r ∈ rest := List.mem_of_mem_filter hr
        have hlt := hp r.1 (List.mem_map_of_mem _ hr2)
        rw [hk, hh] at hlt
        exact absurd hlt (lt_irrefl _)
      · rw [if_neg hk]
        exact ih f k hrest

theorem foldl_smSet_alookup :
    ∀ (L : List (String × String)) (acc : List (String × String)) (k : String),
      (akeys L).Nodup →
      alookup (L.foldl (fun m p => smSet m p.1 p.2) acc) k =
        match alookup L k with
        | some v => some v
        | none => alookup acc k := by
  intro L
  induction L with
  | nil => intro acc k h; rfl
  | cons p rest ih =>
    intro acc k hnd
    simp only [akeys, List.map_cons, List.nodup_cons] at hnd
    obtain ⟨hphead, hrest⟩ := hnd
    simp only [List.foldl_cons]
    rw [ih (smSet acc p.1 p.2) k hrest]
    simp only [alookup]
    by_cases hk : p.1 = k
    · rw [if_pos hk]
      have hnone : alookup rest k = none := by
        apply alookup_forall_ne
        intro r hr hh
        exact hphead (hk ▸ hh ▸ List.mem_map_of_mem (·.1) hr)
      rw [hnone, smSet_alookup, if_pos hk.symm]
    · rw [if_neg hk]
      cases hrk : alookup rest k with
      | some v => rfl
      | none =>
        rw [smSet_alookup, if_neg (fun hh : k = p.1 => hk hh.symm)]

theorem foldl_smSet_keys :
    ∀ (L acc : List (String × String)) (k : String),
      k ∈ akeys (L.foldl (fun m p => smSet m p.1 p.2) acc) →
      k ∈ akeys L ∨ k ∈ akeys acc := by
  intro L
  induction L with
  | nil => intro acc k h; exact Or.inr h
  | cons p rest ih =>
    intro acc k h
    simp only [List.foldl_cons] at h
    rcases ih (smSet acc p.1 p.2) k h with h2 | h2
    · exact Or.inl (by simp [akeys] at h2 ⊢; tauto)
    · rcases smSet_keys acc p.1 p.2 k h2 with h3 | h3
      · exact Or.inl (by simp [akeys, h3])
      · exact Or.inr h3

theorem collectStep_skip :
    ∀ (pre : List (String × String)) (acc : List (String × String)),
      (∀ p ∈ pre, p.1 = "ID" ∨ p.1 = "name") →
      pre.foldl (fun m p =>
        if p.1 ≠ "ID" ∧ p.1 ≠ "name" then smSet m p.1 p.2 else m) acc = acc := by
  intro pre
  induction pre with
  | nil => intro acc h; rfl
  | cons p rest ih =>
    intro acc h
    simp only [List.foldl_cons]
    have hp := h p (List.mem_cons_self _ _)
    rw [if_neg (by tauto)]
    exact ih acc (fun q hq => h q (List.mem_cons_of_mem _ hq))

theorem collectStep_eq_smSet :
    ∀ (L : List (String × String)) (acc : List (String × String)),
      (∀ p ∈ L, p.1 ≠ "ID" ∧ p.1 ≠ "name") →
      L.foldl (fun m p =>
        if p.1 ≠ "ID" ∧ p.1 ≠ "name" then smSet m p.1 p.2 else m) acc =
      L.foldl (fun m p => smSet m p.1 p.2) acc := by
  intro L
  induction L with
  | nil => intro acc h; rfl
  | cons p rest ih =>
    intro acc h
    simp only [List.foldl_cons]
    rw [if_pos (h p (List.mem_cons_self _ _))]
    exact ih _ (fun q hq => h q (List.mem_cons_of_mem _ hq))

theorem collectRemapping_inv :
    ∀ (attrs : List (String × String)) (acc : List (String × String)),
      List.Pairwise (· < ·) (akeys acc) →
      (∀ k ∈ akeys acc, k ≠ "ID" ∧ k ≠ "name") →
      List.Pairwise (· < ·)
        (akeys (attrs.foldl (fun m p =>
          if p.1 ≠ "ID" ∧ p.1 ≠ "name" then smSet m p.1 p.2 else m) acc)) ∧
      (∀ k ∈ akeys (attrs.foldl (fun m p =>
          if p.1 ≠ "ID" ∧ p.1 ≠ "name" then smSet m p.1 p.2 else m) acc),
        k ≠ "ID" ∧ k ≠ "name") := by
  intro attrs
  induction attrs with
  | nil => intro acc h1 h2; exact ⟨h1, h2⟩
  | cons p rest ih =>
    intro acc h1 h2
    simp only [List.foldl_cons]
    by_cases hp : p.1 ≠ "ID" ∧ p.1 ≠ "name"
    · rw [if_pos hp]
      apply ih
      · exact smSet_pairwise acc p.1 p.2 h1
      · intro k hk
        rcases smSet_keys acc p.1 p.2 k hk with h3 | h3
        · rw [h3]; exact hp
        · exact h2 k h3
    · rw [if_neg hp]
      exact ih acc h1 h2

theorem collectRemapping_pairwise (attrs : List (String × String)) :
    List.Pairwise (· < ·) (akeys (collectRemapping attrs)) :=
  (collectRemapping_inv attrs [] (by simp [akeys]) (by simp [akeys])).1

theorem collectRemapping_keys (attrs : List (String × String)) :
    ∀ k ∈ akeys (collectRemapping attrs), k ≠ "ID" ∧ k ≠ "name" :=
  (collectRemapping_inv attrs [] (by simp [akeys]) (by simp [akeys])).2


/- ---- C1 port-map round-trip lemmas ---- -/

theorem attr_alookup (n : String) (attrs : List (String × String))
    (cs : List XmlElem) (k : String) :
    (XmlElem.mk n attrs cs).attr k = alookup attrs k := by
  simp only [XmlElem.attr, XmlElem.attrs]
  induction attrs with
  | nil => rfl
  | cons p rest ih =>
    simp only [List.find?_cons, alookup]
    by_cases h : p.1 = k
    · rw [if_pos h]
      have : (p.1 == k) = true := beq_iff_eq.mpr h
      rw [this]
      rfl
    · rw [if_neg h]
      have : (p.1 == k) = false := by simpa using h
      rw [this]
      exact ih

theorem buildPortsLoop_char (ports : List (String × PortInfo)) :
    ∀ (R A B : List (String × String)),
      List.Pairwise (· < ·) (akeys R) →
      (∀ r ∈ R, ∀ a ∈ A, a.1 < r.1) →
      (∀ r ∈ R, ∀ b ∈ B, b.1 < r.1) →
      buildPortsLoop ports R (A, B) =
        (A ++ R.filter (fInB ports), B ++ R.filter (fOutB ports)) := by
  intro R
  induction R with
  | nil => intro A B h1 h2 h3; simp [buildPortsLoop]
  | cons r rest ih =>
    intro A B h1 h2 h3
    simp only [akeys, List.map_cons, List.pairwise_cons] at h1
    obtain ⟨hr, hrest⟩ := h1
    simp only [buildPortsLoop]
    cases hal : alookup ports r.1 with
    | none =>
      dsimp only
      have hfin : fInB ports r = false := by simp [fInB, hal]
      have hfout : fOutB ports r = false := by simp [fOutB, hal]
      rw [List.filter_cons, List.filter_cons, hfin, hfout]
      simp only [Bool.false_eq_true, if_false]
      exact ih A B hrest
        (fun q hq a ha => h2 q (List.mem_cons_of_mem _ hq) a ha)
        (fun q hq b hb => h3 q (List.mem_cons_of_mem _ hq) b hb)
    | some pi =>
      dsimp only
      have hfin : fInB ports r = decide (pi.ptype ≠ PortType.OUTPUT) := by
        simp [fInB, hal]
      have hfout : fOutB ports r = decide (pi.ptype ≠ PortType.INPUT) := by
        simp [fOutB, hal]
      have hAr : ∀ a ∈ A, a.1 < r.1 := h2 r (List.mem_cons_self _ _)
      have hBr : ∀ b ∈ B, b.1 < r.1 := h3 r (List.mem_cons_self _ _)
      have hA2 : ∀ q ∈ rest, ∀ a ∈ A ++ [(r.1, r.2)], a.1 < q.1 := by
        intro q hq a ha
        rcases List.mem_append.mp ha with ha | ha
        · exact lt_trans (hAr a ha) (hr q.1 (List.mem_map_of_mem _ hq))
        · simp at ha
          rw [ha]
          exact hr q.1 (List.mem_map_of_mem _ hq)
      have hB2 : ∀ q ∈ rest, ∀ b ∈ B ++ [(r.1, r.2)], b.1 < q.1 := by
        intro q hq b hb
        rcases List.mem_append.mp hb with hb | hb
        · exact lt_trans (hBr b hb) (hr q.1 (List.mem_map_of_mem _ hq))
        · simp at hb
          rw [hb]
          exact hr q.1 (List.mem_map_of_mem _ hq)
      have hA1 : ∀ q ∈ rest, ∀ a ∈ A, a.1 < q.1 :=
        fun q hq a ha => h2 q (List.mem_cons_of_mem _ hq) a ha
      have hB1 : ∀ q ∈ rest, ∀ b ∈ B, b.1 < q.1 :=
        fun q hq b hb => h3 q (List.mem_cons_of_mem _ hq) b hb
      rw [List.filter_cons, List.filter_cons, hfin, hfout]
      by_cases hpin : pi.ptype ≠ PortType.OUTPUT
      · rw [if_pos hpin, smInsertKeep_append A r.1 r.2 hAr]
        by_cases hpout : pi.ptype ≠ PortType.INPUT
        · rw [if_pos hpout, smInsertKeep_append B r.1 r.2 hBr]
          rw [if_pos (by simpa using hpin), if_pos (by simpa using hpout)]
          rw [ih (A ++ [(r.1, r.2)]) (B ++ [(r.1, r.2)]) hrest hA2 hB2]
          simp [List.append_assoc]
        · rw [if_neg hpout]
          rw [if_pos (by simpa using hpin),
            if_neg (by simpa using hpout)]
          rw [ih (A ++ [(r.1, r.2)]) B hrest hA2 hB1]
          simp [List.append_assoc]
      · rw [if_neg hpin]
        have hpout : pi.ptype ≠ PortType.INPUT := by
          intro hh
          rw [hh] at hpin
          simp at hpin
        rw [if_pos hpout, smInsertKeep_append B r.1 r.2 hBr]
        rw [if_neg (by simpa using hpin), if_pos (by simpa using hpout)]
        rw [ih A (B ++ [(r.1, r.2)]) hrest hA1 hB2]
        simp [List.append_assoc]


theorem checkTypos_ok_char (ID inst : String)
    (ports : List (String × PortInfo)) :
    ∀ rem : List (String × String),
      (∀ r ∈ rem, (alookup ports r.1).isSome = true) →
      checkTypos ID inst ports rem = .ok () := by
  intro rem
  induction rem with
  | nil => intro h; rfl
  | cons r rest ih =>
    intro h
    have hr := h r (List.mem_cons_self _ _)
    obtain ⟨v, hv⟩ := Option.isSome_iff_exists.mp hr
    simp only [checkTypos]
    rw [if_neg (by rw [hv]; simp)]
    exact ih (fun q hq => h q (List.mem_cons_of_mem _ hq))

theorem checkTypos_ok_keys (ID inst : String)
    (ports : List (String × PortInfo)) :
    ∀ (rem : List (String × String)) (u : Unit),
      checkTypos ID inst ports rem = .ok u →
      ∀ r ∈ rem, (alookup ports r.1).isSome = true := by
  intro rem
  induction rem with
  | nil => intro u h r hr; simp at hr
  | cons q rest ih =>
    intro u h r hr
    simp only [checkTypos] at h
    by_cases hq : (alookup ports q.1).isNone = true
    · rw [if_pos hq] at h
      simp [except_throw_eq] at h
    · rw [if_neg hq] at h
      rcases List.mem_cons.mp hr with hr | hr
      · rw [hr]
        cases hal : alookup ports q.1 with
        | none => rw [hal] at hq; simp at hq
        | some v => rfl
      · exact ih u h r hr

theorem reconcilePorts_congr (bbIdx : Nat)
    (R R' : List (String × String)) :
    ∀ (ports : List (String × PortInfo)) (heap : BBHeap),
      (∀ p ∈ ports, alookup R p.1 = alookup R' p.1) →
      reconcilePorts bbIdx R ports heap = reconcilePorts bbIdx R' ports heap := by
  intro ports
  induction ports with
  | nil => intro heap h; rfl
  | cons p rest ih =>
    intro heap h
    have hp := h p (List.mem_cons_self _ _)
    have hrest : ∀ q ∈ rest, alookup R q.1 = alookup R' q.1 :=
      fun q hq => h q (List.mem_cons_of_mem _ hq)
    obtain ⟨pn, pt⟩ := p
    simp only [reconcilePorts]
    cases hinfo : pt.info with
    | none => exact ih heap hrest
    | some tok =>
      dsimp only
      rw [show alookup R pn = alookup R' pn from hp]
      cases hal : alookup R' pn with
      | none => exact ih heap hrest
      | some value =>
        dsimp only
        cases hkey : getRemappedKey value with
        | none => exact ih heap hrest
        | some port_key =>
          dsimp only
          cases hbb : bbPortType heap bbIdx port_key with
          | none => exact ih _ hrest
          | some prev =>
            dsimp only
            by_cases hne : prev ≠ tok
            · rw [if_pos hne, if_pos hne]
            · rw [if_neg hne, if_neg hne]
              exact ih heap hrest

theorem portsRoundtrip (ports : List (String × PortInfo))
    (attrs attrs2 R0 inP outP outPf R1 : List (String × String))
    (hR0 : R0 = collectRemapping attrs)
    (hin : inP = R0.filter (fInB ports))
    (hout : outP = R0.filter (fOutB ports))
    (houtf : outPf = outP.filter (fun p => (alookup inP p.1).isNone))
    (hR1 : R1 = collectRemapping (attrs2 ++ (inP ++ outPf)))
    (h2keys : ∀ p ∈ attrs2, p.1 = "ID" ∨ p.1 = "name") :
    (∀ k, (alookup ports k).isSome = true → alookup R1 k = alookup R0 k) ∧
    buildPortsLoop ports R1 ([], []) = (inP, outP) ∧
    (∀ k ∈ akeys R1, k ∈ akeys R0) := by
  have hpw0 : List.Pairwise (· < ·) (akeys R0) := by
    rw [hR0]; exact collectRemapping_pairwise attrs
  have hkeys0 : ∀ k ∈ akeys R0, k ≠ "ID" ∧ k ≠ "name" := by
    rw [hR0]; exact collectRemapping_keys attrs
  have hpwIn : List.Pairwise (· < ·) (akeys inP) := by
    rw [hin]; exact pairwise_filter_keys R0 _ hpw0
  have hpwOut : List.Pairwise (· < ·) (akeys outP) := by
    rw [hout]; exact pairwise_filter_keys R0 _ hpw0
  have hpwOutf : List.Pairwise (· < ·) (akeys outPf) := by
    rw [houtf]; exact pairwise_filter_keys outP _ hpwOut
  have hInSub : ∀ p ∈ inP, p ∈ R0 := by
    rw [hin]; exact fun p hp => List.mem_of_mem_filter hp
  have hOutSub : ∀ p ∈ outP, p ∈ R0 := by
    rw [hout]; exact fun p hp => List.mem_of_mem_filter hp
  have hOutfSub : ∀ p ∈ outPf, p ∈ R0 := by
    rw [houtf]; exact fun p hp => hOutSub p (List.mem_of_mem_filter hp)
  have hkeysIO : ∀ p ∈ inP ++ outPf, p.1 ≠ "ID" ∧ p.1 ≠ "name" := by
    intro p hp
    rcases List.mem_append.mp hp with hp | hp
    · exact hkeys0 p.1 (List.mem_map_of_mem _ (hInSub p hp))
    · exact hkeys0 p.1 (List.mem_map_of_mem _ (hOutfSub p hp))
  have hInk : ∀ k, alookup inP k =
      match alookup R0 k with
      | some v => if fInB ports (k, v) then some v else none
      | none => none := by
    intro k; rw [hin]; exact alookup_filter R0 _ k hpw0
  have hOutk : ∀ k, alookup outP k =
      match alookup R0 k with
      | some v => if fOutB ports (k, v) then some v else none
      | none => none := by
    intro k; rw [hout]; exact alookup_filter R0 _ k hpw0
  have hOutfk : ∀ k, alookup outPf k =
      match alookup outP k with
      | some v => if (alookup inP k).isNone then some v else none
      | none => none := by
    intro k; rw [houtf]; exact alookup_filter outP _ k hpwOut
  have hnd : (akeys (inP ++ outPf)).Nodup := by
    have : akeys (inP ++ outPf) = akeys inP ++ akeys outPf := by
      simp [akeys]
    rw [this, List.nodup_append]
    refine ⟨hpwIn.imp ne_of_lt, hpwOutf.imp ne_of_lt, ?_⟩
    intro k hk1 hk2
    obtain ⟨p, hp, hpk⟩ := List.mem_map.mp hk2
    have hg : (alookup inP p.1).isNone = true := by
      rw [houtf] at hp
      have := List.of_mem_filter hp
      simpa using this
    have hs : (alookup inP k).isSome = true :=
      akeys_contains_lookup inP k (List.elem_eq_true_of_mem hk1)
    rw [hpk] at hg
    rw [Option.isNone_iff_eq_none] at hg
    rw [hg] at hs
    simp at hs
  have hF1 : R1 = (inP ++ outPf).foldl (fun m p => smSet m p.1 p.2) [] := by
    rw [hR1]
    show (attrs2 ++ (inP ++ outPf)).foldl (fun m p =>
      if p.1 ≠ "ID" ∧ p.1 ≠ "name" then smSet m p.1 p.2 else m) [] = _
    rw [List.foldl_append, collectStep_skip attrs2 [] h2keys,
      collectStep_eq_smSet _ [] hkeysIO]
  have hF3 : ∀ k, alookup R1 k = alookup (inP ++ outPf) k := by
    intro k
    rw [hF1, foldl_smSet_alookup _ [] k hnd]
    cases alookup (inP ++ outPf) k <;> rfl
  have hR1k : ∀ k, alookup R1 k =
      match alookup inP k with
      | some v => some v
      | none => alookup outPf k := by
    intro k
    rw [hF3, alookup_append]
    cases alookup inP k <;> rfl
  refine ⟨?_, ?_, ?_⟩
  · intro k hk
    obtain ⟨pi, hpi⟩ := Option.isSome_iff_exists.mp hk
    rw [hR1k k]
    rw [hInk k]
    rw [hOutfk k]
    rw [hOutk k]
    rw [hInk k]
    cases hal : alookup R0 k with
    | none => rfl
    | some v =>
      by_cases hfi : fInB ports (k, v) = true
      · simp [hfi]
      · have hfo : fOutB ports (k, v) = true := by
          simp only [fInB, hpi, decide_eq_true_eq] at hfi
          simp only [fOutB, hpi, decide_eq_true_eq]
          intro hh
          rw [hh] at hfi
          exact hfi (by intro hx; cases hx)
        simp [hfi, hfo]
  · have hpw1 : List.Pairwise (· < ·) (akeys R1) := by
      rw [hR1]; exact collectRemapping_pairwise _
    rw [buildPortsLoop_char ports R1 [] [] hpw1 (by simp) (by simp)]
    simp only [List.nil_append]
    have hfin1 : R1.filter (fInB ports) = inP := by
      apply sortedExt _ _ (pairwise_filter_keys R1 _ hpw1) hpwIn
      intro k
      rw [alookup_filter R1 _ k hpw1, hR1k k, hInk k, hOutfk k, hOutk k, hInk k]
      cases hal : alookup R0 k with
      | none => rfl
      | some v =>
        by_cases hfi : fInB ports (k, v) = true
        · simp [hfi]
        · by_cases hfo : fOutB ports (k, v) = true
          · simp [hfi, hfo]
          · simp [hfi, hfo]
    have hfout1 : R1.filter (fOutB ports) = outP := by
      apply sortedExt _ _ (pairwise_filter_keys R1 _ hpw1) hpwOut
      intro k
      rw [alookup_filter R1 _ k hpw1, hR1k k, hInk k, hOutfk k, hOutk k, hInk k]
      cases hal : alookup R0 k with
      | none => rfl
      | some v =>
        by_cases hfi : fInB ports (k, v) = true
        · by_cases hfo : fOutB ports (k, v) = true
          · simp [hfi, hfo]
          · simp [hfi, hfo]
        · by_cases hfo : fOutB ports (k, v) = true
          · simp [hfi, hfo]
          · simp [hfi, hfo]
    rw [hfin1, hfout1]
  · intro k hk
    rw [hF1] at hk
    rcases foldl_smSet_keys _ [] k hk with h2 | h2
    · have : akeys (inP ++ outPf) = akeys inP ++ akeys outPf := by simp [akeys]
      rw [this] at h2
      rcases List.mem_append.mp h2 with h3 | h3
      · obtain ⟨p, hp, hpk⟩ := List.mem_map.mp h3
        exact hpk ▸ List.mem_map_of_mem _ (hInSub p hp)
      · obtain ⟨p, hp, hpk⟩ := List.mem_map.mp h3
        exact hpk ▸ List.mem_map_of_mem _ (hOutfSub p hp)
    · simp [akeys] at h2


theorem alookup_isSome_of_mem {α : Type} :
    ∀ (l : List (String × α)) (p : String × α), p ∈ l →
      (alookup l p.1).isSome = true := by
  intro l
  induction l with
  | nil => intro p hp; simp at hp
  | cons q rest ih =>
    intro p hp
    simp only [alookup]
    by_cases hq : q.1 = p.1
    · rw [if_pos hq]; rfl
    · rw [if_neg hq]
      rcases List.mem_cons.mp hp with hp | hp
      · exact absurd (hp ▸ rfl : q.1 = p.1) hq
      · exact ih p hp

theorem resolveTail_inv (factory : Factory) (roots : List (String × XmlElem))
    (attrs : List (String × String)) (bbIdx : Nat) (heap0 : BBHeap)
    (ID instName : String) (node : NodeInst) (heap1 : BBHeap)
    (m : TreeNodeManifest)
    (hb : factory.builders.contains ID = true)
    (hm : alookup factory.manifests ID = some m)
    (h : (if factory.builders.contains ID then do
        let manifest ← match alookup factory.manifests ID with
          | some mf => pure mf
          | none => throw (BTError.ManifestMissing ID)
        checkTypos ID instName manifest.ports (collectRemapping attrs)
        let heap ← reconcilePorts bbIdx (collectRemapping attrs) manifest.ports heap0
        let io := buildPortsLoop manifest.ports (collectRemapping attrs) ([], [])
        pure ((⟨ID, instName, manifest.type, io.1, io.2, [], []⟩ : NodeInst), heap)
      else if (alookup roots ID).isSome then
        pure ((⟨"", instName, NodeType.SUBTREE, [], [], [], []⟩ : NodeInst), heap0)
      else
        throw (BTError.UnknownNodeError ID) :
        Except BTError (NodeInst × BBHeap)) = .ok (node, heap1)) :
    node = ⟨ID, instName, m.type,
      (collectRemapping attrs).filter (fInB m.ports),
      (collectRemapping attrs).filter (fOutB m.ports), [], []⟩ ∧
    checkTypos ID instName m.ports (collectRemapping attrs) = .ok () ∧
    reconcilePorts bbIdx (collectRemapping attrs) m.ports heap0 = .ok heap1 := by
  rw [if_pos hb, hm] at h
  dsimp only at h
  simp only [except_pure_eq, except_bind_ok] at h
  cases hty : checkTypos ID instName m.ports (collectRemapping attrs) with
  | error e => rw [hty, except_bind_err] at h; exact absurd h (by simp)
  | ok u =>
    rw [hty, except_bind_ok] at h
    cases hrc : reconcilePorts bbIdx (collectRemapping attrs) m.ports heap0 with
    | error e => rw [hrc, except_bind_err] at h; exact absurd h (by simp)
    | ok heap2 =>
      rw [hrc, except_bind_ok] at h
      obtain ⟨hnode, hheap⟩ := Prod.mk.inj (Except.ok.inj h)
      have hbpl : buildPortsLoop m.ports (collectRemapping attrs) ([], []) =
          ((collectRemapping attrs).filter (fInB m.ports),
           (collectRemapping attrs).filter (fOutB m.ports)) := by
        rw [buildPortsLoop_char m.ports (collectRemapping attrs) [] []
          (collectRemapping_pairwise attrs) (by simp) (by simp)]
        simp
      refine ⟨?_, ?_, ?_⟩
      · rw [← hnode, hbpl]
      · cases u; rfl
      · rw [hheap]


/-- Inversion of a successful `resolveNode` under the round-trip conditions
`rtOK`: the node is a registry node of the manifest kind with the canonical
port maps, all the facts the writer-side replay needs. -/
theorem resolveNode_rtOK_inv (factory : Factory)
    (roots : List (String × XmlElem)) (n : String)
    (attrs : List (String × String)) (cs : List XmlElem) (bbIdx : Nat)
    (heap0 : BBHeap) (node : NodeInst) (heap1 : BBHeap)
    (hres : resolveNode factory roots (XmlElem.mk n attrs cs) bbIdx heap0 =
      .ok (node, heap1))
    (hrt : rtOK factory (XmlElem.mk n attrs cs) = true) :
    ∃ m : TreeNodeManifest,
      node = ⟨node.registration_ID, node.instance_name, m.type,
        (collectRemapping attrs).filter (fInB m.ports),
        (collectRemapping attrs).filter (fOutB m.ports), [], []⟩ ∧
      node.registration_ID ≠ "" ∧
      reservedKindName node.registration_ID = false ∧
      factory.builders.contains node.registration_ID = true ∧
      alookup factory.manifests node.registration_ID = some m ∧
      m.type ≠ NodeType.SUBTREE ∧
      (node.instance_name = node.registration_ID ∨
        (node.instance_name ≠ "" ∧ node.instance_name ≠
          (if m.type = NodeType.CONTROL then node.registration_ID
           else toStrNT m.type))) ∧
      checkTypos node.registration_ID node.instance_name m.ports
        (collectRemapping attrs) = .ok () ∧
      reconcilePorts bbIdx (collectRemapping attrs) m.ports heap0 =
        .ok heap1 ∧
      (m.type = NodeType.DECORATOR → cs.length = 1) ∧
      (m.type = NodeType.ACTION → cs.length = 0) ∧
      (m.type = NodeType.CONDITION → cs.length = 0) ∧
      (m.type = NodeType.CONTROL →
        isBuiltinControlName node.registration_ID = true → cs.length ≠ 0) ∧
      rtOKList factory cs = true := by
  simp only [resolveNode, XmlElem.ename] at hres
  simp only [rtOK] at hrt
  by_cases hadc : (n == "Action" || n == "Decorator" || n == "Condition") = true
  · rw [if_pos hadc] at hres hrt
    have hsubf : (n == "SubTree") = false := by
      cases hst : (n == "SubTree") with
      | false => rfl
      | true =>
        have he : n = "SubTree" := beq_iff_eq.mp hst
        rw [he] at hadc
        simp at hadc
    cases hid : (XmlElem.mk n attrs cs).attr "ID" with
    | none => rw [hid] at hrt; simp at hrt
    | some id =>
      rw [hid] at hres hrt
      dsimp only at hres hrt
      simp only [except_pure_eq, except_bind_ok, hsubf, Bool.false_eq_true,
        if_false] at hres
      rw [Bool.and_eq_true, Bool.and_eq_true, Bool.and_eq_true,
        Bool.and_eq_true] at hrt
      obtain ⟨⟨⟨⟨hA, hB⟩, hC⟩, hMm⟩, hL⟩ := hrt
      cases hman : alookup factory.manifests id with
      | none => rw [hman] at hMm; simp at hMm
      | some m =>
        rw [hman] at hMm
        dsimp only at hMm
        rw [Bool.and_eq_true, Bool.and_eq_true] at hMm
        obtain ⟨⟨hNS, hAR⟩, hNM⟩ := hMm
        obtain ⟨hnode, hty, hrc⟩ := resolveTail_inv factory roots
          (XmlElem.mk n attrs cs).attrs bbIdx heap0 id _ node heap1 m hC
          hman hres
        simp only [XmlElem.attrs] at hnode hty hrc
        have hA2 : id ≠ "" := by simpa using hA
        have hB2 : reservedKindName id = false := by
          cases hrk : reservedKindName id with
          | false => rfl
          | true => rw [hrk] at hB; simp at hB
        have hNS2 : m.type ≠ NodeType.SUBTREE := by
          intro hh
          rw [hh] at hNS
          simp at hNS
        have hname : (((XmlElem.mk n attrs cs).attr "name").getD id) = id ∨
            ((((XmlElem.mk n attrs cs).attr "name").getD id) ≠ "" ∧
             (((XmlElem.mk n attrs cs).attr "name").getD id) ≠
              (if m.type = NodeType.CONTROL then id else toStrNT m.type)) := by
          cases hna : (XmlElem.mk n attrs cs).attr "name" with
          | none => exact Or.inl rfl
          | some a =>
            rw [hna] at hNM
            dsimp only at hNM
            simp only [Option.getD_some]
            rw [Bool.or_eq_true] at hNM
            rcases hNM with h2 | h2
            · exact Or.inl (beq_iff_eq.mp h2)
            · rw [Bool.and_eq_true] at h2
              refine Or.inr ⟨by simpa using h2.1, ?_⟩
              have h3 := h2.2
              by_cases hctl : m.type = NodeType.CONTROL
              · rw [if_pos hctl]
                rw [show (m.type == NodeType.CONTROL) = true by
                  rw [hctl]; rfl] at h3
                simpa using h3
              · rw [if_neg hctl]
                rw [show (m.type == NodeType.CONTROL) = false by
                  simpa using hctl] at h3
                simpa using h3
        subst hnode
        refine ⟨m, rfl, hA2, hB2, hC, hman, hNS2, hname, hty, hrc,
          ?_, ?_, ?_, ?_, hL⟩
        · intro hmty
          rw [hmty] at hAR
          dsimp only at hAR
          exact beq_iff_eq.mp hAR
        · intro hmty
          rw [hmty] at hAR
          dsimp only at hAR
          exact beq_iff_eq.mp hAR
        · intro hmty
          rw [hmty] at hAR
          dsimp only at hAR
          exact beq_iff_eq.mp hAR
        · intro hmty hcb
          rw [hmty] at hAR
          dsimp only at hAR
          rw [Bool.or_eq_true] at hAR
          rcases hAR with h2 | h2
          · rw [hcb] at h2; simp at h2
          · intro hlen
            rw [show (cs.length == 0) = true from beq_iff_eq.mpr hlen] at h2
            simp at h2
  · rw [if_neg hadc] at hres hrt
    simp only [except_pure_eq, except_bind_ok] at hres
    by_cases hsub : (n == "SubTree") = true
    · rw [if_pos hsub] at hrt
      simp at hrt
    · have hsubf : (n == "SubTree") = false := by simpa using hsub
      rw [show (if (n == "SubTree") = true then none else some n) =
        some n by rw [hsubf]; simp] at hrt
      simp only [hsubf, Bool.false_eq_true, if_false] at hres
      dsimp only at hrt
      rw [Bool.and_eq_true, Bool.and_eq_true, Bool.and_eq_true,
        Bool.and_eq_true] at hrt
      obtain ⟨⟨⟨⟨hA, hB⟩, hC⟩, hMm⟩, hL⟩ := hrt
      cases hman : alookup factory.manifests n with
      | none => rw [hman] at hMm; simp at hMm
      | some m =>
        rw [hman] at hMm
        dsimp only at hMm
        rw [Bool.and_eq_true, Bool.and_eq_true] at hMm
        obtain ⟨⟨hNS, hAR⟩, hNM⟩ := hMm
        obtain ⟨hnode, hty, hrc⟩ := resolveTail_inv factory roots
          (XmlElem.mk n attrs cs).attrs bbIdx heap0 n _ node heap1 m hC
          hman hres
        simp only [XmlElem.attrs] at hnode hty hrc
        have hA2 : n ≠ "" := by simpa using hA
        have hB2 : reservedKindName n = false := by
          cases hrk : reservedKindName n with
          | false => rfl
          | true => rw [hrk] at hB; simp at hB
        have hNS2 : m.type ≠ NodeType.SUBTREE := by
          intro hh
          rw [hh] at hNS
          simp at hNS
        have hname : (((XmlElem.mk n attrs cs).attr "name").getD n) = n ∨
            ((((XmlElem.mk n attrs cs).attr "name").getD n) ≠ "" ∧
             (((XmlElem.mk n attrs cs).attr "name").getD n) ≠
              (if m.type = NodeType.CONTROL then n else toStrNT m.type)) := by
          cases hna : (XmlElem.mk n attrs cs).attr "name" with
          | none => exact Or.inl rfl
          | some a =>
            rw [hna] at hNM
            dsimp only at hNM
            simp only [Option.getD_some]
            rw [Bool.or_eq_true] at hNM
            rcases hNM with h2 | h2
            · exact Or.inl (beq_iff_eq.mp h2)
            · rw [Bool.and_eq_true] at h2
              refine Or.inr ⟨by simpa using h2.1, ?_⟩
              have h3 := h2.2
              by_cases hctl : m.type = NodeType.CONTROL
              · rw [if_pos hctl]
                rw [show (m.type == NodeType.CONTROL) = true by
                  rw [hctl]; rfl] at h3
                simpa using h3
              · rw [if_neg hctl]
                rw [show (m.type == NodeType.CONTROL) = false by
                  simpa using hctl] at h3
                simpa using h3
        subst hnode
        refine ⟨m, rfl, hA2, hB2, hC, hman, hNS2, hname, hty, hrc,
          ?_, ?_, ?_, ?_, hL⟩
        · intro hmty
          rw [hmty] at hAR
          dsimp only at hAR
          exact beq_iff_eq.mp hAR
        · intro hmty
          rw [hmty] at hAR
          dsimp only at hAR
          exact beq_iff_eq.mp hAR
        · intro hmty
          rw [hmty] at hAR
          dsimp only at hAR
          exact beq_iff_eq.mp hAR
        · intro hmty hcb
          rw [hmty] at hAR
          dsimp only at hAR
          rw [Bool.or_eq_true] at hAR
          rcases hAR with h2 | h2
          · rw [hcb] at h2; simp at h2
          · intro hlen
            rw [show (cs.length == 0) = true from beq_iff_eq.mpr hlen] at h2
            simp at h2


theorem reservedKindName_false (s : String) (h : reservedKindName s = false) :
    s ≠ "Action" ∧ s ≠ "Decorator" ∧ s ≠ "Condition" ∧ s ≠ "SubTree" := by
  simp only [reservedKindName] at h
  refine ⟨?_, ?_, ?_, ?_⟩
  all_goals intro hh
  all_goals rw [hh] at h
  all_goals simp at h

theorem resolveTail_forward (factory : Factory)
    (roots2 : List (String × XmlElem)) (attrs3 : List (String × String))
    (bbIdx : Nat) (heap0 heap1 : BBHeap) (id iname : String)
    (m : TreeNodeManifest) (inP outP : List (String × String))
    (hb : factory.builders.contains id = true)
    (hm : alookup factory.manifests id = some m)
    (hty2 : checkTypos id iname m.ports (collectRemapping attrs3) = .ok ())
    (hrc2 : reconcilePorts bbIdx (collectRemapping attrs3) m.ports heap0 =
      .ok heap1)
    (hio : buildPortsLoop m.ports (collectRemapping attrs3) ([], []) =
      (inP, outP)) :
    (if factory.builders.contains id then do
        let manifest ← match alookup factory.manifests id with
          | some mf => pure mf
          | none => throw (BTError.ManifestMissing id)
        checkTypos id iname manifest.ports (collectRemapping attrs3)
        let heap ← reconcilePorts bbIdx (collectRemapping attrs3) manifest.ports heap0
        let io := buildPortsLoop manifest.ports (collectRemapping attrs3) ([], [])
        pure ((⟨id, iname, manifest.type, io.1, io.2, [], []⟩ : NodeInst), heap)
      else if (alookup roots2 id).isSome then
        pure ((⟨"", iname, NodeType.SUBTREE, [], [], [], []⟩ : NodeInst), heap0)
      else
        throw (BTError.UnknownNodeError id) :
        Except BTError (NodeInst × BBHeap)) =
    .ok (⟨id, iname, m.type, inP, outP, [], []⟩, heap1) := by
  rw [if_pos hb, hm]
  dsimp only
  simp only [except_pure_eq, except_bind_ok]
  rw [hty2, except_bind_ok, hrc2, except_bind_ok, hio]


theorem writeTail_facts (bbIdx : Nat) (heap0 heap1 : BBHeap)
    (id iname : String) (m : TreeNodeManifest)
    (attrs A2 R0 inP outP : List (String × String))
    (hR0 : R0 = collectRemapping attrs)
    (hin : inP = R0.filter (fInB m.ports))
    (hout : outP = R0.filter (fOutB m.ports))
    (h2k : ∀ p ∈ A2, p.1 = "ID" ∨ p.1 = "name")
    (hty : checkTypos id iname m.ports R0 = .ok ())
    (hrec : reconcilePorts bbIdx R0 m.ports heap0 = .ok heap1) :
    checkTypos id iname m.ports
      (collectRemapping (A2 ++ (inP ++
        outP.filter (fun q => (alookup inP q.1).isNone)))) = .ok () ∧
    reconcilePorts bbIdx
      (collectRemapping (A2 ++ (inP ++
        outP.filter (fun q => (alookup inP q.1).isNone)))) m.ports heap0 =
      .ok heap1 ∧
    buildPortsLoop m.ports
      (collectRemapping (A2 ++ (inP ++
        outP.filter (fun q => (alookup inP q.1).isNone)))) ([], []) =
      (inP, outP) := by
  have hRT := portsRoundtrip m.ports attrs A2 R0 inP outP
    (outP.filter (fun q => (alookup inP q.1).isNone))
    (collectRemapping (A2 ++ (inP ++
      outP.filter (fun q => (alookup inP q.1).isNone))))
    hR0 hin hout rfl rfl h2k
  refine ⟨?_, ?_, hRT.2.1⟩
  · apply checkTypos_ok_char
    intro r hr
    have hk1 := List.mem_map_of_mem (fun x => x.1) hr
    have hk0 := hRT.2.2 r.1 hk1
    obtain ⟨q, hq, hqk⟩ := List.mem_map.mp hk0
    have hqp := checkTypos_ok_keys id iname m.ports R0 () hty q hq
    rw [← hqk]
    exact hqp
  · have hcongr : ∀ p ∈ m.ports,
        alookup (collectRemapping (A2 ++ (inP ++
          outP.filter (fun q => (alookup inP q.1).isNone)))) p.1 =
        alookup R0 p.1 :=
      fun p hp => hRT.1 p.1 (alookup_isSome_of_mem m.ports p hp)
    rw [reconcilePorts_congr bbIdx _ R0 m.ports heap0 hcongr]
    exact hrec

theorem toStrNT_facts (t : NodeType) (id : String)
    (hc : t ≠ NodeType.CONTROL) (hs : t ≠ NodeType.SUBTREE)
    (hrA : id ≠ "Action") (hrD : id ≠ "Decorator") (hrC : id ≠ "Condition") :
    ((toStrNT t == "Action" || toStrNT t == "Decorator" ||
      toStrNT t == "Condition") = true) ∧
    ((toStrNT t == "SubTree") = false) ∧ toStrNT t ≠ id := by
  cases t with
  | CONTROL => exact absurd rfl hc
  | SUBTREE => exact absurd rfl hs
  | ACTION => exact ⟨rfl, rfl, fun hh => hrA hh.symm⟩
  | DECORATOR => exact ⟨rfl, rfl, fun hh => hrD hh.symm⟩
  | CONDITION => exact ⟨rfl, rfl, fun hh => hrC hh.symm⟩


/-- The writer-side replay: the element `writeNode` prints for a node that
came out of `resolveNode` under the round-trip conditions resolves back to
the very same node and blackboard heap. -/
theorem writeNode_resolve (factory : Factory)
    (roots2 : List (String × XmlElem)) (bbIdx : Nat) (heap0 heap1 : BBHeap)
    (id iname : String) (m : TreeNodeManifest)
    (attrs R0 inP outP : List (String × String))
    (hR0 : R0 = collectRemapping attrs)
    (hin : inP = R0.filter (fInB m.ports))
    (hout : outP = R0.filter (fOutB m.ports))
    (hid1 : id ≠ "")
    (hid2 : reservedKindName id = false)
    (hb : factory.builders.contains id = true)
    (hm : alookup factory.manifests id = some m)
    (hmt : m.type ≠ NodeType.SUBTREE)
    (hname : iname = id ∨ (iname ≠ "" ∧
      iname ≠ (if m.type = NodeType.CONTROL then id else toStrNT m.type)))
    (hty : checkTypos id iname m.ports R0 = .ok ())
    (hrec : reconcilePorts bbIdx R0 m.ports heap0 = .ok heap1) :
    ∀ ws : List WNode,
      resolveNode factory roots2
        (writeNode factory false (WNode.mk m.type id iname inP outP ws))
        bbIdx heap0 =
      .ok (⟨id, iname, m.type, inP, outP, [], []⟩, heap1) := by
  intro ws
  obtain ⟨hrA, hrD, hrC, hrS⟩ := reservedKindName_false id hid2
  have hkeys0 : ∀ k ∈ akeys R0, k ≠ "ID" ∧ k ≠ "name" := by
    rw [hR0]; exact collectRemapping_keys attrs
  have hInSub : ∀ p ∈ inP, p ∈ R0 := by
    rw [hin]; exact fun p hp => List.mem_of_mem_filter hp
  have hOutSub : ∀ p ∈ outP, p ∈ R0 := by
    rw [hout]; exact fun p hp => List.mem_of_mem_filter hp
  have hIOkeys : ∀ p ∈ inP ++ outP.filter (fun q => (alookup inP q.1).isNone),
      p.1 ≠ "ID" ∧ p.1 ≠ "name" := by
    intro p hp
    rcases List.mem_append.mp hp with hp | hp
    · exact hkeys0 p.1 (List.mem_map_of_mem _ (hInSub p hp))
    · exact hkeys0 p.1
        (List.mem_map_of_mem _ (hOutSub p (List.mem_of_mem_filter hp)))
  have hnn : alookup (inP ++ outP.filter
      (fun q => (alookup inP q.1).isNone)) "name" = none :=
    alookup_forall_ne _ _ (fun p hp => (hIOkeys p hp).2)
  by_cases hctl : m.type = NodeType.CONTROL
  · -- control node: the writer prints the registration ID as the tag
    simp only [writeNode]
    rw [if_pos hctl, if_neg (fun hh : id ≠ id ∧ id ≠ "" => hh.1 rfl)]
    have h1 : (id == "Action") = false := beq_eq_false_iff_ne.mpr hrA
    have h2 : (id == "Decorator") = false := beq_eq_false_iff_ne.mpr hrD
    have h3 : (id == "Condition") = false := beq_eq_false_iff_ne.mpr hrC
    have h4 : (id == "SubTree") = false := beq_eq_false_iff_ne.mpr hrS
    by_cases hie : iname = id
    · subst iname
      rw [if_neg (fun hh : id ≠ id ∧ id ≠ "" ∧ id ≠ id => hh.1 rfl)]
      obtain ⟨hty2, hrc2, hio2⟩ := writeTail_facts bbIdx heap0 heap1 id id
        m attrs [] R0 inP outP hR0 hin hout (by simp) hty hrec
      simp only [List.nil_append] at hty2 hrc2 hio2
      have hNv : ((XmlElem.mk id ([] ++ inP ++ outP.filter
          (fun q => (alookup inP q.1).isNone))
          (match m.type with
            | NodeType.CONTROL => writeNodeList factory false ws
            | NodeType.DECORATOR => writeNodeList factory false ws
            | NodeType.SUBTREE => writeNodeList factory false ws
            | _ => [])).attr "name") = none := by
        rw [attr_alookup]
        simp only [List.nil_append]
        exact hnn
      simp only [resolveNode, XmlElem.ename]
      rw [if_neg (by rw [h1, h2, h3]; simp)]
      simp only [except_pure_eq, except_bind_ok]
      rw [if_neg (by rw [h4]; simp)]
      rw [hNv]
      simp only [Option.getD_none, XmlElem.attrs]
      simp only [List.nil_append]
      exact resolveTail_forward factory roots2 _ bbIdx heap0 heap1 id id m
        inP outP hb hm hty2 hrc2 hio2
    · have hn12 : iname ≠ "" ∧ iname ≠ id := by
        rcases hname with hh | ⟨hn1, hn2⟩
        · exact absurd hh hie
        · rw [if_pos hctl] at hn2
          exact ⟨hn1, hn2⟩
      rw [if_pos (⟨fun hh => hie hh.symm, hn12.1, hn12.2⟩ :
        id ≠ iname ∧ iname ≠ "" ∧ iname ≠ id)]
      obtain ⟨hty2, hrc2, hio2⟩ := writeTail_facts bbIdx heap0 heap1 id iname
        m attrs [("name", iname)] R0 inP outP hR0 hin hout (by simp) hty hrec
      simp only [List.cons_append, List.nil_append] at hty2 hrc2 hio2
      have hNv : ((XmlElem.mk id (([] ++ [("name", iname)]) ++ inP ++
          outP.filter (fun q => (alookup inP q.1).isNone))
          (match m.type with
            | NodeType.CONTROL => writeNodeList factory false ws
            | NodeType.DECORATOR => writeNodeList factory false ws
            | NodeType.SUBTREE => writeNodeList factory false ws
            | _ => [])).attr "name") = some iname := by
        rw [attr_alookup]
        simp [alookup]
      simp only [resolveNode, XmlElem.ename]
      rw [if_neg (by rw [h1, h2, h3]; simp)]
      simp only [except_pure_eq, except_bind_ok]
      rw [if_neg (by rw [h4]; simp)]
      rw [hNv]
      simp only [Option.getD_some, XmlElem.attrs]
      simp only [List.cons_append, List.nil_append]
      exact resolveTail_forward factory roots2 _ bbIdx heap0 heap1 id iname m
        inP outP hb hm hty2 hrc2 hio2
  · -- non-control: the writer prints the kind tag and an ID attribute
    have hts := toStrNT_facts m.type id hctl hmt hrA hrD hrC
    simp only [writeNode]
    rw [if_neg hctl]
    simp only [Bool.false_and, Bool.false_eq_true, if_false]
    rw [if_pos (⟨hts.2.2, hid1⟩ : toStrNT m.type ≠ id ∧ id ≠ "")]
    by_cases hie : iname = id
    · subst iname
      rw [if_neg (fun hh : toStrNT m.type ≠ id ∧ id ≠ "" ∧ id ≠ id =>
        hh.2.2 rfl)]
      obtain ⟨hty2, hrc2, hio2⟩ := writeTail_facts bbIdx heap0 heap1 id id
        m attrs [("ID", id)] R0 inP outP hR0 hin hout (by simp) hty hrec
      simp only [List.cons_append, List.nil_append] at hty2 hrc2 hio2
      have hIDv : ((XmlElem.mk (toStrNT m.type) ([("ID", id)] ++ inP ++
          outP.filter (fun q => (alookup inP q.1).isNone))
          (match m.type with
            | NodeType.CONTROL => writeNodeList factory false ws
            | NodeType.DECORATOR => writeNodeList factory false ws
            | NodeType.SUBTREE => writeNodeList factory false ws
            | _ => [])).attr "ID") = some id := by
        rw [attr_alookup]
        simp [alookup]
      have hNv : ((XmlElem.mk (toStrNT m.type) ([("ID", id)] ++ inP ++
          outP.filter (fun q => (alookup inP q.1).isNone))
          (match m.type with
            | NodeType.CONTROL => writeNodeList factory false ws
            | NodeType.DECORATOR => writeNodeList factory false ws
            | NodeType.SUBTREE => writeNodeList factory false ws
            | _ => [])).attr "name") = none := by
        rw [attr_alookup]
        simp only [List.cons_append, List.nil_append, alookup]
        rw [if_neg (by decide)]
        exact hnn
      simp only [resolveNode, XmlElem.ename]
      rw [if_pos hts.1, hIDv]
      dsimp only
      simp only [except_pure_eq, except_bind_ok]
      rw [if_neg (by rw [hts.2.1]; simp)]
      rw [hNv]
      simp only [Option.getD_none, XmlElem.attrs]
      simp only [List.cons_append, List.nil_append]
      exact resolveTail_forward factory roots2 _ bbIdx heap0 heap1 id id m
        inP outP hb hm hty2 hrc2 hio2
    · have hn12 : iname ≠ "" ∧ iname ≠ toStrNT m.type := by
        rcases hname with hh | ⟨hn1, hn2⟩
        · exact absurd hh hie
        · rw [if_neg hctl] at hn2
          exact ⟨hn1, hn2⟩
      rw [if_pos (⟨fun hh => hn12.2 hh.symm, hn12.1, hie⟩ :
        toStrNT m.type ≠ iname ∧ iname ≠ "" ∧ iname ≠ id)]
      obtain ⟨hty2, hrc2, hio2⟩ := writeTail_facts bbIdx heap0 heap1 id iname
        m attrs [("ID", id), ("name", iname)] R0 inP outP hR0 hin hout
        (by simp) hty hrec
      simp only [List.cons_append, List.nil_append] at hty2 hrc2 hio2
      have hIDv : ((XmlElem.mk (toStrNT m.type)
          (([("ID", id)] ++ [("name", iname)]) ++ inP ++
          outP.filter (fun q => (alookup inP q.1).isNone))
          (match m.type with
            | NodeType.CONTROL => writeNodeList factory false ws
            | NodeType.DECORATOR => writeNodeList factory false ws
            | NodeType.SUBTREE => writeNodeList factory false ws
            | _ => [])).attr "ID") = some id := by
        rw [attr_alookup]
        simp [alookup]
      have hNv : ((XmlElem.mk (toStrNT m.type)
          (([("ID", id)] ++ [("name", iname)]) ++ inP ++
          outP.filter (fun q => (alookup inP q.1).isNone))
          (match m.type with
            | NodeType.CONTROL => writeNodeList factory false ws
            | NodeType.DECORATOR => writeNodeList factory false ws
            | NodeType.SUBTREE => writeNodeList factory false ws
            | _ => [])).attr "name") = some iname := by
        rw [attr_alookup]
        simp [alookup]
      simp only [resolveNode, XmlElem.ename]
      rw [if_pos hts.1, hIDv]
      dsimp only
      simp only [except_pure_eq, except_bind_ok]
      rw [if_neg (by rw [hts.2.1]; simp)]
      rw [hNv]
      simp only [Option.getD_some, XmlElem.attrs]
      simp only [List.cons_append, List.nil_append]
      exact resolveTail_forward factory roots2 _ bbIdx heap0 heap1 id iname m
        inP outP hb hm hty2 hrc2 hio2


theorem writeNodeList_length (factory : Factory) (compact : Bool) :
    ∀ ws : List WNode, (writeNodeList factory compact ws).length = ws.length := by
  intro ws
  induction ws with
  | nil => rfl
  | cons w rest ih => simp [writeNodeList, ih]

theorem updChildren_control (old J : List Nat) :
    updChildren NodeType.CONTROL old J = old ++ J := by
  induction J generalizing old with
  | nil => simp [updChildren]
  | cons j rest ih =>
    show updChildren NodeType.CONTROL (old ++ [j]) rest = _
    rw [ih]
    simp

theorem updChildren_nil (ty : NodeType) (old : List Nat) :
    updChildren ty old [] = old := rfl

/-- The structural checks of `verifyXML` accept every element the writer
prints for a registry node. -/
theorem writeNode_verify (factory : Factory)
    (roots2 : List (String × XmlElem)) (id iname : String)
    (m : TreeNodeManifest) (inP outP : List (String × String))
    (ws : List WNode)
    (hid1 : id ≠ "")
    (hid2 : reservedKindName id = false)
    (hm : alookup factory.manifests id = some m)
    (hmt : m.type ≠ NodeType.SUBTREE)
    (harityD : m.type = NodeType.DECORATOR → ws.length = 1)
    (harityC : m.type = NodeType.CONTROL → isBuiltinControlName id = true →
      ws ≠ [])
    (hkidsOK : verifyChildren factory roots2
      (writeNodeList factory false ws) = .ok ()) :
    verifyStep factory roots2
      (writeNode factory false (WNode.mk m.type id iname inP outP ws)) =
    .ok () := by
  obtain ⟨hrA, hrD, hrC, hrS⟩ := reservedKindName_false id hid2
  by_cases hctl : m.type = NodeType.CONTROL
  · simp only [writeNode]
    rw [if_pos hctl, if_neg (fun hh : id ≠ id ∧ id ≠ "" => hh.1 rfl)]
    have h1 : (id == "Action") = false := beq_eq_false_iff_ne.mpr hrA
    have h2 : (id == "Decorator") = false := beq_eq_false_iff_ne.mpr hrD
    have h3 : (id == "Condition") = false := beq_eq_false_iff_ne.mpr hrC
    have h4 : (id == "SubTree") = false := beq_eq_false_iff_ne.mpr hrS
    rw [hctl]
    simp only [verifyStep]
    rw [if_neg (by rw [h2]; simp), if_neg (by rw [h1]; simp),
      if_neg (by rw [h3]; simp)]
    by_cases hbi : isBuiltinControlName id = true
    · rw [if_pos hbi]
      rw [if_neg (by
        rw [writeNodeList_length]
        intro hh
        exact harityC hctl hbi (List.length_eq_zero.mp hh))]
      rw [if_pos (fun hh : id = "SubTree" => hrS hh)]
      exact hkidsOK
    · rw [if_neg hbi, if_neg (by rw [h4]; simp)]
      rw [if_neg (by rw [show (alookup factory.manifests id).isNone = false by
        rw [hm]; rfl]; simp)]
      rw [if_pos (fun hh : id = "SubTree" => hrS hh)]
      exact hkidsOK
  · have hts := toStrNT_facts m.type id hctl hmt hrA hrD hrC
    simp only [writeNode]
    rw [if_neg hctl]
    simp only [Bool.false_and, Bool.false_eq_true, if_false]
    rw [if_pos (⟨hts.2.2, hid1⟩ : toStrNT m.type ≠ id ∧ id ≠ "")]
    have hIDsome : ∀ (A2 : List (String × String)) (cs : List XmlElem),
        ((XmlElem.mk (toStrNT m.type) (([("ID", id)] ++ A2) ++ inP ++
          outP.filter (fun q => (alookup inP q.1).isNone)) cs).attr
          "ID").isNone = false := by
      intro A2 cs
      rw [attr_alookup]
      simp [alookup]
    cases hmty : m.type with
    | CONTROL => exact absurd hmty hctl
    | SUBTREE => exact absurd hmty hmt
    | ACTION =>
      by_cases hie : (toStrNT NodeType.ACTION ≠ iname ∧ iname ≠ "" ∧
        iname ≠ id)
      · rw [if_pos hie]
        simp only [verifyStep, toStrNT]
        rw [if_neg (by simp), if_pos (by simp)]
        rw [if_neg (by simp)]
        rw [if_neg (by
          have := hIDsome [("name", iname)] []
          simp only [toStrNT, hmty] at this ⊢
          simp only [List.cons_append, List.nil_append] at this ⊢
          rw [this]
          simp)]
        rw [if_pos (by simp)]
        rfl
      · rw [if_neg hie]
        simp only [verifyStep, toStrNT]
        rw [if_neg (by simp), if_pos (by simp)]
        rw [if_neg (by simp)]
        rw [if_neg (by
          have := hIDsome [] []
          simp only [toStrNT, hmty] at this ⊢
          simp only [List.cons_append, List.nil_append, List.append_nil] at this ⊢
          rw [this]
          simp)]
        rw [if_pos (by simp)]
        rfl
    | CONDITION =>
      by_cases hie : (toStrNT NodeType.CONDITION ≠ iname ∧ iname ≠ "" ∧
        iname ≠ id)
      · rw [if_pos hie]
        simp only [verifyStep, toStrNT]
        rw [if_neg (by simp), if_neg (by simp), if_pos (by simp)]
        rw [if_neg (by simp)]
        rw [if_neg (by
          have := hIDsome [("name", iname)] []
          simp only [toStrNT, hmty] at this ⊢
          simp only [List.cons_append, List.nil_append] at this ⊢
          rw [this]
          simp)]
        rw [if_pos (by simp)]
        rfl
      · rw [if_neg hie]
        simp only [verifyStep, toStrNT]
        rw [if_neg (by simp), if_neg (by simp), if_pos (by simp)]
        rw [if_neg (by simp)]
        rw [if_neg (by
          have := hIDsome [] []
          simp only [toStrNT, hmty] at this ⊢
          simp only [List.cons_append, List.nil_append, List.append_nil] at this ⊢
          rw [this]
          simp)]
        rw [if_pos (by simp)]
        rfl
    | DECORATOR =>
      have hlen : (writeNodeList factory false ws).length = 1 := by
        rw [writeNodeList_length]
        exact harityD hmty
      by_cases hie : (toStrNT NodeType.DECORATOR ≠ iname ∧ iname ≠ "" ∧
        iname ≠ id)
      · rw [if_pos hie]
        simp only [verifyStep, toStrNT]
        rw [if_pos (by simp)]
        rw [if_neg (by rw [hlen]; simp)]
        rw [if_neg (by
          have := hIDsome [("name", iname)] (writeNodeList factory false ws)
          simp only [toStrNT, hmty] at this ⊢
          simp only [List.cons_append, List.nil_append] at this ⊢
          rw [this]
          simp)]
        rw [if_pos (by simp)]
        exact hkidsOK
      · rw [if_neg hie]
        simp only [verifyStep, toStrNT]
        rw [if_pos (by simp)]
        rw [if_neg (by rw [hlen]; simp)]
        rw [if_neg (by
          have := hIDsome [] (writeNodeList factory false ws)
          simp only [toStrNT, hmty] at this ⊢
          simp only [List.cons_append, List.nil_append, List.append_nil] at this ⊢
          rw [this]
          simp)]
        rw [if_pos (by simp)]
        exact hkidsOK


theorem get?_some_lt {α : Type} (l : List α) (q : Nat) (a : α)
    (h : l.get? q = some a) : q < l.length := by
  cases Nat.lt_or_ge q l.length with
  | inl hlt => exact hlt
  | inr hge =>
    rw [List.get?_eq_getElem?, List.getElem?_eq_none hge] at h
    cases h

theorem get?_lt_some {α : Type} (l : List α) (q : Nat) (h : q < l.length) :
    ∃ a, l.get? q = some a := by
  rw [List.get?_eq_getElem?]
  exact ⟨l[q], List.getElem?_eq_getElem h⟩

theorem get?_append_lt {α : Type} (A B : List α) (q : Nat) (h : q < A.length) :
    (A ++ B).get? q = A.get? q := by
  rw [List.get?_eq_getElem?, List.get?_eq_getElem?,
    List.getElem?_append_left h]

theorem get?_append_len {α : Type} (A B : List α) (a : α) :
    (A ++ a :: B).get? A.length = some a := by
  rw [List.get?_eq_getElem?, List.getElem?_append_right (Nat.le_refl _)]
  simp

theorem updChildren_append (ty : NodeType) (old : List Nat) (J1 J2 : List Nat) :
    updChildren ty (updChildren ty old J1) J2 =
    updChildren ty old (J1 ++ J2) := by
  simp only [updChildren, List.foldl_append]

theorem linkParent_get (nodes : List NodeInst) (parentIdx : Option Nat)
    (q : Nat) (pn : NodeInst) (hq : nodes.get? q = some pn) :
    (parentIdx = some q → (linkParent nodes parentIdx).get? q =
      some { pn with children := updChildren pn.type pn.children [nodes.length] }) ∧
    (parentIdx ≠ some q → (linkParent nodes parentIdx).get? q = some pn) := by
  have hqlt : q < nodes.length := get?_some_lt nodes q pn hq
  constructor
  · intro he
    subst he
    simp only [linkParent]
    rw [hq]
    dsimp only
    cases ht : pn.type with
    | CONTROL =>
      rw [updChildren_control]
      simp [List.get?_eq_getElem?, List.getElem?_set_self', hqlt]
    | DECORATOR =>
      rw [show updChildren NodeType.DECORATOR pn.children [nodes.length] =
        [nodes.length] from rfl]
      simp [List.get?_eq_getElem?, List.getElem?_set_self', hqlt]
    | SUBTREE =>
      rw [show updChildren NodeType.SUBTREE pn.children [nodes.length] =
        [nodes.length] from rfl]
      simp [List.get?_eq_getElem?, List.getElem?_set_self', hqlt]
    | ACTION =>
      dsimp only
      rw [show updChildren NodeType.ACTION pn.children [nodes.length] =
        pn.children from rfl]
      rw [← ht]
      exact hq
    | CONDITION =>
      dsimp only
      rw [show updChildren NodeType.CONDITION pn.children [nodes.length] =
        pn.children from rfl]
      rw [← ht]
      exact hq
  · intro hne
    cases parentIdx with
    | none => exact hq
    | some p =>
      have hpq : p ≠ q := fun hh => hne (by rw [hh])
      simp only [linkParent]
      cases hp : nodes.get? p with
      | none => exact hq
      | some pp =>
        dsimp only
        cases ht : pp.type with
        | CONTROL =>
          rw [List.get?_eq_getElem?, List.getElem?_set_ne hpq,
            ← List.get?_eq_getElem?]
          exact hq
        | DECORATOR =>
          rw [List.get?_eq_getElem?, List.getElem?_set_ne hpq,
            ← List.get?_eq_getElem?]
          exact hq
        | SUBTREE =>
          rw [List.get?_eq_getElem?, List.getElem?_set_ne hpq,
            ← List.get?_eq_getElem?]
          exact hq
        | ACTION => exact hq
        | CONDITION => exact hq

/-- The round-trip mirror: a run of `recursivelyCreateTree` on elements
satisfying `rtOK` determines its final node list, and re-running the
recursion on the elements the writer prints for the nodes it built replays
the run state for state — and those written elements pass `verifyXML`. -/
theorem mirrorRun (factory : Factory) (roots : List (String × XmlElem)) :
    ∀ fuel : Nat,
    (∀ bbIdx parentIdx el st st1,
      recStep factory roots fuel bbIdx parentIdx el st = .ok st1 →
      rtOK factory el = true →
      (∀ p, parentIdx = some p → p < st.nodes.length) →
      st.nodes.length < st1.nodes.length ∧
      (∀ q pn, st.nodes.get? q = some pn →
        (parentIdx = some q → st1.nodes.get? q =
          some { pn with children := updChildren pn.type pn.children [st.nodes.length] }) ∧
        (parentIdx ≠ some q → st1.nodes.get? q = some pn)) ∧
      (∀ (roots2 : List (String × XmlElem)) (FN : List NodeInst) (fl : Nat),
        (∀ j, st.nodes.length ≤ j → j < st1.nodes.length →
          FN.get? j = st1.nodes.get? j) →
        st1.nodes.length - st.nodes.length ≤ fl →
        recStep factory roots2 fuel bbIdx parentIdx
          (writeNode factory false (extractWNode FN st.nodes.length fl)) st =
          .ok st1 ∧
        verifyStep factory roots2
          (writeNode factory false (extractWNode FN st.nodes.length fl)) =
          .ok ())) ∧
    (∀ bbIdx parentIdx els st st1,
      recChildren factory roots fuel bbIdx parentIdx els st = .ok st1 →
      rtOKList factory els = true →
      (∀ p, parentIdx = some p → p < st.nodes.length) →
      st.nodes.length ≤ st1.nodes.length ∧
      ∃ J : List Nat,
        J.length = els.length ∧
        (∀ q pn, st.nodes.get? q = some pn →
          (parentIdx = some q → st1.nodes.get? q =
            some { pn with children := updChildren pn.type pn.children J }) ∧
          (parentIdx ≠ some q → st1.nodes.get? q = some pn)) ∧
        (∀ (roots2 : List (String × XmlElem)) (FN : List NodeInst) (fl : Nat),
          (∀ j, st.nodes.length ≤ j → j < st1.nodes.length →
            FN.get? j = st1.nodes.get? j) →
          st1.nodes.length - st.nodes.length ≤ fl →
          recChildren factory roots2 fuel bbIdx parentIdx
            (writeNodeList factory false
              (J.map (fun j => extractWNode FN j fl))) st = .ok st1 ∧
          verifyChildren factory roots2
            (writeNodeList factory false
              (J.map (fun j => extractWNode FN j fl))) = .ok ())) := by
  intro fuel
  induction fuel with
  | zero =>
    constructor
    · intro bbIdx parentIdx el st st1 horig hrt hpar
      simp only [recStep, except_throw_eq] at horig
      cases horig
    · intro bbIdx parentIdx els st st1 horig hrtl hpar
      cases els with
      | nil =>
        simp only [recChildren, except_pure_eq] at horig
        injection horig with h
        subst h
        refine ⟨Nat.le_refl _, [], rfl, ?_, ?_⟩
        · intro q pn hq
          constructor
          · intro _
            rw [updChildren_nil]
            exact hq
          · intro _
            exact hq
        · intro roots2 FN fl hagree hfl
          exact ⟨rfl, rfl⟩
      | cons c cs2 =>
        simp only [recChildren, except_throw_eq] at horig
        cases horig
  | succ fuel ih =>
    constructor
    · intro bbIdx parentIdx el st st1 horig hrt hpar
      obtain ⟨n, nattrs, ncs⟩ := el
      simp only [recStep] at horig
      cases hc : createNodeFromXML factory roots (XmlElem.mk n nattrs ncs)
          bbIdx parentIdx st with
      | error e =>
        rw [hc, except_bind_err] at horig
        cases horig
      | ok r =>
        rw [hc, except_bind_ok] at horig
        obtain ⟨nh, hres2, hr1, hr2⟩ := createNode_inv _ _ _ _ _ _ _ hc
        obtain ⟨node, heap1⟩ := nh
        obtain ⟨m, hnode, hid1, hid2, hb, hm, hmt, hname, hckt, hrpc,
          hDec, hAct, hCond, hCtl, hcsL⟩ :=
          resolveNode_rtOK_inv factory roots n nattrs ncs bbIdx st.heap
            node heap1 hres2 hrt
        have htype : node.type = m.type := by rw [hnode]
        have hns : node.type ≠ NodeType.SUBTREE := by rw [htype]; exact hmt
        have hch0 : node.children = [] := by rw [hnode]
        rw [hr1, hr2] at horig
        dsimp only at horig
        rw [if_neg hns] at horig
        simp only [XmlElem.children] at horig
        rw [linkParent_length] at horig
        have hLNlen := linkParent_length st.nodes parentIdx
        have hST2len : ({ st with heap := heap1, nodes := linkParent st.nodes parentIdx ++ [node] } : InstState).nodes.length = st.nodes.length + 1 := by
          dsimp only
          rw [List.length_append, hLNlen]
          rfl
        have hpar2 : ∀ p, (some st.nodes.length : Option Nat) = some p →
            p < ({ st with heap := heap1, nodes := linkParent st.nodes parentIdx ++ [node] } : InstState).nodes.length := by
          intro p hp
          injection hp with h
          rw [← h, hST2len]
          omega
        obtain ⟨hmono2, J, hJlen, hchar2, hreplay2⟩ :=
          ih.2 bbIdx (some st.nodes.length) ncs _ st1 horig hcsL hpar2
        rw [hST2len] at hmono2
        refine ⟨by omega, ?_, ?_⟩
        · intro q pn hq
          have hqlt : q < st.nodes.length := get?_some_lt _ _ _ hq
          constructor
          · intro hpq
            have hLN := (linkParent_get st.nodes parentIdx q pn hq).1 hpq
            have hstt : ({ st with heap := heap1, nodes := linkParent st.nodes parentIdx ++ [node] } : InstState).nodes.get? q = some { pn with children := updChildren pn.type pn.children [st.nodes.length] } := by
              dsimp only
              rw [get?_append_lt _ _ _ (by rw [hLNlen]; exact hqlt)]
              exact hLN
            exact (hchar2 q _ hstt).2
              (by intro hh; injection hh with hh2; omega)
          · intro hnpq
            have hLN := (linkParent_get st.nodes parentIdx q pn hq).2 hnpq
            have hstt : ({ st with heap := heap1, nodes := linkParent st.nodes parentIdx ++ [node] } : InstState).nodes.get? q = some pn := by
              dsimp only
              rw [get?_append_lt _ _ _ (by rw [hLNlen]; exact hqlt)]
              exact hLN
            exact (hchar2 q _ hstt).2
              (by intro hh; injection hh with hh2; omega)
        · intro roots2 FN fl hagree hfl
          have hm1 : st.nodes.length < st1.nodes.length := by omega
          cases fl with
          | zero => omega
          | succ flE =>
            have hqidx : ({ st with heap := heap1, nodes := linkParent st.nodes parentIdx ++ [node] } : InstState).nodes.get? st.nodes.length = some node := by
              dsimp only
              rw [show st.nodes.length =
                (linkParent st.nodes parentIdx).length from hLNlen.symm]
              exact get?_append_len _ [] node
            have hidxJ := (hchar2 st.nodes.length node hqidx).1 rfl
            have hCH : updChildren node.type node.children J = J := by
              rw [hch0, htype]
              cases hmm2 : m.type with
              | CONTROL =>
                rw [updChildren_control]
                simp
              | DECORATOR =>
                have h1 : J.length = 1 := by rw [hJlen, hDec hmm2]
                cases J with
                | nil => exact absurd h1 (by simp)
                | cons j J2 =>
                  cases J2 with
                  | nil => rfl
                  | cons j2 J3 => exact absurd h1 (by simp)
              | ACTION =>
                have h0 : J.length = 0 := by rw [hJlen, hAct hmm2]
                cases J with
                | nil => rfl
                | cons j J2 => exact absurd h0 (by simp)
              | CONDITION =>
                have h0 : J.length = 0 := by rw [hJlen, hCond hmm2]
                cases J with
                | nil => rfl
                | cons j J2 => exact absurd h0 (by simp)
              | SUBTREE => exact absurd hmm2 hmt
            rw [hCH] at hidxJ
            have hFNidx : FN.get? st.nodes.length =
                some { node with children := J } := by
              rw [hagree st.nodes.length (Nat.le_refl _) hm1]
              exact hidxJ
            have hip : node.input_ports =
                (collectRemapping nattrs).filter (fInB m.ports) := by
              rw [hnode]
            have hop : node.output_ports =
                (collectRemapping nattrs).filter (fOutB m.ports) := by
              rw [hnode]
            have hW : extractWNode FN st.nodes.length (flE + 1) =
                WNode.mk m.type node.registration_ID node.instance_name
                  node.input_ports node.output_ports
                  (J.map (fun j => extractWNode FN j flE)) := by
              simp only [extractWNode]
              rw [hFNidx]
              dsimp only
              rw [htype]
            have hnodeEq : (⟨node.registration_ID, node.instance_name, m.type,
                node.input_ports, node.output_ports, [], []⟩ : NodeInst) =
                node := by
              rw [hnode]
            have hresW := writeNode_resolve factory roots2 bbIdx st.heap heap1
              node.registration_ID node.instance_name m nattrs
              (collectRemapping nattrs) node.input_ports node.output_ports rfl
              hip hop hid1 hid2 hb hm hmt hname hckt hrpc
              (J.map (fun j => extractWNode FN j flE))
            rw [hnodeEq] at hresW
            have hkidEq : (writeNode factory false (WNode.mk m.type
                node.registration_ID node.instance_name node.input_ports
                node.output_ports
                (J.map (fun j => extractWNode FN j flE)))).children =
                writeNodeList factory false
                  (J.map (fun j => extractWNode FN j flE)) := by
              simp only [writeNode, XmlElem.children]
              cases hmm2 : m.type with
              | CONTROL => rfl
              | DECORATOR => rfl
              | SUBTREE => rfl
              | ACTION =>
                have h0 : J = [] := by
                  have h1 := hJlen
                  rw [hAct hmm2] at h1
                  exact List.length_eq_zero.mp h1
                rw [h0]
                rfl
              | CONDITION =>
                have h0 : J = [] := by
                  have h1 := hJlen
                  rw [hCond hmm2] at h1
                  exact List.length_eq_zero.mp h1
                rw [h0]
                rfl
            have hagree2 : ∀ j, ({ st with heap := heap1, nodes := linkParent st.nodes parentIdx ++ [node] } : InstState).nodes.length ≤ j → j < st1.nodes.length →
                FN.get? j = st1.nodes.get? j := by
              intro j h1 h2
              rw [hST2len] at h1
              exact hagree j (by omega) h2
            have hfl2 : st1.nodes.length - ({ st with heap := heap1, nodes := linkParent st.nodes parentIdx ++ [node] } : InstState).nodes.length ≤ flE := by
              rw [hST2len]
              omega
            obtain ⟨hrun2, hver2⟩ := hreplay2 roots2 FN flE hagree2 hfl2
            constructor
            · rw [hW]
              simp only [recStep, createNodeFromXML, hresW, except_bind_ok,
                except_pure_eq]
              rw [if_neg hns]
              rw [linkParent_length, hkidEq]
              exact hrun2
            · rw [hW]
              apply writeNode_verify factory roots2 node.registration_ID
                node.instance_name m node.input_ports node.output_ports
                (J.map (fun j => extractWNode FN j flE))
                hid1 hid2 hm hmt ?_ ?_ hver2
              · intro hd
                rw [List.length_map, hJlen, hDec hd]
              · intro hc2 hbi hwnil
                have hJn : J = [] := List.map_eq_nil_iff.mp hwnil
                exact hCtl hc2 hbi (by rw [← hJlen, hJn]; rfl)
    · intro bbIdx parentIdx els st st1 horig hrtl hpar
      cases els with
      | nil =>
        simp only [recChildren, except_pure_eq] at horig
        injection horig with h
        subst h
        refine ⟨Nat.le_refl _, [], rfl, ?_, ?_⟩
        · intro q pn hq
          constructor
          · intro _
            rw [updChildren_nil]
            exact hq
          · intro _
            exact hq
        · intro roots2 FN fl hagree hfl
          exact ⟨rfl, rfl⟩
      | cons c cs2 =>
        simp only [recChildren] at horig
        cases hs : recStep factory roots fuel bbIdx parentIdx c st with
        | error e =>
          rw [hs, except_bind_err] at horig
          cases horig
        | ok stm =>
          rw [hs, except_bind_ok] at horig
          simp only [rtOKList, Bool.and_eq_true] at hrtl
          obtain ⟨hrtc, hrtcs⟩ := hrtl
          obtain ⟨hmono1, hchar1, hreplay1⟩ :=
            ih.1 bbIdx parentIdx c st stm hs hrtc hpar
          have hpar2 : ∀ p, parentIdx = some p → p < stm.nodes.length :=
            fun p hp => lt_of_lt_of_le (hpar p hp) (Nat.le_of_lt hmono1)
          obtain ⟨hmono2, J2, hJ2len, hchar2, hreplay2⟩ :=
            ih.2 bbIdx parentIdx cs2 stm st1 horig hrtcs hpar2
          refine ⟨by omega, st.nodes.length :: J2, by simp [hJ2len], ?_, ?_⟩
          · intro q pn hq
            constructor
            · intro hpq
              have h1 := (hchar1 q pn hq).1 hpq
              have h2 := (hchar2 q _ h1).1 hpq
              dsimp only at h2
              rw [updChildren_append] at h2
              simp only [List.cons_append, List.nil_append] at h2
              exact h2
            · intro hnpq
              exact (hchar2 q pn ((hchar1 q pn hq).2 hnpq)).2 hnpq
          · intro roots2 FN fl hagree hfl
            have hagree1 : ∀ j, st.nodes.length ≤ j → j < stm.nodes.length →
                FN.get? j = stm.nodes.get? j := by
              intro j h1 h2
              obtain ⟨pj, hj⟩ := get?_lt_some stm.nodes j h2
              have hpres := (hchar2 j pj hj).2
                (fun hh => absurd (hpar j hh) (by omega))
              rw [hagree j h1 (lt_of_lt_of_le h2 hmono2), hpres, hj]
            have hfl1 : stm.nodes.length - st.nodes.length ≤ fl := by omega
            obtain ⟨hrun1, hver1⟩ := hreplay1 roots2 FN fl hagree1 hfl1
            have hagree2 : ∀ j, stm.nodes.length ≤ j → j < st1.nodes.length →
                FN.get? j = st1.nodes.get? j :=
              fun j h1 h2 => hagree j (by omega) h2
            have hfl2 : st1.nodes.length - stm.nodes.length ≤ fl := by omega
            obtain ⟨hrun2, hver2⟩ := hreplay2 roots2 FN fl hagree2 hfl2
            constructor
            · simp only [List.map_cons, writeNodeList, recChildren]
              rw [hrun1, except_bind_ok]
              exact hrun2
            · simp only [List.map_cons, writeNodeList, verifyChildren]
              rw [hver1, except_bind_ok]
              exact hver2


/-- `verifyXML` accepts the document the writer prints, given that the
serialized tree root passes the recursive check. -/
theorem verifyDoc_written (factory : Factory)
    (roots2 : List (String × XmlElem)) (W : XmlElem)
    (tattrs : List (String × String)) (tcs : List XmlElem)
    (hver : verifyStep factory roots2 W = .ok ()) :
    verifyDoc factory roots2 (XmlElem.mk "root" []
      [XmlElem.mk "BehaviorTree" [] [W],
       XmlElem.mk "TreeNodesModel" tattrs tcs]) = .ok () := by
  simp [verifyDoc, mainTreeCheck, isKindName, XmlElem.ename, XmlElem.children,
    XmlElem.attr, XmlElem.attrs, List.forIn_cons, List.forIn_nil, hver,
    except_bind_ok, except_pure_eq, except_bind_err, except_throw_eq]


/-- `loadFromText` on the document the writer prints: no includes, one
`<BehaviorTree>` registered under the auto-generated key, validation
succeeds. -/
theorem load_written_doc (fs : Filesystem) (factory : Factory) (fl : Nat)
    (W : XmlElem) (tattrs : List (String × String)) (tcs : List XmlElem)
    (hver : verifyStep factory
      [("BehaviorTree_0", XmlElem.mk "BehaviorTree" [] [W])] W = .ok ()) :
    loadFromText fs factory (fl + 1)
      (some (XmlElem.mk "root" [] [XmlElem.mk "BehaviorTree" [] [W],
        XmlElem.mk "TreeNodesModel" tattrs tcs])) (initState fs) =
    .ok ⟨[XmlElem.mk "root" [] [XmlElem.mk "BehaviorTree" [] [W],
        XmlElem.mk "TreeNodesModel" tattrs tcs]],
      [("BehaviorTree_0", XmlElem.mk "BehaviorTree" [] [W])], fs.cwd, 1⟩ := by
  simp only [loadFromText, initState, List.nil_append, loadDocImpl]
  rw [show includeElems (XmlElem.mk "root" []
    [XmlElem.mk "BehaviorTree" [] [W],
     XmlElem.mk "TreeNodesModel" tattrs tcs]) = [] from by
      simp [includeElems, XmlElem.ename, XmlElem.children]]
  simp only [goIncludes, except_pure_eq, except_bind_ok]
  rw [show registerDoc ([] : List (String × XmlElem)) 0
    (XmlElem.mk "root" [] [XmlElem.mk "BehaviorTree" [] [W],
      XmlElem.mk "TreeNodesModel" tattrs tcs]) =
    ([("BehaviorTree_0", XmlElem.mk "BehaviorTree" [] [W])], 1) from by
      simp only [registerDoc, registerBT, XmlElem.ename, XmlElem.children,
        XmlElem.attr, XmlElem.attrs, trInsert, alookup, List.filter_cons,
        List.filter_nil, List.foldl]
      rfl]
  dsimp only
  rw [verifyDoc_written factory _ W tattrs tcs hver]
  rfl


/-- Round-trip assembly: a tree instantiated from a selected root element
satisfying `rtOK` can be written, re-loaded and re-instantiated to the very
same state. -/
theorem roundtrip_core (fs : Filesystem) (factory : Factory)
    (roots : List (String × XmlElem)) (fuel : Nat) (bb0 : BBData)
    (st : InstState) (mid : String) (bt rootEl : XmlElem)
    (hbt : alookup roots mid = some bt)
    (hhead : bt.children.head? = some rootEl)
    (hrt : rtOK factory rootEl = true)
    (hrun : recTree factory roots fuel mid ⟨[bb0], [], [0]⟩ none 0 = .ok st) :
    ∃ pst2,
      loadFromText fs factory fuel
        (some (writeXML factory
          (some (extractWNode st.nodes 0 st.nodes.length)) false))
        (initState fs) = .ok pst2 ∧
      instantiateTree factory pst2 fuel (some bb0) = .ok st := by
  cases fuel with
  | zero =>
    simp only [recTree, except_throw_eq] at hrun
    cases hrun
  | succ fl =>
    simp only [recTree, hbt, hhead] at hrun
    obtain ⟨hmono, hchar, hreplay⟩ := (mirrorRun factory roots fl).1 0 none
      rootEl ⟨[bb0], [], [0]⟩ st hrun hrt (fun p hp => by cases hp)
    obtain ⟨hrun2, hver2⟩ := hreplay
      [("BehaviorTree_0", XmlElem.mk "BehaviorTree" []
        [writeNode factory false (extractWNode st.nodes 0 st.nodes.length)])]
      st.nodes st.nodes.length (fun j h1 h2 => rfl) (Nat.sub_le _ _)
    refine ⟨⟨[XmlElem.mk "root" [] [XmlElem.mk "BehaviorTree" []
        [writeNode factory false (extractWNode st.nodes 0 st.nodes.length)],
       XmlElem.mk "TreeNodesModel" []
         ((factory.manifests.filter
            (fun mm => !(factory.builtinNodes.contains mm.1) &&
              !(mm.2.type == NodeType.CONTROL))).map
           (fun mm => XmlElem.mk (toStrNT mm.2.type) (modelAttrs mm.2) []))]],
      [("BehaviorTree_0", XmlElem.mk "BehaviorTree" []
        [writeNode factory false (extractWNode st.nodes 0 st.nodes.length)])],
      fs.cwd, 1⟩, ?_, ?_⟩
    · rw [show writeXML factory
          (some (extractWNode st.nodes 0 st.nodes.length)) false =
        XmlElem.mk "root" [] [XmlElem.mk "BehaviorTree" []
          [writeNode factory false (extractWNode st.nodes 0 st.nodes.length)],
         XmlElem.mk "TreeNodesModel" []
           ((factory.manifests.filter
              (fun mm => !(factory.builtinNodes.contains mm.1) &&
                !(mm.2.type == NodeType.CONTROL))).map
             (fun mm => XmlElem.mk (toStrNT mm.2.type) (modelAttrs mm.2) []))]
        from rfl]
      exact load_written_doc fs factory fl
        (writeNode factory false (extractWNode st.nodes 0 st.nodes.length))
        [] _ hver2
    · exact hrun2


/-- C1 counterexample: the subtree scenario is accepted by loader and
validator and instantiates, but serializing the resulting tree root with
`writeXML` yields a document the loader rejects — the writer prints the
expanded subtree body as the child of the `<SubTree>` element, which
`verifyXML` only allows `<remap>` children. -/
theorem subtree_roundtrip_fails :
    loadFromText fsEmpty facSub 20 (some docSub) (initState fsEmpty) =
      .ok pstSub ∧
    instantiateTree facSub pstSub 20 (some bbRoot) = .ok stSub ∧
    loadFromText fsEmpty facSub 20
      (some (writeXML facSub
        (some (extractWNode stSub.nodes 0 stSub.nodes.length)) false))
      (initState fsEmpty) =
    .error (.SchemaError "<SubTree> accept only childs of type <remap>") :=
  ⟨by rfl, by rfl, by rfl⟩

/-- C1: for a parser state whose selected main-tree root element passes the
round-trip side conditions `rtOK` (every element resolves to a registered
non-subtree builder with matching arity, no `SubTree` elements), a
successful instantiation can be serialized with `writeXML` and the printed
document loads, validates and re-instantiates to the very same tree state:
same node kinds, same instance names, same port maps, same child order. -/
theorem writer_parser_roundtrip (fs : Filesystem) (factory : Factory)
    (pst : ParserState) (fuel : Nat) (bb0 : BBData) (st : InstState)
    (rootEl : XmlElem)
    (hsel : selectedTreeRoot pst = some rootEl)
    (hrt : rtOK factory rootEl = true)
    (hinst : instantiateTree factory pst fuel (some bb0) = .ok st) :
    ∃ pst2,
      loadFromText fs factory fuel
        (some (writeXML factory
          (some (extractWNode st.nodes 0 st.nodes.length)) false))
        (initState fs) = .ok pst2 ∧
      instantiateTree factory pst2 fuel (some bb0) = .ok st := by
  simp only [selectedTreeRoot] at hsel
  simp only [instantiateTree] at hinst
  cases hhd : pst.opened_documents.head? with
  | none =>
    rw [hhd] at hsel
    simp at hsel
  | some xroot =>
    rw [hhd] at hsel hinst
    simp only [Option.bind_eq_bind, Option.some_bind] at hsel
    simp only [except_pure_eq, except_bind_ok] at hinst
    cases hattr : xroot.attr "main_tree_to_execute" with
    | some mid =>
      rw [hattr] at hsel hinst
      simp only [Option.bind_eq_bind, Option.some_bind] at hsel
      simp only [except_pure_eq, except_bind_ok] at hinst
      cases hbt : alookup pst.tree_roots mid with
      | none =>
        rw [hbt] at hsel
        simp at hsel
      | some bt =>
        rw [hbt] at hsel
        simp only [Option.bind_eq_bind, Option.some_bind] at hsel
        exact roundtrip_core fs factory pst.tree_roots fuel bb0 st mid bt
          rootEl hbt hsel hrt hinst
    | none =>
      rw [hattr] at hsel hinst
      cases htr : pst.tree_roots with
      | nil =>
        rw [htr] at hsel
        simp at hsel
      | cons r rest =>
        cases rest with
        | nil =>
          rw [htr] at hsel hinst
          simp only [Option.bind_eq_bind, Option.some_bind] at hsel
          simp only [except_pure_eq, except_bind_ok] at hinst
          rw [show alookup [r] r.1 = some r.2 from by simp [alookup]] at hsel
          simp only [Option.bind_eq_bind, Option.some_bind] at hsel
          exact roundtrip_core fs factory [r] fuel bb0 st r.1 r.2 rootEl
            (by simp [alookup]) hsel hrt hinst
        | cons r2 rest2 =>
          rw [htr] at hsel
          simp at hsel

/-- C1 witness: the round-trip scenario satisfies the side conditions, and
its tree serializes and re-instantiates to the same state. -/
theorem writer_parser_roundtrip_witness :
    selectedTreeRoot pstRT = some (XmlElem.mk "Seq1" []
      [XmlElem.mk "Action" [("ID", "Say"), ("msg", "\x7bk\x7d")] [],
       XmlElem.mk "Inv" []
         [XmlElem.mk "Say" [("name", "mySay"), ("out", "\x7bo\x7d")] []]]) ∧
    rtOK facRT (XmlElem.mk "Seq1" []
      [XmlElem.mk "Action" [("ID", "Say"), ("msg", "\x7bk\x7d")] [],
       XmlElem.mk "Inv" []
         [XmlElem.mk "Say" [("name", "mySay"), ("out", "\x7bo\x7d")] []]]) = true ∧
    instantiateTree facRT pstRT 20 (some bbRoot) = .ok stRT ∧
    ∃ pst2,
      loadFromText fsEmpty facRT 20
        (some (writeXML facRT
          (some (extractWNode stRT.nodes 0 stRT.nodes.length)) false))
        (initState fsEmpty) = .ok pst2 ∧
      instantiateTree facRT pst2 20 (some bbRoot) = .ok stRT :=
  ⟨by rfl, by rfl, by rfl,
    writer_parser_roundtrip fsEmpty facRT pstRT 20 bbRoot stRT
      (XmlElem.mk "Seq1" []
        [XmlElem.mk "Action" [("ID", "Say"), ("msg", "\x7bk\x7d")] [],
         XmlElem.mk "Inv" []
           [XmlElem.mk "Say" [("name", "mySay"), ("out", "\x7bo\x7d")] []]])
      (by rfl) (by rfl) (by rfl)⟩

end BTS
